import Mathlib

/-! # Velodyne point stream (`sensors/lidars/velodyne/stream.h`)

A shallow embedding of `snark::velodyne::stream< S >`: the firing-slot
sequencer `stream::index`, the angular speed estimate, and the pull
operations `read`, `skip_scan`, `scan` and `close`.

Conventions of the embedding:

* C++ `unsigned int` values are natural numbers with every increment and
  decrement reduced modulo `2^32`.
* `double` values are the rationals they denote, extended with the IEEE
  special values (`DoubleVal`); every conversion and division rounds its
  exact result to the nearest binary64 value, ties to even
  (`DoubleVal.round`). The sign of zero is not modelled.
* The packet source `S`, the tick watch `scan_tick` and the helpers of
  `impl/` are not part of this header; they are parameters (`Collab`).
* A pointer that may be `NULL` is an `Option`; dereferencing `NULL` is
  the outcome `fault`.
-/

namespace snark.velodyne

/-! ## Machine integers -/

/-- Modulus of C++ `unsigned int` arithmetic. -/
def UINT_MOD : Nat := 4294967296

/-- Unsigned pre-increment `++x`. -/
def uinc (x : Nat) : Nat := (x + 1) % UINT_MOD

/-- Unsigned pre-decrement `--x`. -/
def udec (x : Nat) : Nat := (x + UINT_MOD - 1) % UINT_MOD

/-! ## The firing-slot sequencer `stream::index` -/

/-- The enum constant `m_size = 12 * 32`. -/
def m_size : Nat := 12 * 32

/-- The nested struct `stream::index` ("quick and dirty"). -/
structure index where
  idx : Nat
  block : Nat
  laser : Nat
deriving DecidableEq, Repr

/-- The default constructor `index()`. -/
def index.fresh : index := { idx := 0, block := 0, laser := 0 }

/-- The pre-increment `index::operator++`. -/
def index.inc (i : index) : index :=
  let idx1 := uinc i.idx
  if i.block &&& 0x1 ≠ 0 then
    let laser1 := uinc i.laser
    if laser1 < 32 then { idx := idx1, block := udec i.block, laser := laser1 }
    else { idx := idx1, block := uinc i.block, laser := 0 }
  else
    { idx := idx1, block := uinc i.block, laser := i.laser }

/-- The index reached from `index()` by `n` applications of `operator++`. -/
def index.after (n : Nat) : index := index.inc^[n] index.fresh

/-- The `(block, laser)` slot observed at position `n` of a packet. -/
def slotAt (n : Nat) : Nat × Nat := ((index.after n).block, (index.after n).laser)

/-! ## Values of type `double` and `boost::posix_time::ptime` -/

/-- A value of type `double`: a finite value, given as the rational it
denotes, or one of the IEEE special values. The sign of zero is not modelled
(every zero is `+0`); the divisors of `angularSpeed()`, the only divisions of
the header, are `100`, `1e6` and a converted integer over `1e6`, never `-0`. -/
inductive DoubleVal where
  | fin (q : ℚ)
  | posInf
  | negInf
  | nan
deriving DecidableEq

/-- Unary minus on `double`. -/
def DoubleVal.neg : DoubleVal → DoubleVal
  | DoubleVal.fin q => DoubleVal.fin (-q)
  | DoubleVal.posInf => DoubleVal.negInf
  | DoubleVal.negInf => DoubleVal.posInf
  | DoubleVal.nan => DoubleVal.nan

/-- The binary64 value nearest to the positive real `q`, ties to the even
significand (the IEEE default rounding): 53 significant bits, exponents down
to `-1022` with gradual underflow below, and `+infinity` once the rounded
value reaches `2^1024`. -/
def DoubleVal.round_pos (q : ℚ) : DoubleVal :=
  let e : Int := max (Int.log 2 q) (-1022)
  let ulp : ℚ := (2 : ℚ) ^ (e - 52)
  let m : ℚ := q / ulp
  let n : Int := ⌊m⌋
  let k : Int :=
    if m - n < 1 / 2 then n
    else if 1 / 2 < m - n then n + 1
    else if n % 2 = 0 then n else n + 1
  if (k : ℚ) * ulp < (2 : ℚ) ^ (1024 : Nat) then DoubleVal.fin (k * ulp) else DoubleVal.posInf

/-- The `double` that an exact real result `q` is rounded to. -/
def DoubleVal.round (q : ℚ) : DoubleVal :=
  if 0 < q then DoubleVal.round_pos q
  else if q < 0 then DoubleVal.neg (DoubleVal.round_pos (-q))
  else DoubleVal.fin 0

/-- The conversion `double( z )` of an integer. -/
def DoubleVal.ofInt (z : Int) : DoubleVal := DoubleVal.round z

/-- IEEE division `a / b`: the exact quotient rounded to `double`; a zero
divisor gives an infinity or NaN. -/
def DoubleVal.div : DoubleVal → DoubleVal → DoubleVal
  | DoubleVal.fin a, DoubleVal.fin b =>
    if b = 0 then
      (if a = 0 then DoubleVal.nan else if 0 < a then DoubleVal.posInf else DoubleVal.negInf)
    else DoubleVal.round (a / b)
  | DoubleVal.fin _, DoubleVal.posInf => DoubleVal.fin 0
  | DoubleVal.fin _, DoubleVal.negInf => DoubleVal.fin 0
  | DoubleVal.posInf, DoubleVal.fin b => if 0 ≤ b then DoubleVal.posInf else DoubleVal.negInf
  | DoubleVal.negInf, DoubleVal.fin b => if 0 ≤ b then DoubleVal.negInf else DoubleVal.posInf
  | _, _ => DoubleVal.nan

/-- A `boost::posix_time::ptime`: `none` is `not_a_date_time` (the value of a
default-constructed `ptime`), `some t` a time in microseconds. -/
abbrev ptime := Option Int

/-! ## Packets -/

/-- Modelled from the spec: one firing of `packet.h` (not part of the sources),
a 2-byte distance and a 1-byte intensity. -/
structure firing where
  range : Nat
  intensity : Nat

/-- Modelled from the spec: one block of `packet.h` (not part of the sources),
a 2-byte rotation in hundredths of a degree and 32 firings. -/
structure laser_block where
  rotation : Nat
  lasers : Fin 32 → firing

/-- Modelled from the spec: the packet of `packet.h` (not part of the
sources), 12 consecutive blocks. -/
structure packet where
  blocks : Fin 12 → laser_block

/-! ## Collaborators of the stream

Everything `stream.h` calls but does not define: the source type `S` behind
`impl::stream_traits< S >`, the state `K` of `scan_tick`, the return type `R`
(`laser_return`) and the helpers of `impl/`. -/

/-- The operations `stream.h` uses from other headers. -/
structure Collab (S K R : Type) where
  /-- The call `impl::stream_traits< S >::read( *m_stream, sizeof( packet ) )`;
  `none` is `NULL`. -/
  traits_read : S → Option packet × S
  /-- The call `impl::stream_traits< S >::is_new_scan( m_tick, *m_stream, *m_packet )`. -/
  traits_is_new_scan : K → S → packet → Bool × K × S
  /-- The call `impl::stream_traits< S >::timestamp( *m_stream )`. -/
  traits_timestamp : S → ptime
  /-- The call `impl::stream_traits< S >::close( *m_stream )`. -/
  traits_close : S → S
  /-- The call `m_tick.is_new_scan( *m_packet )` of `scan_tick`. -/
  tick_is_new_scan : K → packet → Bool × K
  /-- The value of `impl::time_offset( block, laser )` in microseconds. -/
  time_offset : Nat → Nat → Int
  /-- The call `impl::get_laser_return( packet, block, laser, timestamp,
  angularSpeed, legacy )`. -/
  get_laser_return : packet → Nat → Nat → ptime → DoubleVal → Bool → R
  /-- The test `comma::math::equal( r.range, 0 )` on a laser return. -/
  range_equal_zero : R → Bool
  /-- A default-constructed `scan_tick`. -/
  tick_default : K
  /-- A default-constructed `laser_return`. -/
  laser_return_default : R

/-! ## The stream -/

/-- The data members of `stream< S >`; a `NULL` `m_packet` is `none`. -/
structure stream (S K R : Type) where
  m_angularSpeed : Option DoubleVal
  m_outputInvalid : Bool
  m_stream : S
  m_timestamp : ptime
  m_packet : Option packet
  m_index : index
  m_scan : Nat
  m_tick : K
  m_closed : Bool
  m_laserReturn : R
  m_legacy : Bool

/-- The constructor `stream( S* stream, unsigned int rpm, bool outputInvalid, bool legacy )`.
The product `( 360 / 60 ) * rpm` is formed in `unsigned int` and then
converted to `double`. -/
def stream.with_rpm {S K R : Type} (C : Collab S K R) (src : S) (rpm : Nat)
    (outputInvalid legacy : Bool) : stream S K R :=
  { m_angularSpeed := some (DoubleVal.ofInt (((360 / 60) * rpm % UINT_MOD : Nat) : Int))
    m_outputInvalid := outputInvalid
    m_stream := src
    m_timestamp := none
    m_packet := none
    m_index := { idx := m_size, block := 0, laser := 0 }
    m_scan := 0
    m_tick := C.tick_default
    m_closed := false
    m_laserReturn := C.laser_return_default
    m_legacy := legacy }

/-- The constructor `stream( S* stream, bool outputInvalid, bool legacy )`. -/
def stream.without_rpm {S K R : Type} (C : Collab S K R) (src : S)
    (outputInvalid legacy : Bool) : stream S K R :=
  { m_angularSpeed := none
    m_outputInvalid := outputInvalid
    m_stream := src
    m_timestamp := none
    m_packet := none
    m_index := { idx := m_size, block := 0, laser := 0 }
    m_scan := 0
    m_tick := C.tick_default
    m_closed := false
    m_laserReturn := C.laser_return_default
    m_legacy := legacy }

/-- Either constructor: `some rpm` is fixed mode, `none` is self-estimating mode. -/
def stream.construct {S K R : Type} (C : Collab S K R) (src : S) (mode : Option Nat)
    (outputInvalid legacy : Bool) : stream S K R :=
  match mode with
  | some rpm => stream.with_rpm C src rpm outputInvalid legacy
  | none => stream.without_rpm C src outputInvalid legacy

/-- The rotation delta `blocks[0].rotation() - blocks[11].rotation()`: two
16-bit values subtracted after promotion to `int`. -/
def rotation_delta (p : packet) : Int :=
  ((p.blocks 0).rotation : Int) - ((p.blocks 11).rotation : Int)

/-- The time delta `( time_offset( 0, 0 ) - time_offset( 11, 0 ) ).total_microseconds()`. -/
def time_delta {S K R : Type} (C : Collab S K R) : Int :=
  C.time_offset 0 0 - C.time_offset 11 0

/-- The self-estimate computed by `angularSpeed()` from a packet:
`da / dt` with `da = double( delta ) / 100` and `dt = double( micros ) / 1e6`. -/
def self_estimate {S K R : Type} (C : Collab S K R) (p : packet) : DoubleVal :=
  let da := DoubleVal.div (DoubleVal.ofInt (rotation_delta p)) (DoubleVal.fin 100)
  let dt := DoubleVal.div (DoubleVal.ofInt (time_delta C)) (DoubleVal.fin 1000000)
  DoubleVal.div da dt

/-- The member function `angularSpeed()`; `none` when it dereferences a `NULL`
`m_packet`. -/
def stream.angularSpeed {S K R : Type} (C : Collab S K R) (st : stream S K R) :
    Option DoubleVal :=
  match st.m_angularSpeed with
  | some w => some w
  | none =>
    match st.m_packet with
    | none => none
    | some p => some (self_estimate C p)

/-- The member function `scan()`. -/
def stream.scan {S K R : Type} (st : stream S K R) : Nat := st.m_scan

/-! ## Observations

The calls a stream makes on its collaborators, in order. The trace is not
part of the program state; it records what an execution did. -/

/-- One observable action of the stream. -/
inductive Event where
  /-- A call of `stream_traits::read`, made with `m_index.idx` as it was
  when the call was decided, and what it delivered. -/
  | fetch (idx_before : Nat) (got : Option packet)
  /-- A call of `get_laser_return` with its arguments. -/
  | decode (p : packet) (block laser : Nat) (timestamp : ptime) (speed : DoubleVal)
      (legacy : Bool)
  /-- A dereference of `m_packet` while it is `NULL`. -/
  | null_deref
  /-- A call of `stream_traits::close`. -/
  | close_source

/-- What `read()` hands back: a pointer to the laser return, `NULL`, or no
return at all because `NULL` was dereferenced (undefined behaviour). -/
inductive read_result (R : Type) where
  | point (r : R)
  | end_of_stream
  | fault

/-- The effect of a piece of code: the state it leaves, the actions it made,
and its result; `result = none` means that it has not returned (yet). -/
structure Step (σ α : Type) where
  state : σ
  events : List Event
  result : Option α

/-- Line 155 of `read()`: a timestamp that is still `not_a_date_time` is
taken from the source. -/
def stream.refresh_timestamp {S K R : Type} (C : Collab S K R) (st : stream S K R) :
    stream S K R :=
  if st.m_timestamp = none then { st with m_timestamp := C.traits_timestamp st.m_stream }
  else st

/-- Lines 155-159 of `read()`: refresh an unset timestamp, build the return
for the slot under the index, advance the index, and decide whether to
return it. -/
def stream.read_decode {S K R : Type} (C : Collab S K R) (st : stream S K R) :
    Step (stream S K R) (read_result R) :=
  let st1 := stream.refresh_timestamp C st
  match st1.m_packet with
  | none => { state := st1, events := [Event.null_deref], result := some read_result.fault }
  | some p =>
    match stream.angularSpeed C st1 with
    | none => { state := st1, events := [Event.null_deref], result := some read_result.fault }
    | some w =>
      let r := C.get_laser_return p st1.m_index.block st1.m_index.laser st1.m_timestamp w
        st1.m_legacy
      let st2 : stream S K R := { st1 with m_laserReturn := r, m_index := st1.m_index.inc }
      let valid := !C.range_equal_zero r
      { state := st2
        events := [Event.decode p st1.m_index.block st1.m_index.laser st1.m_timestamp w
          st1.m_legacy]
        result := if valid || st2.m_outputInvalid then some (read_result.point r) else none }

/-- Lines 148-149 of `read()` and 175-176 of `skip_scan()`: reset the index and
ask the source for a packet. -/
def stream.fetch {S K R : Type} (C : Collab S K R) (st : stream S K R) : stream S K R :=
  let got := C.traits_read st.m_stream
  { st with m_index := index.fresh, m_packet := got.1, m_stream := got.2 }

/-- Lines 152-153 of `read()`: count the packet `p` as a new scan if
`stream_traits::is_new_scan` says so, then take its timestamp. -/
def stream.count_scan {S K R : Type} (C : Collab S K R) (st : stream S K R) (p : packet) :
    stream S K R :=
  let ns := C.traits_is_new_scan st.m_tick st.m_stream p
  let st2 : stream S K R :=
    { st with m_tick := ns.2.1, m_stream := ns.2.2,
              m_scan := if ns.1 then uinc st.m_scan else st.m_scan }
  { st2 with m_timestamp := C.traits_timestamp st2.m_stream }

/-- One pass through the body of the `while` loop of `read()` (lines 146-159). -/
def stream.read_body {S K R : Type} (C : Collab S K R) (st : stream S K R) :
    Step (stream S K R) (read_result R) :=
  if st.m_index.idx ≥ m_size then
    let st1 := stream.fetch C st
    match st1.m_packet with
    | none =>
      { state := st1, events := [Event.fetch st.m_index.idx none],
        result := some read_result.end_of_stream }
    | some p =>
      let d := stream.read_decode C (stream.count_scan C st1 p)
      { state := d.state, events := Event.fetch st.m_index.idx (some p) :: d.events,
        result := d.result }
  else stream.read_decode C st

/-- The member function `read()`: the `while( !m_closed )` loop, run for at
most `fuel` passes. -/
def stream.read {S K R : Type} (C : Collab S K R) :
    Nat → stream S K R → Step (stream S K R) (read_result R)
  | 0, st =>
    if st.m_closed then { state := st, events := [], result := some read_result.end_of_stream }
    else { state := st, events := [], result := none }
  | fuel + 1, st =>
    if st.m_closed then { state := st, events := [], result := some read_result.end_of_stream }
    else
      let b := stream.read_body C st
      match b.result with
      | some o => { state := b.state, events := b.events, result := some o }
      | none =>
        let rest := stream.read C fuel b.state
        { state := rest.state, events := b.events ++ rest.events, result := rest.result }

/-- The member function `close()`. -/
def stream.close {S K R : Type} (C : Collab S K R) (st : stream S K R) :
    Step (stream S K R) Unit :=
  { state := { st with m_closed := true, m_stream := C.traits_close st.m_stream }
    events := [Event.close_source]
    result := some () }

/-- One pass through the body of the `while` loop of `skip_scan()` (lines 175-179). -/
def stream.skip_scan_body {S K R : Type} (C : Collab S K R) (st : stream S K R) :
    Step (stream S K R) Unit :=
  let st1 := stream.fetch C st
  match st1.m_packet with
  | none => { state := st1, events := [Event.fetch st.m_index.idx none], result := some () }
  | some p =>
    let t := C.tick_is_new_scan st1.m_tick p
    let st2 : stream S K R := { st1 with m_tick := t.2 }
    if t.1 then
      { state := { st2 with m_scan := uinc st2.m_scan }
        events := [Event.fetch st.m_index.idx (some p)], result := some () }
    else
      let ns := C.traits_is_new_scan st2.m_tick st2.m_stream p
      let st3 : stream S K R := { st2 with m_tick := ns.2.1, m_stream := ns.2.2 }
      if ns.1 then
        { state := { st3 with m_scan := uinc st3.m_scan }
          events := [Event.fetch st.m_index.idx (some p)], result := some () }
      else
        { state := st3, events := [Event.fetch st.m_index.idx (some p)], result := none }

/-- The member function `skip_scan()`: the `while( !m_closed )` loop, run for
at most `fuel` passes. -/
def stream.skip_scan {S K R : Type} (C : Collab S K R) :
    Nat → stream S K R → Step (stream S K R) Unit
  | 0, st =>
    if st.m_closed then { state := st, events := [], result := some () }
    else { state := st, events := [], result := none }
  | fuel + 1, st =>
    if st.m_closed then { state := st, events := [], result := some () }
    else
      let b := stream.skip_scan_body C st
      match b.result with
      | some u => { state := b.state, events := b.events, result := some u }
      | none =>
        let rest := stream.skip_scan C fuel b.state
        { state := rest.state, events := b.events ++ rest.events, result := rest.result }

/-! ## Calls and runs -/

/-- A call of one of the mutating public member functions; the loops of
`read` and `skip_scan` get a bound on their number of passes. -/
inductive Call where
  | read (fuel : Nat)
  | skip_scan (fuel : Nat)
  | close

/-- What a call hands back to the caller. -/
inductive reply (R : Type) where
  | read (r : read_result R)
  | skip_scan
  | close

/-- The effect of one call. -/
def stream.call {S K R : Type} (C : Collab S K R) (c : Call) (st : stream S K R) :
    Step (stream S K R) (reply R) :=
  match c with
  | Call.read fuel =>
    let r := stream.read C fuel st
    { state := r.state, events := r.events, result := r.result.map reply.read }
  | Call.skip_scan fuel =>
    let r := stream.skip_scan C fuel st
    { state := r.state, events := r.events, result := r.result.map (fun _ => reply.skip_scan) }
  | Call.close =>
    let r := stream.close C st
    { state := r.state, events := r.events, result := r.result.map (fun _ => reply.close) }

/-- A sequence of calls by the single owner of the stream. The run ends at a
call that does not return and at a call that dereferences `NULL`: what the
program does after that is not defined. -/
def stream.run {S K R : Type} (C : Collab S K R) :
    List Call → stream S K R → Step (stream S K R) (List (reply R))
  | [], st => { state := st, events := [], result := some [] }
  | c :: cs, st =>
    let r := stream.call C c st
    match r.result with
    | none => { state := r.state, events := r.events, result := none }
    | some (reply.read read_result.fault) =>
      { state := r.state, events := r.events, result := none }
    | some rep =>
      let rest := stream.run C cs r.state
      { state := rest.state, events := r.events ++ rest.events,
        result := rest.result.map (fun reps => rep :: reps) }

/-- The number of packets that the source delivered in a trace. -/
def fetched : List Event → Nat
  | [] => 0
  | Event.fetch _ (some _) :: rest => fetched rest + 1
  | _ :: rest => fetched rest

/-- The packet and `(block, laser)` slot of a `get_laser_return` call. -/
def Event.slot : Event → Option (packet × (Nat × Nat))
  | Event.decode p b l _ _ _ => some (p, (b, l))
  | _ => none

/-- Whether the event is a call of `stream_traits::read`. -/
def Event.is_fetch : Event → Bool
  | Event.fetch _ _ => true
  | _ => false

/-- For a `get_laser_return` call, the rotation of block 0 of the packet it
decodes and the packet timestamp it is given. -/
def Event.stamp : Event → Option (Nat × ptime)
  | Event.decode p _ _ t _ _ => some ((p.blocks 0).rotation, t)
  | _ => none

/-! ## Well-sequenced traces -/

/-- The traces that `read` may produce when `cur` describes the buffer:
`none` for no packet, `some (p, k)` for the packet `p` with its first `k`
slots decoded. A fetch needs an exhausted index and, if a packet is buffered,
all of its `m_size` slots decoded; a decode takes the next slot of the
buffered packet in sequencer order; a `NULL` dereference ends the trace. -/
def sequenced : Option (packet × Nat) → List Event → Prop
  | _, [] => True
  | cur, Event.fetch i g :: rest =>
    i ≥ m_size ∧ (∀ q k, cur = some (q, k) → k = m_size) ∧
      sequenced (g.map (fun p => (p, 0))) rest
  | cur, Event.decode p b l _ _ _ :: rest =>
    ∃ k, k < m_size ∧ cur = some (p, k) ∧ (b, l) = slotAt k ∧ sequenced (some (p, k + 1)) rest
  | _, Event.null_deref :: rest => rest = []
  | _, Event.close_source :: _ => False

/-- The stream is open and its buffer is as `cur` describes it. -/
def buffered {S K R : Type} (st : stream S K R) : Option (packet × Nat) → Prop
  | none => st.m_closed = false ∧ st.m_packet = none
  | some (p, k) =>
    st.m_closed = false ∧ st.m_packet = some p ∧ st.m_index = index.after k ∧ k ≤ m_size

/-! ## A replay source, for concrete executions -/

/-- A source that replays a recording: the packets still to deliver, each
with its timestamp and boundary flag, and the timestamp and flag of the
packet delivered last. -/
structure replay where
  pending : List (packet × Int × Bool)
  stamp : ptime
  boundary : Bool

/-- A laser return that records the arguments it was built from. -/
structure built where
  rot0 : Nat
  block : Nat
  laser : Nat
  timestamp : ptime
  speed : DoubleVal
  range : Nat
deriving DecidableEq

/-- The raw range stored in a packet for a slot, `0` out of bounds. -/
def packet.range_at (p : packet) (b l : Nat) : Nat :=
  if hb : b < 12 then
    if hl : l < 32 then ((p.blocks ⟨b, hb⟩).lasers ⟨l, hl⟩).range else 0
  else 0

/-- Collaborators over a replay source: the tick watch never fires, the
boundary signal is the recorded flag, the time offsets are `toff`. -/
def replay_collab (toff : Nat → Nat → Int) : Collab replay Unit built :=
  { traits_read := fun s =>
      match s.pending with
      | [] => (none, s)
      | (p, t, b) :: rest => (some p, { pending := rest, stamp := some t, boundary := b })
    traits_is_new_scan := fun k s _ => (s.boundary, k, s)
    traits_timestamp := fun s => s.stamp
    traits_close := fun s => { s with pending := [] }
    tick_is_new_scan := fun k _ => (false, k)
    time_offset := toff
    get_laser_return := fun p b l t w _ =>
      { rot0 := (p.blocks 0).rotation, block := b, laser := l, timestamp := t, speed := w,
        range := p.range_at b l }
    range_equal_zero := fun r => r.range == 0
    tick_default := ()
    laser_return_default :=
      { rot0 := 0, block := 0, laser := 0, timestamp := none, speed := DoubleVal.fin 0,
        range := 0 } }

/-- A packet whose block 11 has rotation `r11`, whose other blocks have
rotation `r0`, and whose firings all have the raw range `range`. -/
def flat_packet (r0 r11 range : Nat) : packet :=
  { blocks := fun i =>
      { rotation := if i = 11 then r11 else r0
        lasers := fun _ => { range := range, intensity := 0 } } }

/-- A replay source that has not delivered anything yet. -/
def replay.of (recording : List (packet × Int × Bool)) : replay :=
  { pending := recording, stamp := none, boundary := false }

/-- Time offsets with block 0 fired `d` microseconds after block 11. -/
def offsets_with_delta (d : Int) : Nat → Nat → Int :=
  fun block _ => if block = 0 then d else 0

/-- A self-estimating stream over an exhausted replay source that has the
packet `p` buffered. -/
def self_stream (toff : Nat → Nat → Int) (p : packet) : stream replay Unit built :=
  { stream.without_rpm (replay_collab toff) (replay.of []) true false with
    m_packet := some p, m_index := index.fresh }

/-- The collaborators used in the concrete executions below. -/
def replay_C : Collab replay Unit built := replay_collab (offsets_with_delta 250)

/-- A fresh fixed-mode stream (600 rpm, invalid returns emitted) over a
recording. -/
def replay_stream (recording : List (packet × Int × Bool)) : stream replay Unit built :=
  stream.with_rpm replay_C (replay.of recording) 600 true false

/-- The `get_laser_return` calls for all slots of the packet `p` in sequencer
order, as `replay_stream` makes them when the packet timestamp is `t`. -/
def replay_decodes (p : packet) (t : Int) : List Event :=
  (List.range m_size).map (fun n =>
    Event.decode p (slotAt n).1 (slotAt n).2 (some t)
      (DoubleVal.ofInt (((360 / 60) * 600 % UINT_MOD : Nat) : Int)) false)

/-! ## What a source delivers to `read` -/

/-- The source behind `s` and the tick watch `k` deliver, to the calls that
`read()` makes, the packets of the list in order, each with the timestamp and
the new-scan signal that `stream_traits` reports for it, and then `NULL`. -/
def delivers {S K R : Type} (C : Collab S K R) : K → S → List (packet × ptime × Bool) → Prop
  | _, s, [] => (C.traits_read s).1 = none
  | k, s, (p, t, b) :: rest =>
    (C.traits_read s).1 = some p ∧
    (C.traits_is_new_scan k (C.traits_read s).2 p).1 = b ∧
    C.traits_timestamp (C.traits_is_new_scan k (C.traits_read s).2 p).2.2 = t ∧
    delivers C (C.traits_is_new_scan k (C.traits_read s).2 p).2.1
      (C.traits_is_new_scan k (C.traits_read s).2 p).2.2 rest

/-- The number of packets of a recording that are reported as new scans. -/
def boundaries : List (packet × ptime × Bool) → Nat
  | [] => 0
  | (_, _, b) :: rest => (if b then 1 else 0) + boundaries rest

/-- The angular speed used for the packet `p` by a stream whose
`m_angularSpeed` is `mode`. -/
def speed_for {S K R : Type} (C : Collab S K R) (mode : Option DoubleVal) (p : packet) :
    DoubleVal :=
  match mode with
  | some w => w
  | none => self_estimate C p

/-- The laser return of the packet `p` with timestamp `t` at the sequencer's
slot number `n`. -/
def slot_return {S K R : Type} (C : Collab S K R) (mode : Option DoubleVal) (legacy : Bool)
    (p : packet) (t : ptime) (n : Nat) : R :=
  C.get_laser_return p (slotAt n).1 (slotAt n).2 t (speed_for C mode p) legacy

/-- The laser returns of one packet from slot number `k` on, in sequencer order. -/
def packet_returns {S K R : Type} (C : Collab S K R) (mode : Option DoubleVal)
    (legacy : Bool) (p : packet) (t : ptime) (k : Nat) : List R :=
  (List.range' k (m_size - k)).map (slot_return C mode legacy p t)

/-- The laser returns of all packets of a recording, packet after packet. -/
def recording_returns {S K R : Type} (C : Collab S K R) (mode : Option DoubleVal)
    (legacy : Bool) : List (packet × ptime × Bool) → List R
  | [] => []
  | (p, t, _) :: rest =>
    packet_returns C mode legacy p t 0 ++ recording_returns C mode legacy rest

/-- The test of line 159: a return is handed to the caller if it is valid or
the stream emits invalid returns. -/
def emitted {S K R : Type} (C : Collab S K R) (outputInvalid : Bool) (r : R) : Bool :=
  !C.range_equal_zero r || outputInvalid

/-- The laser returns among the replies of a run. -/
def points {R : Type} : List (reply R) → List R
  | [] => []
  | reply.read (read_result.point r) :: rest => r :: points rest
  | _ :: rest => points rest

/-- Whether a reply is the end-of-stream marker of `read`. -/
def reply.is_end {R : Type} : reply R → Bool
  | reply.read read_result.end_of_stream => true
  | _ => false

/-- The stream is open, the source will deliver `rest`, and the buffer is as
`cur` and `k` describe it: nothing decodable (`none`), or the packet `p` with
timestamp `t` of which the first `k` slots are decoded. -/
def reading {S K R : Type} (C : Collab S K R) (st : stream S K R)
    (cur : Option (packet × ptime)) (k : Nat) (rest : List (packet × ptime × Bool)) : Prop :=
  st.m_closed = false ∧ delivers C st.m_tick st.m_stream rest ∧
  match cur with
  | none => st.m_index.idx ≥ m_size ∧ k = m_size
  | some (p, t) =>
    st.m_packet = some p ∧ st.m_index = index.after k ∧ k ≤ m_size ∧
      st.m_timestamp = t ∧ C.traits_timestamp st.m_stream = t

/-- The laser returns still to be built in the situation that `reading`
describes. -/
def pending_returns {S K R : Type} (C : Collab S K R) (mode : Option DoubleVal)
    (legacy : Bool) (cur : Option (packet × ptime)) (k : Nat)
    (rest : List (packet × ptime × Bool)) : List R :=
  (match cur with
    | none => []
    | some (p, t) => packet_returns C mode legacy p t k) ++
  recording_returns C mode legacy rest

/-- The stream is open with the laser returns `pending` still to be built,
and its scan counter will be `target` once the source is exhausted. -/
def at_pending {S K R : Type} (C : Collab S K R) (st : stream S K R) (pending : List R)
    (target : Nat) : Prop :=
  ∃ cur k rest, reading C st cur k rest ∧
    pending_returns C st.m_angularSpeed st.m_legacy cur k rest = pending ∧
    uinc^[boundaries rest] st.m_scan = target

/-- The stream is open and has seen the end of its source: no packet is
buffered, the index is reset, and the scan counter is `target`. -/
def ended {S K R : Type} (st : stream S K R) (target : Nat) : Prop :=
  st.m_closed = false ∧ st.m_packet = none ∧ st.m_index.idx < m_size ∧ st.m_scan = target

/-- A recording as the source of `replay_collab` delivers it to `read`. -/
def replay_script (recording : List (packet × Int × Bool)) : List (packet × ptime × Bool) :=
  recording.map (fun x => (x.1, some x.2.1, x.2.2))

/-- A recording of `n` packets, each reported as a new scan and with all
raw ranges 0. -/
def all_boundaries (n : Nat) : List (packet × Int × Bool) :=
  List.replicate n (flat_packet 0 0 0, 10, true)

/-- The laser return that a `get_laser_return` call builds. -/
def Event.built {S K R : Type} (C : Collab S K R) : Event → Option R
  | Event.decode p b l t w lg => some (C.get_laser_return p b l t w lg)
  | _ => none

/-! ## A source that can refuse a datagram -/

/-- A source fed with datagrams: `some` is a datagram of the size of a packet,
with its timestamp and boundary flag; `none` is a datagram of another size,
for which `stream_traits::read` has no packet to hand out and answers `NULL`. -/
structure socket where
  pending : List (Option (packet × Int × Bool))
  stamp : ptime
  boundary : Bool

/-- Collaborators over a `socket`; everything but `read` is as in
`replay_collab`. -/
def socket_collab (toff : Nat → Nat → Int) : Collab socket Unit built :=
  { traits_read := fun s =>
      match s.pending with
      | [] => (none, s)
      | none :: rest => (none, { s with pending := rest })
      | some (p, t, b) :: rest =>
        (some p, { pending := rest, stamp := some t, boundary := b })
    traits_is_new_scan := fun k s _ => (s.boundary, k, s)
    traits_timestamp := fun s => s.stamp
    traits_close := fun s => { s with pending := [] }
    tick_is_new_scan := fun k _ => (false, k)
    time_offset := toff
    get_laser_return := fun p b l t w _ =>
      { rot0 := (p.blocks 0).rotation, block := b, laser := l, timestamp := t, speed := w,
        range := p.range_at b l }
    range_equal_zero := fun r => r.range == 0
    tick_default := ()
    laser_return_default :=
      { rot0 := 0, block := 0, laser := 0, timestamp := none, speed := DoubleVal.fin 0,
        range := 0 } }

/-- The collaborators over a `socket` used in the concrete executions below. -/
def socket_C : Collab socket Unit built := socket_collab (offsets_with_delta 250)

/-- A socket that has not delivered anything yet. -/
def socket.of (datagrams : List (Option (packet × Int × Bool))) : socket :=
  { pending := datagrams, stamp := none, boundary := false }

/-! ## Passes of `skip_scan` -/

/-- Two sets of collaborators deliver the same as long as `rel` holds between
their sources and tick watches: every call that the stream can make on them
gives the same answer on both sides and leaves them related, and the helpers
that do not depend on the source are the same. -/
structure alike {S1 K1 S2 K2 R : Type} (C1 : Collab S1 K1 R) (C2 : Collab S2 K2 R)
    (rel : S1 → K1 → S2 → K2 → Prop) : Prop where
  read : ∀ s1 k1 s2 k2, rel s1 k1 s2 k2 →
    (C1.traits_read s1).1 = (C2.traits_read s2).1 ∧
    rel (C1.traits_read s1).2 k1 (C2.traits_read s2).2 k2
  new_scan : ∀ s1 k1 s2 k2 p, rel s1 k1 s2 k2 →
    (C1.traits_is_new_scan k1 s1 p).1 = (C2.traits_is_new_scan k2 s2 p).1 ∧
    rel (C1.traits_is_new_scan k1 s1 p).2.2 (C1.traits_is_new_scan k1 s1 p).2.1
      (C2.traits_is_new_scan k2 s2 p).2.2 (C2.traits_is_new_scan k2 s2 p).2.1
  tick : ∀ s1 k1 s2 k2 p, rel s1 k1 s2 k2 →
    (C1.tick_is_new_scan k1 p).1 = (C2.tick_is_new_scan k2 p).1 ∧
    rel s1 (C1.tick_is_new_scan k1 p).2 s2 (C2.tick_is_new_scan k2 p).2
  timestamp : ∀ s1 k1 s2 k2, rel s1 k1 s2 k2 →
    C1.traits_timestamp s1 = C2.traits_timestamp s2
  close : ∀ s1 k1 s2 k2, rel s1 k1 s2 k2 →
    rel (C1.traits_close s1) k1 (C2.traits_close s2) k2
  offsets : C1.time_offset = C2.time_offset
  builder : C1.get_laser_return = C2.get_laser_return
  validity : C1.range_equal_zero = C2.range_equal_zero

/-- Two streams agree on every data member but the source and the tick watch,
which are related by `rel`, and the return buffer `m_laserReturn`. -/
structure same_streams {S1 K1 S2 K2 R : Type} (rel : S1 → K1 → S2 → K2 → Prop)
    (a : stream S1 K1 R) (b : stream S2 K2 R) : Prop where
  speed : a.m_angularSpeed = b.m_angularSpeed
  outputInvalid : a.m_outputInvalid = b.m_outputInvalid
  source : rel a.m_stream a.m_tick b.m_stream b.m_tick
  timestamp : a.m_timestamp = b.m_timestamp
  buffer : a.m_packet = b.m_packet
  position : a.m_index = b.m_index
  scan : a.m_scan = b.m_scan
  closed : a.m_closed = b.m_closed
  legacy : a.m_legacy = b.m_legacy

/-- A replay source and a socket hold the same recording, timestamp and flag. -/
def replay_like_socket (s1 : replay) (_ : Unit) (s2 : socket) (_ : Unit) : Prop :=
  s2.pending = s1.pending.map some ∧ s2.stamp = s1.stamp ∧ s2.boundary = s1.boundary

/-! ## A source with a tick watch that fires -/

/-- Collaborators over a replay source whose tick watch, like a watch for the
wraparound of the azimuth, remembers the rotation of block 0 of the last
packet it saw and reports a new scan when the next one is smaller, while
`stream_traits::is_new_scan` reports the recorded flag of the source. -/
def watch_collab (toff : Nat → Nat → Int) : Collab replay Nat built :=
  { traits_read := fun s =>
      match s.pending with
      | [] => (none, s)
      | (p, t, b) :: rest => (some p, { pending := rest, stamp := some t, boundary := b })
    traits_is_new_scan := fun k s _ => (s.boundary, k, s)
    traits_timestamp := fun s => s.stamp
    traits_close := fun s => { s with pending := [] }
    tick_is_new_scan := fun k p => (decide ((p.blocks 0).rotation < k), (p.blocks 0).rotation)
    time_offset := toff
    get_laser_return := fun p b l t w _ =>
      { rot0 := (p.blocks 0).rotation, block := b, laser := l, timestamp := t, speed := w,
        range := p.range_at b l }
    range_equal_zero := fun r => r.range == 0
    tick_default := 0
    laser_return_default :=
      { rot0 := 0, block := 0, laser := 0, timestamp := none, speed := DoubleVal.fin 0,
        range := 0 } }

/-- The collaborators with a firing tick watch used in the concrete
executions below. -/
def watch_C : Collab replay Nat built := watch_collab (offsets_with_delta 250)

/-! ## Indices inside a packet -/

/-- An index that, if it is not exhausted, is one of the 384 positions that
`operator++` reaches from `index()`. -/
def index.in_packet (i : index) : Prop :=
  i.idx < m_size → ∃ k, k < m_size ∧ i = index.after k

/-! ## Sequencer lemmas -/

theorem index_inc_closed_form (n : Nat) (h : n < 4294967295) :
    index.inc { idx := n, block := 2 * (n / 64) + n % 2, laser := (n % 64) / 2 } =
      { idx := n + 1, block := 2 * ((n + 1) / 64) + (n + 1) % 2,
        laser := ((n + 1) % 64) / 2 } := by
  have hland : (2 * (n / 64) + n % 2) &&& 1 = n % 2 := by
    rw [Nat.and_one_is_mod]; omega
  have hidx : uinc n = n + 1 := by unfold uinc UINT_MOD; omega
  have hlas : uinc (n % 64 / 2) = n % 64 / 2 + 1 := by unfold uinc UINT_MOD; omega
  have hinc : uinc (2 * (n / 64) + n % 2) = 2 * (n / 64) + n % 2 + 1 := by
    unfold uinc UINT_MOD; omega
  unfold index.inc
  simp only [hland, hidx, hlas, hinc]
  clear hland hidx hlas hinc
  rcases Nat.mod_two_eq_zero_or_one n with h2 | h2
  · simp only [h2, ne_eq, not_true_eq_false, if_false]
    simp only [index.mk.injEq]
    refine ⟨?_, ?_, ?_⟩ <;> first | trivial | omega
  · have hdec : udec (2 * (n / 64) + n % 2) = 2 * (n / 64) := by
      unfold udec UINT_MOD; omega
    simp only [hdec]
    clear hdec
    simp only [h2, ne_eq, one_ne_zero, not_false_eq_true, if_true]
    by_cases hl : n % 64 / 2 + 1 < 32
    · simp only [hl, if_true]
      simp only [index.mk.injEq]
      refine ⟨?_, ?_, ?_⟩ <;> first | trivial | omega
    · simp only [hl, if_false]
      simp only [index.mk.injEq]
      refine ⟨?_, ?_, ?_⟩ <;> first | trivial | omega

theorem index_after_closed_form (n : Nat) (h : n ≤ 4294967295) :
    index.after n =
      { idx := n, block := 2 * (n / 64) + n % 2, laser := (n % 64) / 2 } := by
  induction n with
  | zero => rfl
  | succ k ih =>
    have hk : index.after (k + 1) = index.inc (index.after k) := by
      unfold index.after
      exact Function.iterate_succ_apply' index.inc k index.fresh
    rw [hk, ih (by omega), index_inc_closed_form k (by omega)]

theorem slotAt_closed_form (n : Nat) (h : n ≤ 4294967295) :
    slotAt n = (2 * (n / 64) + n % 2, (n % 64) / 2) := by
  unfold slotAt
  rw [index_after_closed_form n h]

/-! ## Sequencer claims -/

/-- C1: the 384 slots observed at idx = 0, ..., 383 from a fresh index are
pairwise distinct and are exactly the pairs with block < 12 and laser < 32. -/
theorem sequencer_visits_every_slot_once :
    (∀ m n : Nat, m < m_size → n < m_size → slotAt m = slotAt n → m = n) ∧
    (∀ n : Nat, n < m_size → (index.after n).idx = n ∧ (slotAt n).1 < 12 ∧ (slotAt n).2 < 32) ∧
    (∀ b l : Nat, b < 12 → l < 32 → ∃ n : Nat, n < m_size ∧ slotAt n = (b, l)) := by
  refine ⟨?_, ?_, ?_⟩
  · intro m n hm hn hmn
    simp only [m_size] at hm hn
    rw [slotAt_closed_form m (by omega), slotAt_closed_form n (by omega)] at hmn
    simp only [Prod.mk.injEq] at hmn
    omega
  · intro n hn
    simp only [m_size] at hn
    rw [slotAt_closed_form n (by omega), index_after_closed_form n (by omega)]
    refine ⟨rfl, ?_, ?_⟩ <;> simp only <;> omega
  · intro b l hb hl
    refine ⟨64 * (b / 2) + 2 * l + b % 2, ?_, ?_⟩
    · simp only [m_size]; omega
    · rw [slotAt_closed_form _ (by omega)]
      simp only [Prod.mk.injEq]
      omega

theorem sequencer_visits_every_slot_once_witness :
    slotAt 65 = (3, 0) ∧ slotAt 65 ≠ slotAt 1 ∧ (∃ n : Nat, n < m_size ∧ slotAt n = (11, 31)) :=
  ⟨by rw [slotAt_closed_form 65 (by decide)], by
      rw [slotAt_closed_form 65 (by decide), slotAt_closed_form 1 (by decide)]; decide,
    sequencer_visits_every_slot_once.2.2 11 31 (by decide) (by decide)⟩

/-- C2: for every n < 384 the slot reached after n applications of operator++
to a fresh index is block = 2*(n div 64) + (n mod 2), laser = (n mod 64) div 2. -/
theorem sequencer_order_pairs_then_laser (n : Nat) (h : n < 384) :
    (index.inc^[n] index.fresh).block = 2 * (n / 64) + n % 2 ∧
    (index.inc^[n] index.fresh).laser = (n % 64) / 2 ∧
    (index.inc^[n] index.fresh).idx = n := by
  have hc := index_after_closed_form n (by omega)
  unfold index.after at hc
  rw [hc]
  exact ⟨rfl, rfl, rfl⟩

theorem sequencer_order_pairs_then_laser_witness :
    (index.inc^[67] index.fresh).block = 2 * (67 / 64) + 67 % 2 ∧
    (index.inc^[67] index.fresh).laser = (67 % 64) / 2 ∧
    (index.inc^[67] index.fresh).idx = 67 :=
  sequencer_order_pairs_then_laser 67 (by decide)

/-! ## Rounding to `double` -/

theorem round_pos_cases (q : ℚ) :
    ∃ k : Int, |(k : ℚ) - q / 2 ^ (max (Int.log 2 q) (-1022) - 52)| ≤ 1 / 2 ∧
      DoubleVal.round_pos q =
        if (k : ℚ) * 2 ^ (max (Int.log 2 q) (-1022) - 52) < 2 ^ (1024 : ℕ)
        then DoubleVal.fin (k * 2 ^ (max (Int.log 2 q) (-1022) - 52))
        else DoubleVal.posInf := by
  have h1 := Int.floor_le (q / 2 ^ (max (Int.log 2 q) (-1022) - 52))
  have h2 := Int.lt_floor_add_one (q / 2 ^ (max (Int.log 2 q) (-1022) - 52))
  unfold DoubleVal.round_pos
  simp only
  by_cases c1 : q / 2 ^ (max (Int.log 2 q) (-1022) - 52) -
      (⌊q / 2 ^ (max (Int.log 2 q) (-1022) - 52)⌋ : ℚ) < 1 / 2
  · rw [if_pos c1]
    refine ⟨_, ?_, rfl⟩
    rw [abs_le]
    constructor <;> linarith
  · rw [if_neg c1]
    by_cases c2 : 1 / 2 < q / 2 ^ (max (Int.log 2 q) (-1022) - 52) -
        (⌊q / 2 ^ (max (Int.log 2 q) (-1022) - 52)⌋ : ℚ)
    · rw [if_pos c2]
      refine ⟨_, ?_, rfl⟩
      rw [abs_le]
      push_cast
      constructor <;> linarith
    · rw [if_neg c2]
      by_cases c3 : ⌊q / 2 ^ (max (Int.log 2 q) (-1022) - 52)⌋ % 2 = 0
      · rw [if_pos c3]
        refine ⟨_, ?_, rfl⟩
        rw [abs_le]
        constructor <;> linarith
      · rw [if_neg c3]
        refine ⟨_, ?_, rfl⟩
        rw [abs_le]
        push_cast
        constructor <;> linarith

theorem two_zpow_pos (e : ℤ) : (0 : ℚ) < 2 ^ e := zpow_pos (by norm_num) e

theorem log_two_bounds (q : ℚ) (hq : 0 < q) :
    (2 : ℚ) ^ Int.log 2 q ≤ q ∧ q < 2 ^ (Int.log 2 q + 1) := by
  have h1 : ((2 : ℕ) : ℚ) ^ Int.log 2 q ≤ q := Int.zpow_log_le_self (by norm_num) hq
  have h2 : q < ((2 : ℕ) : ℚ) ^ (Int.log 2 q + 1) := Int.lt_zpow_succ_log_self (by norm_num) q
  rw [Nat.cast_ofNat] at h1 h2
  exact ⟨h1, h2⟩

theorem le_log_two (q : ℚ) (hq : 0 < q) (x : ℤ) (h : (2 : ℚ) ^ x ≤ q) : x ≤ Int.log 2 q := by
  have h1 : ((2 : ℕ) : ℚ) ^ x ≤ q := by rw [Nat.cast_ofNat]; exact h
  exact (Int.zpow_le_iff_le_log (by norm_num) hq).1 h1

theorem log_two_lt (q : ℚ) (hq : 0 < q) (x : ℤ) (h : q < (2 : ℚ) ^ x) : Int.log 2 q < x := by
  have h1 : q < ((2 : ℕ) : ℚ) ^ x := by rw [Nat.cast_ofNat]; exact h
  exact (Int.lt_zpow_iff_log_lt (by norm_num) hq).1 h1

theorem ulp_eq (e : ℤ) : (2 : ℚ) ^ (e - 52) = 2 ^ e / 2 ^ (52 : ℕ) := by
  rw [zpow_sub₀ (by norm_num : (2 : ℚ) ≠ 0)]
  norm_cast

theorem round_pos_near (q : ℚ) (hlo : (2 : ℚ) ^ (-1022 : ℤ) ≤ q) :
    DoubleVal.round_pos q = DoubleVal.posInf ∨
      ∃ r : ℚ, DoubleVal.round_pos q = DoubleVal.fin r ∧ |r - q| ≤ q / 2 ^ (53 : ℕ) := by
  have hq : 0 < q := lt_of_lt_of_le (two_zpow_pos _) hlo
  obtain ⟨hle, -⟩ := log_two_bounds q hq
  have he : (-1022 : ℤ) ≤ Int.log 2 q := le_log_two q hq _ hlo
  obtain ⟨k, hk, hr⟩ := round_pos_cases q
  rw [max_eq_left he] at hk hr
  by_cases c : (k : ℚ) * 2 ^ (Int.log 2 q - 52) < 2 ^ (1024 : ℕ)
  · right
    rw [if_pos c] at hr
    refine ⟨_, hr, ?_⟩
    have hpos := two_zpow_pos (Int.log 2 q - 52)
    have hfac : (k : ℚ) * 2 ^ (Int.log 2 q - 52) - q =
        ((k : ℚ) - q / 2 ^ (Int.log 2 q - 52)) * 2 ^ (Int.log 2 q - 52) := by
      field_simp
    rw [hfac, abs_mul, abs_of_pos hpos]
    have hu := ulp_eq (Int.log 2 q)
    have h52 : (0 : ℚ) < 2 ^ (52 : ℕ) := by positivity
    calc |(k : ℚ) - q / 2 ^ (Int.log 2 q - 52)| * 2 ^ (Int.log 2 q - 52)
        ≤ 1 / 2 * 2 ^ (Int.log 2 q - 52) := by
          apply mul_le_mul_of_nonneg_right hk (le_of_lt hpos)
      _ = 2 ^ Int.log 2 q / 2 ^ (53 : ℕ) := by rw [hu]; ring
      _ ≤ q / 2 ^ (53 : ℕ) := by
          apply div_le_div_of_nonneg_right hle; positivity
  · left
    rw [if_neg c] at hr
    exact hr

theorem round_pos_normal (q : ℚ) (hlo : (2 : ℚ) ^ (-1022 : ℤ) ≤ q)
    (hhi : q < 2 ^ (1023 : ℕ)) :
    ∃ r : ℚ, DoubleVal.round_pos q = DoubleVal.fin r ∧ |r - q| ≤ q / 2 ^ (53 : ℕ) := by
  have hq : 0 < q := lt_of_lt_of_le (two_zpow_pos _) hlo
  obtain ⟨hle, -⟩ := log_two_bounds q hq
  have he : (-1022 : ℤ) ≤ Int.log 2 q := le_log_two q hq _ hlo
  obtain ⟨k, hk, hr⟩ := round_pos_cases q
  rw [max_eq_left he] at hk hr
  have hpos := two_zpow_pos (Int.log 2 q - 52)
  have hu := ulp_eq (Int.log 2 q)
  have c : (k : ℚ) * 2 ^ (Int.log 2 q - 52) < 2 ^ (1024 : ℕ) := by
    have hk2 := (abs_le.1 hk).2
    have h1 : (k : ℚ) ≤ q / 2 ^ (Int.log 2 q - 52) + 1 / 2 := by linarith
    have h2 : (k : ℚ) * 2 ^ (Int.log 2 q - 52) ≤
        (q / 2 ^ (Int.log 2 q - 52) + 1 / 2) * 2 ^ (Int.log 2 q - 52) :=
      mul_le_mul_of_nonneg_right h1 (le_of_lt hpos)
    have h3 : (q / 2 ^ (Int.log 2 q - 52) + 1 / 2) * 2 ^ (Int.log 2 q - 52) =
        q + 2 ^ Int.log 2 q / 2 ^ (53 : ℕ) := by
      rw [add_mul, div_mul_cancel₀ _ (ne_of_gt hpos), hu]; ring
    have h4 : (2 : ℚ) ^ Int.log 2 q / 2 ^ (53 : ℕ) ≤ q := by
      apply le_trans _ hle
      apply div_le_self (le_of_lt (two_zpow_pos _))
      exact one_le_pow₀ (by norm_num)
    have h5 : (2 : ℚ) ^ (1024 : ℕ) = 2 ^ (1023 : ℕ) + 2 ^ (1023 : ℕ) := by ring
    linarith
  rcases round_pos_near q hlo with h | h
  · rw [hr, if_pos c] at h
    cases h
  · exact h

theorem round_zero : DoubleVal.round 0 = DoubleVal.fin 0 := by
  simp [DoubleVal.round]

theorem round_of_pos (q : ℚ) (hq : 0 < q) : DoubleVal.round q = DoubleVal.round_pos q := by
  unfold DoubleVal.round
  rw [if_pos hq]

theorem round_of_neg (q : ℚ) (hq : q < 0) :
    DoubleVal.round q = DoubleVal.neg (DoubleVal.round_pos (-q)) := by
  unfold DoubleVal.round
  rw [if_neg (not_lt.2 (le_of_lt hq)), if_pos hq]

theorem round_near (q : ℚ) (hlo : (2 : ℚ) ^ (-1022 : ℤ) ≤ |q|) (hhi : |q| < 2 ^ (1023 : ℕ)) :
    ∃ r : ℚ, DoubleVal.round q = DoubleVal.fin r ∧ |r - q| ≤ |q| / 2 ^ (53 : ℕ) := by
  have habs : 0 < |q| := lt_of_lt_of_le (two_zpow_pos _) hlo
  rcases lt_trichotomy q 0 with hneg | hz | hpos
  · rw [abs_of_neg hneg] at hlo hhi ⊢
    obtain ⟨r, hr, herr⟩ := round_pos_normal (-q) hlo hhi
    refine ⟨-r, ?_, ?_⟩
    · rw [round_of_neg q hneg, hr]; rfl
    · have : -r - q = -(r - -q) := by ring
      rw [this, abs_neg]; exact herr
  · rw [hz] at habs; simp at habs
  · rw [abs_of_pos hpos] at hlo hhi ⊢
    rw [round_of_pos q hpos]
    exact round_pos_normal q hlo hhi

theorem round_pos_exact (q : ℚ) (j : ℤ)
    (hj : q / 2 ^ (max (Int.log 2 q) (-1022) - 52) = j) (hhi : q < 2 ^ (1024 : ℕ)) :
    DoubleVal.round_pos q = DoubleVal.fin q := by
  have hpos := two_zpow_pos (max (Int.log 2 q) (-1022) - 52)
  have hval : (j : ℚ) * 2 ^ (max (Int.log 2 q) (-1022) - 52) = q := by
    rw [← hj, div_mul_cancel₀ _ (ne_of_gt hpos)]
  obtain ⟨k, hk, hr⟩ := round_pos_cases q
  rw [hj] at hk
  have hkj : k = j := by
    have h1 : |((k - j : ℤ) : ℚ)| ≤ 1 / 2 := by push_cast; exact hk
    have h2 : |((k - j : ℤ) : ℚ)| < 1 := lt_of_le_of_lt h1 (by norm_num)
    have h3 : |k - j| < 1 := by
      rw [← Int.cast_abs] at h2
      exact_mod_cast h2
    have h4 := Int.abs_lt_one_iff.1 h3
    omega
  rw [hkj, hval, if_pos hhi] at hr
  exact hr

theorem round_nat_exact (n : ℕ) (h : n < 2 ^ 53) :
    DoubleVal.round (n : ℚ) = DoubleVal.fin n := by
  rcases Nat.eq_zero_or_pos n with h0 | hn
  · rw [h0, Nat.cast_zero]; exact round_zero
  · have hq : (0 : ℚ) < n := by exact_mod_cast hn
    have h53 : (n : ℚ) < 2 ^ (53 : ℕ) := by exact_mod_cast h
    rw [round_of_pos _ hq]
    have hlo : (0 : ℤ) ≤ Int.log 2 (n : ℚ) := by
      apply le_log_two _ hq
      rw [zpow_zero]
      exact_mod_cast hn
    have hup : Int.log 2 (n : ℚ) < 53 := by
      apply log_two_lt _ hq
      exact_mod_cast h53
    obtain ⟨t, ht⟩ : ∃ t : ℕ, Int.log 2 (n : ℚ) = 52 - t :=
      ⟨(52 - Int.log 2 (n : ℚ)).toNat, by rw [Int.toNat_of_nonneg (by omega)]; ring⟩
    apply round_pos_exact _ ((n : ℤ) * 2 ^ t)
    · rw [max_eq_left (by omega), ht]
      have : (52 : ℤ) - t - 52 = -(t : ℤ) := by ring
      rw [this, zpow_neg, div_inv_eq_mul, zpow_natCast]
      push_cast
      ring
    · have h2 : (2 : ℚ) ^ (53 : ℕ) ≤ 2 ^ (1024 : ℕ) :=
        pow_le_pow_right₀ (by norm_num) (by norm_num)
      exact lt_of_lt_of_le h53 h2

theorem ofInt_exact (z : ℤ) (h : |z| < 2 ^ 53) : DoubleVal.ofInt z = DoubleVal.fin z := by
  have hlt : z.natAbs < 2 ^ 53 := by
    have := abs_lt.1 h
    omega
  have hr := round_nat_exact z.natAbs hlt
  unfold DoubleVal.ofInt
  rcases lt_trichotomy z 0 with hneg | hz | hpos
  · have hq : ((z : ℤ) : ℚ) < 0 := by exact_mod_cast hneg
    have hn : ((z.natAbs : ℕ) : ℚ) = -(z : ℚ) := by
      rw [Nat.cast_natAbs, abs_of_neg hneg]; push_cast; ring
    rw [hn, round_of_pos _ (by linarith)] at hr
    rw [round_of_neg _ hq, hr]
    simp [DoubleVal.neg]
  · rw [hz, Int.cast_zero]; exact round_zero
  · have hn : ((z.natAbs : ℕ) : ℚ) = (z : ℚ) := by
      rw [Nat.cast_natAbs, abs_of_pos hpos]
    rw [hn] at hr
    exact hr

theorem round_pos_half (q : ℚ) (hlo : (2 : ℚ) ^ (-1022 : ℤ) ≤ q) :
    DoubleVal.round_pos q = DoubleVal.posInf ∨
      ∃ r : ℚ, DoubleVal.round_pos q = DoubleVal.fin r ∧ q / 2 ≤ r := by
  have hq : 0 < q := lt_of_lt_of_le (two_zpow_pos _) hlo
  rcases round_pos_near q hlo with h | ⟨r, hr, herr⟩
  · exact Or.inl h
  · refine Or.inr ⟨r, hr, ?_⟩
    have h1 := (abs_le.1 herr).1
    have h2 : q / 2 ^ (53 : ℕ) ≤ q / 2 := by
      apply div_le_div_of_nonneg_left (le_of_lt hq) (by norm_num)
      norm_num
    linarith

theorem tiny_le (c : ℚ) (h : 1 / 1000 ≤ c) : (2 : ℚ) ^ (-1022 : ℤ) ≤ c := by
  have h1 : (2 : ℚ) ^ (-1022 : ℤ) ≤ 2 ^ (-10 : ℤ) :=
    zpow_le_zpow_right₀ (by norm_num) (by norm_num)
  have h2 : (2 : ℚ) ^ (-10 : ℤ) ≤ 1 / 1000 := by norm_num
  exact le_trans (le_trans h1 h2) h

theorem div_fin (a b : ℚ) (hb : b ≠ 0) :
    DoubleVal.div (DoubleVal.fin a) (DoubleVal.fin b) = DoubleVal.round (a / b) := by
  simp [DoubleVal.div, hb]

theorem div_fin_zero (a : ℚ) :
    DoubleVal.div (DoubleVal.fin a) (DoubleVal.fin 0) =
      if a = 0 then DoubleVal.nan
      else if 0 < a then DoubleVal.posInf else DoubleVal.negInf := by
  simp [DoubleVal.div]

/-- The quotient by zero of the converted rotation delta over 100. -/
theorem quotient_by_zero (d : ℤ) :
    DoubleVal.div (DoubleVal.div (DoubleVal.ofInt d) (DoubleVal.fin 100))
        (DoubleVal.div (DoubleVal.ofInt 0) (DoubleVal.fin 1000000)) =
      if d = 0 then DoubleVal.nan
      else if 0 < d then DoubleVal.posInf else DoubleVal.negInf := by
  have hdt : DoubleVal.div (DoubleVal.ofInt 0) (DoubleVal.fin 1000000) = DoubleVal.fin 0 := by
    have h0 : DoubleVal.ofInt 0 = DoubleVal.fin 0 := by
      unfold DoubleVal.ofInt; rw [Int.cast_zero]; exact round_zero
    rw [h0, div_fin _ _ (by norm_num), zero_div]
    exact round_zero
  rw [hdt]
  have hpos : ∀ q : ℚ, 1 ≤ q →
      DoubleVal.div (DoubleVal.div (DoubleVal.round_pos q) (DoubleVal.fin 100))
        (DoubleVal.fin 0) = DoubleVal.posInf ∧
      DoubleVal.div (DoubleVal.div (DoubleVal.neg (DoubleVal.round_pos q)) (DoubleVal.fin 100))
        (DoubleVal.fin 0) = DoubleVal.negInf := by
    intro q hq
    rcases round_pos_half q (tiny_le q (by linarith)) with h | ⟨r, hr, hge⟩
    · rw [h]
      constructor
      · simp [DoubleVal.div]
      · simp [DoubleVal.div, DoubleVal.neg]
    · rw [hr]
      have hr0 : 0 < r / 100 := by apply div_pos <;> linarith
      have hstep : DoubleVal.div (DoubleVal.fin r) (DoubleVal.fin 100) =
          DoubleVal.round_pos (r / 100) := by
        rw [div_fin _ _ (by norm_num), round_of_pos _ hr0]
      have hstepn : DoubleVal.div (DoubleVal.neg (DoubleVal.fin r)) (DoubleVal.fin 100) =
          DoubleVal.neg (DoubleVal.round_pos (r / 100)) := by
        have hn : DoubleVal.neg (DoubleVal.fin r) = DoubleVal.fin (-r) := rfl
        rw [hn, div_fin _ _ (by norm_num), round_of_neg _ (by rw [neg_div]; linarith), neg_div,
          neg_neg]
      rw [hstep, hstepn]
      rcases round_pos_half (r / 100) (tiny_le _ (by linarith)) with h | ⟨s, hs, hsge⟩
      · rw [h]
        constructor
        · simp [DoubleVal.div]
        · simp [DoubleVal.div, DoubleVal.neg]
      · rw [hs]
        have hs0 : 0 < s := by linarith
        have hn : DoubleVal.neg (DoubleVal.fin s) = DoubleVal.fin (-s) := rfl
        constructor
        · rw [div_fin_zero, if_neg (ne_of_gt hs0), if_pos hs0]
        · rw [hn, div_fin_zero, if_neg (by linarith), if_neg (by linarith)]
  rcases lt_trichotomy d 0 with hneg | hz | hp
  · have hq : ((d : ℤ) : ℚ) < 0 := by exact_mod_cast hneg
    have h1 : (1 : ℚ) ≤ -(d : ℚ) := by
      have : (1 : ℤ) ≤ -d := by omega
      exact_mod_cast this
    rw [if_neg (by omega), if_neg (by omega)]
    unfold DoubleVal.ofInt
    rw [round_of_neg _ hq]
    exact (hpos _ h1).2
  · rw [hz, if_pos rfl]
    have h0 : DoubleVal.ofInt 0 = DoubleVal.fin 0 := by
      unfold DoubleVal.ofInt; rw [Int.cast_zero]; exact round_zero
    rw [h0]
    have : DoubleVal.div (DoubleVal.fin 0) (DoubleVal.fin 100) = DoubleVal.fin 0 := by
      rw [div_fin _ _ (by norm_num), zero_div]
      exact round_zero
    rw [this, div_fin_zero, if_pos rfl]
  · have hq : (0 : ℚ) < ((d : ℤ) : ℚ) := by exact_mod_cast hp
    have h1 : (1 : ℚ) ≤ (d : ℚ) := by
      have : (1 : ℤ) ≤ d := by omega
      exact_mod_cast this
    rw [if_neg (by omega), if_pos hp]
    unfold DoubleVal.ofInt
    rw [round_of_pos _ hq]
    exact (hpos _ h1).1

/-- Relative error of a rounded quotient of two rounded operands. -/
theorem rel_err_div (x y a b c u : ℚ) (hu : 0 ≤ u) (hu5 : 5 * u ≤ 1) (hy : y ≠ 0)
    (ha : |a - x| ≤ |x| * u) (hb : |b - y| ≤ |y| * u) (hc : |c - a / b| ≤ |a / b| * u) :
    |c - x / y| ≤ |x / y| * (4 * u) := by
  have hY : 0 < |y| := abs_pos.2 hy
  have hB : (1 - u) * |y| ≤ |b| := by
    have h1 : |y| - |b| ≤ |y - b| := abs_sub_abs_le_abs_sub y b
    rw [abs_sub_comm] at h1
    linarith
  have hu1 : 0 < 1 - u := by linarith
  have hBpos : 0 < |b| := lt_of_lt_of_le (mul_pos hu1 hY) hB
  have hb0 : b ≠ 0 := abs_pos.1 hBpos
  have hX : 0 ≤ |x| := abs_nonneg x
  have hXY : 0 ≤ |x / y| := abs_nonneg _
  have hxy : |x / y| = |x| / |y| := abs_div x y
  -- the quotient of the rounded operands against the exact quotient
  have hd : a / b - x / y = ((a - x) * y - x * (b - y)) / (b * y) := by
    field_simp
    ring
  have hnum : |(a - x) * y - x * (b - y)| ≤ 2 * u * |x| * |y| := by
    have h1 : |(a - x) * y - x * (b - y)| ≤ |(a - x) * y| + |x * (b - y)| := abs_sub _ _
    rw [abs_mul, abs_mul] at h1
    have h2 : |a - x| * |y| ≤ |x| * u * |y| := mul_le_mul_of_nonneg_right ha (le_of_lt hY)
    have h3 : |x| * |b - y| ≤ |x| * (|y| * u) := mul_le_mul_of_nonneg_left hb hX
    linarith
  have hd1 : |a / b - x / y| * (1 - u) ≤ |x / y| * (2 * u) := by
    rw [hd, abs_div, abs_mul, hxy]
    have hden : 0 < |b| * |y| := mul_pos hBpos hY
    rw [div_mul_eq_mul_div, div_mul_eq_mul_div, div_le_div_iff₀ hden hY]
    have h4 : |(a - x) * y - x * (b - y)| * (1 - u) * |y| ≤
        2 * u * |x| * |y| * (1 - u) * |y| := by
      apply mul_le_mul_of_nonneg_right _ (le_of_lt hY)
      exact mul_le_mul_of_nonneg_right hnum (le_of_lt hu1)
    have h5 : 2 * u * |x| * |y| * ((1 - u) * |y|) ≤ 2 * u * |x| * |y| * |b| := by
      apply mul_le_mul_of_nonneg_left hB
      positivity
    nlinarith [h4, h5]
  have hab : |a / b| ≤ |x / y| + |a / b - x / y| := by
    have := abs_add (x / y) (a / b - x / y)
    rw [add_sub_cancel] at this
    exact this
  have hD : 0 ≤ |a / b - x / y| := abs_nonneg _
  have htri : |c - x / y| ≤ |c - a / b| + |a / b - x / y| := by
    have := abs_add (c - a / b) (a / b - x / y)
    rw [sub_add_sub_cancel] at this
    exact this
  have h6 : |c - x / y| ≤ |x / y| * u + |a / b - x / y| * (1 + u) := by
    have h7 : |a / b| * u ≤ (|x / y| + |a / b - x / y|) * u :=
      mul_le_mul_of_nonneg_right hab hu
    linarith
  have h8 : |c - x / y| * (1 - u) ≤ |x / y| * (4 * u) * (1 - u) := by
    have h9 : |c - x / y| * (1 - u) ≤
        |x / y| * u * (1 - u) + |a / b - x / y| * (1 - u) * (1 + u) := by
      have := mul_le_mul_of_nonneg_right h6 (le_of_lt hu1)
      linarith
    have h10 : |a / b - x / y| * (1 - u) * (1 + u) ≤ |x / y| * (2 * u) * (1 + u) :=
      mul_le_mul_of_nonneg_right hd1 (by linarith)
    have h11 : |x / y| * u * (1 - u) + |x / y| * (2 * u) * (1 + u) ≤
        |x / y| * (4 * u) * (1 - u) := by
      have h12 : |x / y| * u * ((1 - u) + 2 * (1 + u)) ≤ |x / y| * u * (4 * (1 - u)) := by
        apply mul_le_mul_of_nonneg_left _ (mul_nonneg hXY hu)
        linarith
      linarith
    linarith
  exact le_of_mul_le_mul_right h8 hu1

theorem abs_round_bounds (q r : ℚ) (h : |r - q| ≤ |q| / 2 ^ (53 : ℕ)) :
    |q| / 2 ≤ |r| ∧ |r| ≤ 2 * |q| := by
  have hq : 0 ≤ |q| := abs_nonneg q
  have h53 : |q| / 2 ^ (53 : ℕ) ≤ |q| / 2 := by
    apply div_le_div_of_nonneg_left hq (by norm_num)
    norm_num
  have h1 : |q| - |r| ≤ |q - r| := abs_sub_abs_le_abs_sub q r
  have h2 : |r| - |q| ≤ |r - q| := abs_sub_abs_le_abs_sub r q
  rw [abs_sub_comm] at h1
  constructor <;> linarith

/-- The three rounded divisions of the self-estimate stay within a relative
error of `2^-51` of the exact quotient, for a rotation delta of 16-bit fields
and a non-zero time delta below `2^53` microseconds. -/
theorem quotient_accurate (d t : ℤ) (hd : |d| < 65536) (ht0 : t ≠ 0) (ht : |t| < 2 ^ 53) :
    ∃ r : ℚ,
      DoubleVal.div (DoubleVal.div (DoubleVal.ofInt d) (DoubleVal.fin 100))
        (DoubleVal.div (DoubleVal.ofInt t) (DoubleVal.fin 1000000)) = DoubleVal.fin r ∧
      |r - ((d : ℚ) / 100) / ((t : ℚ) / 1000000)| ≤
        |((d : ℚ) / 100) / ((t : ℚ) / 1000000)| / 2 ^ (51 : ℕ) := by
  have hd53 : |d| < 2 ^ 53 := lt_of_lt_of_le hd (by norm_num)
  rw [ofInt_exact d hd53, ofInt_exact t ht, div_fin _ _ (by norm_num : (100 : ℚ) ≠ 0),
    div_fin _ _ (by norm_num : (1000000 : ℚ) ≠ 0)]
  have htq : (t : ℚ) ≠ 0 := by exact_mod_cast ht0
  have hy0 : (t : ℚ) / 1000000 ≠ 0 := div_ne_zero htq (by norm_num)
  -- the time delta in seconds
  have hylo : (1 : ℚ) / 1000000 ≤ |(t : ℚ) / 1000000| := by
    rw [abs_div, abs_of_pos (by norm_num : (0 : ℚ) < 1000000)]
    apply div_le_div_of_nonneg_right _ (by norm_num)
    have h1 : (1 : ℤ) ≤ |t| := Int.one_le_abs ht0
    have h2 : ((1 : ℤ) : ℚ) ≤ ((|t| : ℤ) : ℚ) := by exact_mod_cast h1
    rw [Int.cast_abs] at h2
    simpa using h2
  have hyhi : |(t : ℚ) / 1000000| ≤ 2 ^ (53 : ℕ) / 1000000 := by
    rw [abs_div, abs_of_pos (by norm_num : (0 : ℚ) < 1000000)]
    apply div_le_div_of_nonneg_right _ (by norm_num)
    have h2 : ((|t| : ℤ) : ℚ) < (((2 : ℤ) ^ 53 : ℤ) : ℚ) := by exact_mod_cast ht
    rw [Int.cast_abs] at h2
    have h3 : (((2 : ℤ) ^ 53 : ℤ) : ℚ) = 2 ^ (53 : ℕ) := by norm_num
    rw [h3] at h2
    exact le_of_lt h2
  obtain ⟨b, hb, hberr⟩ := round_near ((t : ℚ) / 1000000)
    (le_trans (by norm_num) hylo) (lt_of_le_of_lt hyhi (by norm_num))
  obtain ⟨hb1, hb2⟩ := abs_round_bounds _ _ hberr
  have hbpos : 0 < |b| := by
    have : (0 : ℚ) < |(t : ℚ) / 1000000| / 2 := by linarith
    linarith
  have hb0 : b ≠ 0 := abs_pos.1 hbpos
  rw [hb]
  rcases eq_or_ne d 0 with hz | hnz
  · rw [hz, Int.cast_zero, zero_div, round_zero, div_fin _ _ hb0, zero_div, round_zero]
    exact ⟨0, rfl, by simp⟩
  · have hdq : (d : ℚ) ≠ 0 := by exact_mod_cast hnz
    have hxlo : (1 : ℚ) / 100 ≤ |(d : ℚ) / 100| := by
      rw [abs_div, abs_of_pos (by norm_num : (0 : ℚ) < 100)]
      apply div_le_div_of_nonneg_right _ (by norm_num)
      have h1 : (1 : ℤ) ≤ |d| := Int.one_le_abs hnz
      have h2 : ((1 : ℤ) : ℚ) ≤ ((|d| : ℤ) : ℚ) := by exact_mod_cast h1
      rw [Int.cast_abs] at h2
      simpa using h2
    have hxhi : |(d : ℚ) / 100| ≤ 65536 / 100 := by
      rw [abs_div, abs_of_pos (by norm_num : (0 : ℚ) < 100)]
      apply div_le_div_of_nonneg_right _ (by norm_num)
      have h2 : ((|d| : ℤ) : ℚ) < ((65536 : ℤ) : ℚ) := by exact_mod_cast hd
      rw [Int.cast_abs] at h2
      have h3 : ((65536 : ℤ) : ℚ) = 65536 := by norm_num
      rw [h3] at h2
      exact le_of_lt h2
    obtain ⟨a, ha, haerr⟩ := round_near ((d : ℚ) / 100)
      (le_trans (by norm_num) hxlo) (lt_of_le_of_lt hxhi (by norm_num))
    obtain ⟨ha1, ha2⟩ := abs_round_bounds _ _ haerr
    rw [ha, div_fin _ _ hb0]
    have hqlo : (1 : ℚ) / 2 ^ (60 : ℕ) ≤ |a / b| := by
      rw [abs_div, le_div_iff₀ hbpos]
      have h1 : (1 : ℚ) / 2 ^ (60 : ℕ) * |b| ≤ 1 / 2 ^ (60 : ℕ) * (2 * (2 ^ (53 : ℕ) / 1000000)) := by
        apply mul_le_mul_of_nonneg_left _ (by positivity)
        linarith
      have h2 : (1 : ℚ) / 2 ^ (60 : ℕ) * (2 * (2 ^ (53 : ℕ) / 1000000)) ≤ 1 / 200 := by
        norm_num
      linarith
    have hqhi : |a / b| ≤ 2 ^ (40 : ℕ) := by
      rw [abs_div, div_le_iff₀ hbpos]
      have h1 : (2 : ℚ) ^ (40 : ℕ) * (1 / 2000000) ≤ 2 ^ (40 : ℕ) * |b| := by
        apply mul_le_mul_of_nonneg_left _ (by positivity)
        linarith
      have h2 : (2 : ℚ) * (65536 / 100) ≤ 2 ^ (40 : ℕ) * (1 / 2000000) := by norm_num
      linarith
    obtain ⟨c, hc, hcerr⟩ := round_near (a / b)
      (le_trans (by
        have : (2 : ℚ) ^ (-1022 : ℤ) ≤ 2 ^ (-60 : ℤ) :=
          zpow_le_zpow_right₀ (by norm_num) (by norm_num)
        have h2 : (2 : ℚ) ^ (-60 : ℤ) = 1 / 2 ^ (60 : ℕ) := by
          rw [zpow_neg, one_div]; norm_cast
        rw [← h2]; exact this) hqlo)
      (lt_of_le_of_lt hqhi (pow_lt_pow_right₀ (by norm_num) (by norm_num)))
    refine ⟨c, hc, ?_⟩
    have hfin := rel_err_div ((d : ℚ) / 100) ((t : ℚ) / 1000000) a b c (1 / 2 ^ (53 : ℕ))
      (by positivity) (by norm_num) hy0
      (by rw [mul_one_div]; exact haerr) (by rw [mul_one_div]; exact hberr)
      (by rw [mul_one_div]; exact hcerr)
    have h51 : (4 : ℚ) * (1 / 2 ^ (53 : ℕ)) = 1 / 2 ^ (51 : ℕ) := by norm_num
    rw [h51, mul_one_div] at hfin
    exact hfin

theorem round_pos_eval (q r : ℚ) (e k : ℤ) (he1 : (2 : ℚ) ^ e ≤ q) (he2 : q < 2 ^ (e + 1))
    (hemin : -1022 ≤ e) (hk : |(k : ℚ) - q / 2 ^ (e - 52)| < 1 / 2)
    (hr : r = k * 2 ^ (e - 52)) (hfin : r < 2 ^ (1024 : ℕ)) :
    DoubleVal.round_pos q = DoubleVal.fin r := by
  have hq : 0 < q := lt_of_lt_of_le (two_zpow_pos _) he1
  have hlog : Int.log 2 q = e := by
    have h1 := le_log_two q hq e he1
    have h2 := log_two_lt q hq (e + 1) he2
    omega
  obtain ⟨k2, hk2, hval⟩ := round_pos_cases q
  rw [hlog, max_eq_left hemin] at hk2 hval
  have hkk : k2 = k := by
    have h1 : |((k2 - k : ℤ) : ℚ)| < 1 := by
      push_cast
      have h3 : (k2 : ℚ) - k = ((k2 : ℚ) - q / 2 ^ (e - 52)) - ((k : ℚ) - q / 2 ^ (e - 52)) := by
        ring
      rw [h3]
      have h4 := abs_sub ((k2 : ℚ) - q / 2 ^ (e - 52)) ((k : ℚ) - q / 2 ^ (e - 52))
      linarith
    have h2 : |k2 - k| < 1 := by
      rw [← Int.cast_abs] at h1
      exact_mod_cast h1
    have h5 := Int.abs_lt_one_iff.1 h2
    omega
  rw [hkk, ← hr, if_pos hfin] at hval
  exact hval

theorem round_eval_pos (q r : ℚ) (e k : ℤ) (he1 : (2 : ℚ) ^ e ≤ q) (he2 : q < 2 ^ (e + 1))
    (hemin : -1022 ≤ e) (hk : |(k : ℚ) - q / 2 ^ (e - 52)| < 1 / 2)
    (hr : r = k * 2 ^ (e - 52)) (hfin : r < 2 ^ (1024 : ℕ)) :
    DoubleVal.round q = DoubleVal.fin r := by
  rw [round_of_pos q (lt_of_lt_of_le (two_zpow_pos _) he1)]
  exact round_pos_eval q r e k he1 he2 hemin hk hr hfin

theorem round_eval_neg (q r : ℚ) (e k : ℤ) (he1 : (2 : ℚ) ^ e ≤ -q) (he2 : -q < 2 ^ (e + 1))
    (hemin : -1022 ≤ e) (hk : |(k : ℚ) - -q / 2 ^ (e - 52)| < 1 / 2)
    (hr : -r = k * 2 ^ (e - 52)) (hfin : -r < 2 ^ (1024 : ℕ)) :
    DoubleVal.round q = DoubleVal.fin r := by
  have hq : q < 0 := by
    have := lt_of_lt_of_le (two_zpow_pos e) he1
    linarith
  rw [round_of_neg q hq, round_pos_eval (-q) (-r) e k he1 he2 hemin hk hr hfin]
  simp [DoubleVal.neg]

/-! ## Angular speed -/

theorem angularSpeed_self {S K R : Type} (C : Collab S K R) (st : stream S K R) (p : packet)
    (hmode : st.m_angularSpeed = none) (hp : st.m_packet = some p) :
    stream.angularSpeed C st = some (self_estimate C p) := by
  simp [stream.angularSpeed, hmode, hp]

theorem self_estimate_form {S K R : Type} (C : Collab S K R) (p : packet) :
    self_estimate C p =
      DoubleVal.div
        (DoubleVal.div
          (DoubleVal.ofInt (((p.blocks 0).rotation : Int) - ((p.blocks 11).rotation : Int)))
          (DoubleVal.fin 100))
        (DoubleVal.div
          (DoubleVal.ofInt (C.time_offset 0 0 - C.time_offset 11 0))
          (DoubleVal.fin 1000000)) := rfl

theorem self_estimate_zero_delta {S K R : Type} (C : Collab S K R) (p : packet)
    (hdt : time_delta C = 0) :
    self_estimate C p =
      if rotation_delta p = 0 then DoubleVal.nan
      else if 0 < rotation_delta p then DoubleVal.posInf else DoubleVal.negInf := by
  simp only [self_estimate, hdt]
  exact quotient_by_zero (rotation_delta p)

theorem self_estimate_accurate {S K R : Type} (C : Collab S K R) (p : packet)
    (h0 : (p.blocks 0).rotation < 65536) (h11 : (p.blocks 11).rotation < 65536)
    (hdt : time_delta C ≠ 0) (hdt53 : |time_delta C| < 2 ^ 53) :
    ∃ r : ℚ, self_estimate C p = DoubleVal.fin r ∧
      |r - ((rotation_delta p : ℚ) / 100) / ((time_delta C : ℚ) / 1000000)| ≤
        |((rotation_delta p : ℚ) / 100) / ((time_delta C : ℚ) / 1000000)| / 2 ^ (51 : ℕ) := by
  have hd : |rotation_delta p| < 65536 := by
    unfold rotation_delta
    rw [abs_lt]
    constructor <;> omega
  exact quotient_accurate (rotation_delta p) (time_delta C) hd hdt hdt53

theorem self_estimate_157_100 :
    self_estimate (replay_collab (offsets_with_delta 250)) (flat_packet 157 100 1) =
      DoubleVal.fin (5013773022658559 / 2199023255552) := by
  have hd : rotation_delta (flat_packet 157 100 1) = 57 := by decide
  have ht : time_delta (replay_collab (offsets_with_delta 250)) = 250 := by decide
  simp only [self_estimate, hd, ht]
  rw [ofInt_exact 57 (by norm_num), ofInt_exact 250 (by norm_num),
    div_fin _ _ (by norm_num : (100 : ℚ) ≠ 0), div_fin _ _ (by norm_num : (1000000 : ℚ) ≠ 0)]
  rw [round_eval_pos (((57 : ℤ) : ℚ) / 100) (5134103575202365 / 9007199254740992) (-1)
      5134103575202365 (by norm_num) (by norm_num) (by norm_num)
      (by rw [abs_lt]; constructor <;> norm_num) (by norm_num) (by norm_num),
    round_eval_pos (((250 : ℤ) : ℚ) / 1000000) (1152921504606847 / 4611686018427387904) (-12)
      4611686018427388 (by norm_num) (by norm_num) (by norm_num)
      (by rw [abs_lt]; constructor <;> norm_num) (by norm_num) (by norm_num),
    div_fin _ _ (by norm_num)]
  exact round_eval_pos _ _ 11 5013773022658559 (by norm_num) (by norm_num) (by norm_num)
      (by rw [abs_lt]; constructor <;> norm_num) (by norm_num) (by norm_num)

theorem self_estimate_50_35950 :
    self_estimate (replay_collab (offsets_with_delta 250)) (flat_packet 50 35950 1) =
      DoubleVal.fin (-1436000) := by
  have hd : rotation_delta (flat_packet 50 35950 1) = -35900 := by decide
  have ht : time_delta (replay_collab (offsets_with_delta 250)) = 250 := by decide
  simp only [self_estimate, hd, ht]
  rw [ofInt_exact (-35900) (by norm_num), ofInt_exact 250 (by norm_num),
    div_fin _ _ (by norm_num : (100 : ℚ) ≠ 0), div_fin _ _ (by norm_num : (1000000 : ℚ) ≠ 0)]
  rw [round_eval_neg (((-35900 : ℤ) : ℚ) / 100) (-359) 8
      6315594789945344 (by norm_num) (by norm_num) (by norm_num)
      (by rw [abs_lt]; constructor <;> norm_num) (by norm_num) (by norm_num),
    round_eval_pos (((250 : ℤ) : ℚ) / 1000000) (1152921504606847 / 4611686018427387904) (-12)
      4611686018427388 (by norm_num) (by norm_num) (by norm_num)
      (by rw [abs_lt]; constructor <;> norm_num) (by norm_num) (by norm_num),
    div_fin _ _ (by norm_num)]
  exact round_eval_neg _ _ 20 6167573037056000 (by norm_num) (by norm_num) (by norm_num)
      (by rw [abs_lt]; constructor <;> norm_num) (by norm_num) (by norm_num)

theorem with_rpm_angularSpeed {S K R : Type} (C : Collab S K R) (src : S) (rpm : Nat)
    (outputInvalid legacy : Bool) :
    stream.angularSpeed C (stream.with_rpm C src rpm outputInvalid legacy) =
      some (DoubleVal.fin (((6 * rpm % 4294967296 : ℕ) : ℚ))) := by
  have hlt : 6 * rpm % 4294967296 < 2 ^ 53 :=
    lt_trans (Nat.mod_lt _ (by norm_num)) (by norm_num)
  have hex : DoubleVal.ofInt (((6 * rpm % 4294967296 : ℕ) : ℤ)) =
      DoubleVal.fin (((6 * rpm % 4294967296 : ℕ) : ℚ)) := by
    rw [ofInt_exact _ (by rw [abs_lt]; constructor <;> omega)]
    norm_cast
  have hspeed : (stream.with_rpm C src rpm outputInvalid legacy).m_angularSpeed =
      some (DoubleVal.ofInt (((6 * rpm % 4294967296 : ℕ) : ℤ))) := rfl
  unfold stream.angularSpeed
  rw [hspeed, hex]

/-- C6 (as stated, refuted): for block0 = 50, block11 = 35950 and a time
offset of 250 microseconds the rotation delta is non-positive, angularSpeed
is -1436000 degrees per second, and that is not the value with 36000 added
to the delta. Without wrap, for block0 = 157, block11 = 100, 250 microseconds
and rpm = 380, where delta * 10000 = 6 * rpm * 250, the self-estimate is
5013773022658559 / 2^41 (2279.9999999999995), not the fixed-mode 2280. -/
theorem wraparound_correction_counterexample :
    rotation_delta (flat_packet 50 35950 1) ≤ 0 ∧
    stream.angularSpeed (replay_collab (offsets_with_delta 250))
        (self_stream (offsets_with_delta 250) (flat_packet 50 35950 1)) =
      some (DoubleVal.fin (-1436000)) ∧
    stream.angularSpeed (replay_collab (offsets_with_delta 250))
        (self_stream (offsets_with_delta 250) (flat_packet 50 35950 1)) ≠
      some (DoubleVal.div
        (DoubleVal.div
          (DoubleVal.ofInt (rotation_delta (flat_packet 50 35950 1) + 36000))
          (DoubleVal.fin 100))
        (DoubleVal.div
          (DoubleVal.ofInt (time_delta (replay_collab (offsets_with_delta 250))))
          (DoubleVal.fin 1000000))) ∧
    rotation_delta (flat_packet 157 100 1) * 10000 =
      6 * 380 * time_delta (replay_collab (offsets_with_delta 250)) ∧
    stream.angularSpeed (replay_collab (offsets_with_delta 250))
        (self_stream (offsets_with_delta 250) (flat_packet 157 100 1)) =
      some (DoubleVal.fin (5013773022658559 / 2199023255552)) ∧
    stream.angularSpeed (replay_collab (offsets_with_delta 250))
        (stream.with_rpm (replay_collab (offsets_with_delta 250)) (replay.of []) 380
          true false) =
      some (DoubleVal.fin 2280) ∧
    DoubleVal.fin (5013773022658559 / 2199023255552) ≠ DoubleVal.fin 2280 := by
  have hd : rotation_delta (flat_packet 50 35950 1) = -35900 := by decide
  have ht : time_delta (replay_collab (offsets_with_delta 250)) = 250 := by decide
  have hs := angularSpeed_self (replay_collab (offsets_with_delta 250))
    (self_stream (offsets_with_delta 250) (flat_packet 50 35950 1))
    (flat_packet 50 35950 1) rfl rfl
  have hs2 := angularSpeed_self (replay_collab (offsets_with_delta 250))
    (self_stream (offsets_with_delta 250) (flat_packet 157 100 1))
    (flat_packet 157 100 1) rfl rfl
  refine ⟨by rw [hd]; decide, ?_, ?_, by decide, ?_, ?_, ?_⟩
  · rw [hs, self_estimate_50_35950]
  · rw [hs, self_estimate_50_35950, hd, ht]
    obtain ⟨r, hr, herr⟩ := quotient_accurate (-35900 + 36000) 250 (by norm_num) (by norm_num)
      (by norm_num)
    rw [hr]
    intro h
    injection h with h
    injection h with h
    rw [← h] at herr
    norm_num at herr
  · rw [hs2, self_estimate_157_100]
  · rw [with_rpm_angularSpeed]
    norm_num
  · intro h
    injection h with h
    norm_num at h

/-- C6 (amended): in self-estimating mode no wraparound correction is applied;
the angular velocity is the signed rotation delta divided by 100 and then by
the time offset in seconds, each division rounded to double. For 16-bit
rotations and a non-zero time offset below 2^53 microseconds it is within a
relative error of 2^-51 of the exact quotient: when
delta * 10000 = 6 * rpm * (time offset in microseconds) it is within
6 * rpm / 2^51 of the fixed-mode velocity 6 * rpm, and for a non-positive
delta and a positive time offset it is non-positive. -/
theorem self_estimate_without_wraparound {S K R : Type} (C : Collab S K R)
    (st : stream S K R) (p : packet) (src : S) (rpm : Nat) (outputInvalid legacy : Bool)
    (hmode : st.m_angularSpeed = none) (hp : st.m_packet = some p)
    (h0 : (p.blocks 0).rotation < 65536) (h11 : (p.blocks 11).rotation < 65536)
    (hdt : time_delta C ≠ 0) (hdt53 : |time_delta C| < 2 ^ 53) (hrpm : 6 * rpm < UINT_MOD) :
    stream.angularSpeed C st =
      some (DoubleVal.div
        (DoubleVal.div
          (DoubleVal.ofInt (((p.blocks 0).rotation : Int) - ((p.blocks 11).rotation : Int)))
          (DoubleVal.fin 100))
        (DoubleVal.div
          (DoubleVal.ofInt (C.time_offset 0 0 - C.time_offset 11 0))
          (DoubleVal.fin 1000000))) ∧
    ∃ r : ℚ, stream.angularSpeed C st = some (DoubleVal.fin r) ∧
      |r - ((((p.blocks 0).rotation : ℚ) - ((p.blocks 11).rotation : ℚ)) / 100) /
          ((time_delta C : ℚ) / 1000000)| ≤
        |((((p.blocks 0).rotation : ℚ) - ((p.blocks 11).rotation : ℚ)) / 100) /
          ((time_delta C : ℚ) / 1000000)| / 2 ^ (51 : ℕ) ∧
      (rotation_delta p * 10000 = 6 * (rpm : Int) * time_delta C →
        stream.angularSpeed C (stream.with_rpm C src rpm outputInvalid legacy) =
          some (DoubleVal.fin (6 * (rpm : ℚ))) ∧
        |r - 6 * (rpm : ℚ)| ≤ 6 * (rpm : ℚ) / 2 ^ (51 : ℕ)) ∧
      (rotation_delta p ≤ 0 → 0 < time_delta C → r ≤ 0) := by
  have hself := angularSpeed_self C st p hmode hp
  obtain ⟨r, hr, herr⟩ := self_estimate_accurate C p h0 h11 hdt hdt53
  have hq : ((time_delta C : ℤ) : ℚ) ≠ 0 := by exact_mod_cast hdt
  have hcast : ((rotation_delta p : ℤ) : ℚ) =
      ((p.blocks 0).rotation : ℚ) - ((p.blocks 11).rotation : ℚ) := by
    unfold rotation_delta
    push_cast
    ring
  rw [hcast] at herr
  refine ⟨by rw [hself, self_estimate_form], r, by rw [hself, hr], herr, ?_, ?_⟩
  · intro hmatch
    have hmod : 6 * rpm % 4294967296 = 6 * rpm := Nat.mod_eq_of_lt hrpm
    have hexact : ((((p.blocks 0).rotation : ℚ) - ((p.blocks 11).rotation : ℚ)) / 100) /
        ((time_delta C : ℚ) / 1000000) = 6 * (rpm : ℚ) := by
      have h2 : (rotation_delta p : ℚ) * 10000 = 6 * (rpm : ℚ) * (time_delta C : ℚ) := by
        exact_mod_cast hmatch
      rw [hcast] at h2
      field_simp
      linarith
    rw [hexact] at herr
    have hnn : (0 : ℚ) ≤ 6 * (rpm : ℚ) := by positivity
    rw [abs_of_nonneg hnn] at herr
    refine ⟨?_, herr⟩
    rw [with_rpm_angularSpeed, hmod]
    push_cast
    rfl
  · intro hneg hpos
    have hx : ((((p.blocks 0).rotation : ℚ) - ((p.blocks 11).rotation : ℚ)) / 100) /
        ((time_delta C : ℚ) / 1000000) ≤ 0 := by
      have h1 : ((rotation_delta p : ℤ) : ℚ) ≤ 0 := by exact_mod_cast hneg
      have h2 : (0 : ℚ) < ((time_delta C : ℤ) : ℚ) := by exact_mod_cast hpos
      rw [hcast] at h1
      apply div_nonpos_of_nonpos_of_nonneg
      · apply div_nonpos_of_nonpos_of_nonneg h1 (by norm_num)
      · positivity
    rw [abs_of_nonpos hx] at herr
    have h3 := (abs_le.1 herr).2
    have h4 : -(((((p.blocks 0).rotation : ℚ) - ((p.blocks 11).rotation : ℚ)) / 100) /
        ((time_delta C : ℚ) / 1000000)) / 2 ^ (51 : ℕ) ≤
        -(((((p.blocks 0).rotation : ℚ) - ((p.blocks 11).rotation : ℚ)) / 100) /
        ((time_delta C : ℚ) / 1000000)) := by
      apply div_le_self (by linarith)
      exact one_le_pow₀ (by norm_num)
    linarith

theorem self_estimate_without_wraparound_witness :
    ∃ r : ℚ,
      stream.angularSpeed (replay_collab (offsets_with_delta 250))
          (self_stream (offsets_with_delta 250) (flat_packet 160 100 1)) =
        some (DoubleVal.fin r) ∧
      stream.angularSpeed (replay_collab (offsets_with_delta 250))
          (stream.with_rpm (replay_collab (offsets_with_delta 250)) (replay.of []) 400
            true false) =
        some (DoubleVal.fin (6 * ((400 : ℕ) : ℚ))) ∧
      |r - 6 * ((400 : ℕ) : ℚ)| ≤ 6 * ((400 : ℕ) : ℚ) / 2 ^ (51 : ℕ) :=
  (self_estimate_without_wraparound (replay_collab (offsets_with_delta 250))
    (self_stream (offsets_with_delta 250) (flat_packet 160 100 1)) (flat_packet 160 100 1)
    (replay.of []) 400 true false rfl rfl (by decide) (by decide) (by decide) (by decide)
    (by decide)).2.elim
    (fun r h => ⟨r, h.1, (h.2.2.1 (by decide)).1, (h.2.2.1 (by decide)).2⟩)

/-- C9 (as stated, refuted): with a zero time delta, angularSpeed for a packet
with rotations (100, 50) is +infinity and for a following packet with
rotations (50, 100) it is -infinity: the value is a quotient by zero of the
current packet, not the value of the previous packet. -/
theorem zero_time_delta_counterexample :
    time_delta (replay_collab (offsets_with_delta 0)) = 0 ∧
    stream.angularSpeed (replay_collab (offsets_with_delta 0))
        (self_stream (offsets_with_delta 0) (flat_packet 100 50 1)) =
      some DoubleVal.posInf ∧
    stream.angularSpeed (replay_collab (offsets_with_delta 0))
        (self_stream (offsets_with_delta 0) (flat_packet 50 100 1)) =
      some DoubleVal.negInf := by
  have ht : time_delta (replay_collab (offsets_with_delta 0)) = 0 := by decide
  refine ⟨ht, ?_, ?_⟩
  · rw [angularSpeed_self _ _ (flat_packet 100 50 1) rfl rfl, self_estimate_zero_delta _ _ ht]
    have hd : rotation_delta (flat_packet 100 50 1) = 50 := by decide
    rw [hd]; rfl
  · rw [angularSpeed_self _ _ (flat_packet 50 100 1) rfl rfl, self_estimate_zero_delta _ _ ht]
    have hd : rotation_delta (flat_packet 50 100 1) = -50 := by decide
    rw [hd]; rfl

/-- C9 (amended): in self-estimating mode with a zero time delta, angularSpeed
has no fallback; it is the quotient by zero of the current packet's rotation
delta: NaN for a zero delta, +infinity for a positive and -infinity for a
negative one. -/
theorem angularSpeed_zero_time_delta {S K R : Type} (C : Collab S K R)
    (st : stream S K R) (p : packet)
    (hmode : st.m_angularSpeed = none) (hp : st.m_packet = some p)
    (hdt : C.time_offset 0 0 - C.time_offset 11 0 = 0) :
    stream.angularSpeed C st =
      some (if ((p.blocks 0).rotation : Int) - ((p.blocks 11).rotation : Int) = 0 then
          DoubleVal.nan
        else if 0 < ((p.blocks 0).rotation : Int) - ((p.blocks 11).rotation : Int) then
          DoubleVal.posInf
        else DoubleVal.negInf) := by
  rw [angularSpeed_self C st p hmode hp, self_estimate_zero_delta C p hdt]
  rfl

theorem angularSpeed_zero_time_delta_witness :
    stream.angularSpeed (replay_collab (offsets_with_delta 0))
        (self_stream (offsets_with_delta 0) (flat_packet 50 50 1)) =
      some (if (((flat_packet 50 50 1).blocks 0).rotation : Int) -
            (((flat_packet 50 50 1).blocks 11).rotation : Int) = 0 then
          DoubleVal.nan
        else if 0 < (((flat_packet 50 50 1).blocks 0).rotation : Int) -
            (((flat_packet 50 50 1).blocks 11).rotation : Int) then
          DoubleVal.posInf
        else DoubleVal.negInf) :=
  angularSpeed_zero_time_delta (replay_collab (offsets_with_delta 0))
    (self_stream (offsets_with_delta 0) (flat_packet 50 50 1)) (flat_packet 50 50 1)
    rfl rfl (by decide)

/-! ## The passes of `read` and `skip_scan` -/

theorem refresh_timestamp_frame {S K R : Type} (C : Collab S K R) (st : stream S K R) :
    (stream.refresh_timestamp C st).m_angularSpeed = st.m_angularSpeed ∧
    (stream.refresh_timestamp C st).m_outputInvalid = st.m_outputInvalid ∧
    (stream.refresh_timestamp C st).m_stream = st.m_stream ∧
    (stream.refresh_timestamp C st).m_packet = st.m_packet ∧
    (stream.refresh_timestamp C st).m_index = st.m_index ∧
    (stream.refresh_timestamp C st).m_scan = st.m_scan ∧
    (stream.refresh_timestamp C st).m_tick = st.m_tick ∧
    (stream.refresh_timestamp C st).m_closed = st.m_closed ∧
    (stream.refresh_timestamp C st).m_legacy = st.m_legacy := by
  unfold stream.refresh_timestamp
  split <;> simp

theorem read_decode_null {S K R : Type} (C : Collab S K R) (st : stream S K R)
    (hp : st.m_packet = none) :
    stream.read_decode C st =
      { state := stream.refresh_timestamp C st, events := [Event.null_deref],
        result := some read_result.fault } := by
  have hf := (refresh_timestamp_frame C st).2.2.2.1
  unfold stream.read_decode
  simp only [hf, hp]

theorem read_decode_packet {S K R : Type} (C : Collab S K R) (st : stream S K R) (p : packet)
    (hp : st.m_packet = some p) :
    ∃ w, stream.angularSpeed C st = some w ∧
      stream.read_decode C st =
        { state :=
            { stream.refresh_timestamp C st with
              m_laserReturn := C.get_laser_return p st.m_index.block st.m_index.laser
                (stream.refresh_timestamp C st).m_timestamp w st.m_legacy
              m_index := st.m_index.inc }
          events := [Event.decode p st.m_index.block st.m_index.laser
            (stream.refresh_timestamp C st).m_timestamp w st.m_legacy]
          result :=
            if (!C.range_equal_zero (C.get_laser_return p st.m_index.block st.m_index.laser
                (stream.refresh_timestamp C st).m_timestamp w st.m_legacy)) ||
                st.m_outputInvalid
            then some (read_result.point (C.get_laser_return p st.m_index.block
              st.m_index.laser (stream.refresh_timestamp C st).m_timestamp w st.m_legacy))
            else none } := by
  obtain ⟨ha, ho, -, hpk, hi, -, -, -, hl⟩ := refresh_timestamp_frame C st
  have hw : ∃ w, stream.angularSpeed C st = some w := by
    unfold stream.angularSpeed
    cases st.m_angularSpeed with
    | some w => exact ⟨w, rfl⟩
    | none => simp [hp]
  obtain ⟨w, hw⟩ := hw
  have hw1 : stream.angularSpeed C (stream.refresh_timestamp C st) = some w := by
    rw [← hw]
    unfold stream.angularSpeed
    rw [ha, hpk]
  refine ⟨w, hw, ?_⟩
  unfold stream.read_decode
  simp only [hpk, hp, hw1, hi, hl, ho]

theorem read_decode_frame {S K R : Type} (C : Collab S K R) (st : stream S K R) :
    (stream.read_decode C st).state.m_scan = st.m_scan ∧
    (stream.read_decode C st).state.m_closed = st.m_closed ∧
    (stream.read_decode C st).state.m_angularSpeed = st.m_angularSpeed ∧
    (stream.read_decode C st).state.m_packet = st.m_packet ∧
    (stream.read_decode C st).state.m_stream = st.m_stream ∧
    fetched (stream.read_decode C st).events = 0 := by
  obtain ⟨ha, -, hs, hpk, -, hsc, -, hc, -⟩ := refresh_timestamp_frame C st
  cases hp : st.m_packet with
  | none =>
    rw [read_decode_null C st hp]
    exact ⟨hsc, hc, ha, hpk.trans hp, hs, rfl⟩
  | some p =>
    obtain ⟨w, -, hd⟩ := read_decode_packet C st p hp
    rw [hd]
    exact ⟨hsc, hc, ha, hpk.trans hp, hs, rfl⟩

theorem fetched_append (a b : List Event) : fetched (a ++ b) = fetched a + fetched b := by
  induction a with
  | nil => simp [fetched]
  | cons e rest ih =>
    cases e with
    | fetch i g =>
      cases g with
      | none => simpa [fetched] using ih
      | some p => simp [fetched, ih]; omega
    | decode p b l t w lg => simpa [fetched] using ih
    | null_deref => simpa [fetched] using ih
    | close_source => simpa [fetched] using ih

theorem uinc_iterate_of_lt (k x : Nat) (h : x + k < UINT_MOD) : uinc^[k] x = x + k := by
  induction k with
  | zero => rfl
  | succ n ih =>
    rw [Function.iterate_succ_apply', ih (by omega)]
    unfold uinc
    rw [Nat.mod_eq_of_lt (by omega)]
    omega

theorem read_body_within {S K R : Type} (C : Collab S K R) (st : stream S K R)
    (h : st.m_index.idx < m_size) :
    stream.read_body C st = stream.read_decode C st := by
  unfold stream.read_body
  rw [if_neg (by omega)]

theorem read_body_no_packet {S K R : Type} (C : Collab S K R) (st : stream S K R)
    (h : st.m_index.idx ≥ m_size) (hg : (stream.fetch C st).m_packet = none) :
    stream.read_body C st =
      { state := stream.fetch C st, events := [Event.fetch st.m_index.idx none],
        result := some read_result.end_of_stream } := by
  unfold stream.read_body
  rw [if_pos h]
  simp only [hg]

theorem read_body_packet {S K R : Type} (C : Collab S K R) (st : stream S K R) (p : packet)
    (h : st.m_index.idx ≥ m_size) (hg : (stream.fetch C st).m_packet = some p) :
    stream.read_body C st =
      { state := (stream.read_decode C (stream.count_scan C (stream.fetch C st) p)).state
        events := Event.fetch st.m_index.idx (some p) ::
          (stream.read_decode C (stream.count_scan C (stream.fetch C st) p)).events
        result := (stream.read_decode C (stream.count_scan C (stream.fetch C st) p)).result } := by
  unfold stream.read_body
  rw [if_pos h]
  simp only [hg]

theorem read_closed {S K R : Type} (C : Collab S K R) (fuel : Nat) (st : stream S K R)
    (h : st.m_closed = true) :
    stream.read C fuel st =
      { state := st, events := [], result := some read_result.end_of_stream } := by
  cases fuel <;> simp [stream.read, h]

theorem read_zero_open {S K R : Type} (C : Collab S K R) (st : stream S K R)
    (h : st.m_closed = false) :
    stream.read C 0 st = { state := st, events := [], result := none } := by
  simp [stream.read, h]

theorem read_succ_return {S K R : Type} (C : Collab S K R) (fuel : Nat) (st : stream S K R)
    (o : read_result R) (h : st.m_closed = false)
    (hr : (stream.read_body C st).result = some o) :
    stream.read C (fuel + 1) st =
      { state := (stream.read_body C st).state, events := (stream.read_body C st).events,
        result := some o } := by
  simp [stream.read, h, hr]

theorem read_succ_continue {S K R : Type} (C : Collab S K R) (fuel : Nat) (st : stream S K R)
    (h : st.m_closed = false) (hr : (stream.read_body C st).result = none) :
    stream.read C (fuel + 1) st =
      { state := (stream.read C fuel (stream.read_body C st).state).state
        events := (stream.read_body C st).events ++
          (stream.read C fuel (stream.read_body C st).state).events
        result := (stream.read C fuel (stream.read_body C st).state).result } := by
  simp [stream.read, h, hr]

theorem skip_scan_closed {S K R : Type} (C : Collab S K R) (fuel : Nat) (st : stream S K R)
    (h : st.m_closed = true) :
    stream.skip_scan C fuel st = { state := st, events := [], result := some () } := by
  cases fuel <;> simp [stream.skip_scan, h]

theorem skip_scan_zero_open {S K R : Type} (C : Collab S K R) (st : stream S K R)
    (h : st.m_closed = false) :
    stream.skip_scan C 0 st = { state := st, events := [], result := none } := by
  simp [stream.skip_scan, h]

theorem skip_scan_succ_return {S K R : Type} (C : Collab S K R) (fuel : Nat)
    (st : stream S K R) (h : st.m_closed = false)
    (hr : (stream.skip_scan_body C st).result = some ()) :
    stream.skip_scan C (fuel + 1) st =
      { state := (stream.skip_scan_body C st).state
        events := (stream.skip_scan_body C st).events, result := some () } := by
  simp [stream.skip_scan, h, hr]

theorem skip_scan_succ_continue {S K R : Type} (C : Collab S K R) (fuel : Nat)
    (st : stream S K R) (h : st.m_closed = false)
    (hr : (stream.skip_scan_body C st).result = none) :
    stream.skip_scan C (fuel + 1) st =
      { state := (stream.skip_scan C fuel (stream.skip_scan_body C st).state).state
        events := (stream.skip_scan_body C st).events ++
          (stream.skip_scan C fuel (stream.skip_scan_body C st).state).events
        result := (stream.skip_scan C fuel (stream.skip_scan_body C st).state).result } := by
  simp [stream.skip_scan, h, hr]

theorem skip_scan_body_cases {S K R : Type} (C : Collab S K R) (st : stream S K R) :
    (∃ g, (stream.skip_scan_body C st).events = [Event.fetch st.m_index.idx g]) ∧
    ((stream.skip_scan_body C st).state.m_scan = st.m_scan ∨
      ((stream.skip_scan_body C st).state.m_scan = uinc st.m_scan ∧
        ∃ p, (stream.skip_scan_body C st).events = [Event.fetch st.m_index.idx (some p)])) := by
  unfold stream.skip_scan_body
  cases hg : (stream.fetch C st).m_packet with
  | none => simp only [hg]; exact ⟨⟨none, rfl⟩, Or.inl rfl⟩
  | some p =>
    simp only [hg]
    by_cases h1 : (C.tick_is_new_scan (stream.fetch C st).m_tick p).1 = true
    · simp only [h1, if_true]
      exact ⟨⟨some p, rfl⟩, Or.inr ⟨rfl, p, rfl⟩⟩
    · simp only [h1]
      by_cases h2 : (C.traits_is_new_scan (C.tick_is_new_scan (stream.fetch C st).m_tick p).2
          (stream.fetch C st).m_stream p).1 = true
      · simp only [h2, if_true]
        exact ⟨⟨some p, rfl⟩, Or.inr ⟨rfl, p, rfl⟩⟩
      · simp only [h2]
        exact ⟨⟨some p, rfl⟩, Or.inl rfl⟩

theorem count_scan_scan {S K R : Type} (C : Collab S K R) (st : stream S K R) (p : packet) :
    (stream.count_scan C st p).m_scan =
      if (C.traits_is_new_scan st.m_tick st.m_stream p).1 = true then uinc st.m_scan
      else st.m_scan := rfl

theorem fetch_scan {S K R : Type} (C : Collab S K R) (st : stream S K R) :
    (stream.fetch C st).m_scan = st.m_scan := rfl

theorem read_body_scan {S K R : Type} (C : Collab S K R) (st : stream S K R) :
    ∃ k, k ≤ fetched (stream.read_body C st).events ∧
      (stream.read_body C st).state.m_scan = uinc^[k] st.m_scan := by
  by_cases h : st.m_index.idx < m_size
  · rw [read_body_within C st h]
    obtain ⟨hsc, -, -, -, -, hf⟩ := read_decode_frame C st
    exact ⟨0, Nat.zero_le _, hsc⟩
  · have h2 : st.m_index.idx ≥ m_size := by omega
    cases hg : (stream.fetch C st).m_packet with
    | none =>
      rw [read_body_no_packet C st h2 hg]
      exact ⟨0, Nat.zero_le _, rfl⟩
    | some p =>
      rw [read_body_packet C st p h2 hg]
      obtain ⟨hsc, -, -, -, -, hf⟩ :=
        read_decode_frame C (stream.count_scan C (stream.fetch C st) p)
      simp only [fetched, hf, hsc, count_scan_scan, fetch_scan]
      by_cases hn : (C.traits_is_new_scan (stream.fetch C st).m_tick
          (stream.fetch C st).m_stream p).1 = true
      · rw [if_pos hn]; exact ⟨1, by omega, rfl⟩
      · rw [if_neg hn]; exact ⟨0, by omega, rfl⟩

theorem read_scan {S K R : Type} (C : Collab S K R) (fuel : Nat) (st : stream S K R) :
    ∃ k, k ≤ fetched (stream.read C fuel st).events ∧
      (stream.read C fuel st).state.m_scan = uinc^[k] st.m_scan := by
  induction fuel generalizing st with
  | zero =>
    cases hc : st.m_closed with
    | true => rw [read_closed C 0 st hc]; exact ⟨0, Nat.zero_le _, rfl⟩
    | false => rw [read_zero_open C st hc]; exact ⟨0, Nat.zero_le _, rfl⟩
  | succ n ih =>
    cases hc : st.m_closed with
    | true => rw [read_closed C (n + 1) st hc]; exact ⟨0, Nat.zero_le _, rfl⟩
    | false =>
      obtain ⟨k1, hk1, hs1⟩ := read_body_scan C st
      cases hr : (stream.read_body C st).result with
      | some o =>
        rw [read_succ_return C n st o hc hr]
        exact ⟨k1, hk1, hs1⟩
      | none =>
        rw [read_succ_continue C n st hc hr]
        obtain ⟨k2, hk2, hs2⟩ := ih (stream.read_body C st).state
        refine ⟨k2 + k1, ?_, ?_⟩
        · simp only [fetched_append]; omega
        · simp only [hs2, hs1, Function.iterate_add_apply]

theorem skip_scan_body_scan {S K R : Type} (C : Collab S K R) (st : stream S K R) :
    ∃ k, k ≤ fetched (stream.skip_scan_body C st).events ∧
      (stream.skip_scan_body C st).state.m_scan = uinc^[k] st.m_scan := by
  obtain ⟨-, h | ⟨h, p, hp⟩⟩ := skip_scan_body_cases C st
  · exact ⟨0, Nat.zero_le _, h⟩
  · exact ⟨1, by simp [hp, fetched], h⟩

theorem skip_scan_scan {S K R : Type} (C : Collab S K R) (fuel : Nat) (st : stream S K R) :
    ∃ k, k ≤ fetched (stream.skip_scan C fuel st).events ∧
      (stream.skip_scan C fuel st).state.m_scan = uinc^[k] st.m_scan := by
  induction fuel generalizing st with
  | zero =>
    cases hc : st.m_closed with
    | true => rw [skip_scan_closed C 0 st hc]; exact ⟨0, Nat.zero_le _, rfl⟩
    | false => rw [skip_scan_zero_open C st hc]; exact ⟨0, Nat.zero_le _, rfl⟩
  | succ n ih =>
    cases hc : st.m_closed with
    | true => rw [skip_scan_closed C (n + 1) st hc]; exact ⟨0, Nat.zero_le _, rfl⟩
    | false =>
      obtain ⟨k1, hk1, hs1⟩ := skip_scan_body_scan C st
      cases hr : (stream.skip_scan_body C st).result with
      | some o =>
        rw [skip_scan_succ_return C n st hc hr]
        exact ⟨k1, hk1, hs1⟩
      | none =>
        rw [skip_scan_succ_continue C n st hc hr]
        obtain ⟨k2, hk2, hs2⟩ := ih (stream.skip_scan_body C st).state
        refine ⟨k2 + k1, ?_, ?_⟩
        · simp only [fetched_append]; omega
        · simp only [hs2, hs1, Function.iterate_add_apply]

theorem call_scan {S K R : Type} (C : Collab S K R) (c : Call) (st : stream S K R) :
    ∃ k, k ≤ fetched (stream.call C c st).events ∧
      (stream.call C c st).state.m_scan = uinc^[k] st.m_scan := by
  cases c with
  | read fuel => exact read_scan C fuel st
  | skip_scan fuel => exact skip_scan_scan C fuel st
  | close => exact ⟨0, Nat.zero_le _, rfl⟩

/-! ## The scan counter -/

/-- C10 (as stated, refuted): a stream whose scan counter is 4294967295 reads
one packet that the source reports as a scan boundary, and scan() is 0
afterwards. -/
theorem scan_counter_wraps_counterexample :
    stream.scan { replay_stream [(flat_packet 0 0 1, 10, true)] with m_scan := 4294967295 } =
      4294967295 ∧
    stream.scan (stream.call replay_C (Call.read 1)
      { replay_stream [(flat_packet 0 0 1, 10, true)] with m_scan := 4294967295 }).state = 0 := by
  constructor <;> rfl

/-- C10 (amended): the scan counter starts at 0 for both constructors; every
call of read, skip_scan or close applies ++m_scan (modulo 2^32) at most once
per packet fetched during the call, so scan() does not decrease as long as
scan() plus the number of fetched packets stays below 2^32. -/
theorem scan_counter_monotone_until_wrap {S K R : Type} (C : Collab S K R) (src : S)
    (rpm : Nat) (outputInvalid legacy : Bool) (st : stream S K R) (c : Call) :
    stream.scan (stream.with_rpm C src rpm outputInvalid legacy) = 0 ∧
    stream.scan (stream.without_rpm C src outputInvalid legacy) = 0 ∧
    (∃ k, k ≤ fetched (stream.call C c st).events ∧
      stream.scan (stream.call C c st).state = uinc^[k] (stream.scan st)) ∧
    (stream.scan st + fetched (stream.call C c st).events < 4294967296 →
      stream.scan st ≤ stream.scan (stream.call C c st).state ∧
      stream.scan (stream.call C c st).state ≤
        stream.scan st + fetched (stream.call C c st).events) := by
  refine ⟨rfl, rfl, call_scan C c st, ?_⟩
  intro hlt
  obtain ⟨k, hk, hs⟩ := call_scan C c st
  have hu := uinc_iterate_of_lt k st.m_scan (by unfold stream.scan at hlt; unfold UINT_MOD; omega)
  unfold stream.scan
  rw [hs, hu]
  omega

theorem scan_counter_monotone_until_wrap_witness :
    stream.scan (replay_stream [(flat_packet 0 0 1, 10, true)]) ≤
        stream.scan (stream.call replay_C (Call.read 1)
          (replay_stream [(flat_packet 0 0 1, 10, true)])).state ∧
      stream.scan (stream.call replay_C (Call.read 1)
          (replay_stream [(flat_packet 0 0 1, 10, true)])).state ≤
        stream.scan (replay_stream [(flat_packet 0 0 1, 10, true)]) +
          fetched (stream.call replay_C (Call.read 1)
            (replay_stream [(flat_packet 0 0 1, 10, true)])).events :=
  (scan_counter_monotone_until_wrap replay_C (replay.of []) 600 true false
    (replay_stream [(flat_packet 0 0 1, 10, true)]) (Call.read 1)).2.2.2 (by decide)

/-! ## Reads are well sequenced -/

theorem index_after_succ (k : Nat) : index.after (k + 1) = (index.after k).inc := by
  unfold index.after
  exact Function.iterate_succ_apply' index.inc k index.fresh

theorem index_after_idx (k : Nat) (h : k ≤ m_size) : (index.after k).idx = k := by
  rw [index_after_closed_form k (by unfold m_size at h; omega)]

theorem read_decode_sequenced {S K R : Type} (C : Collab S K R) (st : stream S K R)
    (p : packet) (k : Nat) (hc : st.m_closed = false) (hp : st.m_packet = some p)
    (hi : st.m_index = index.after k) (hk : k < m_size) :
    (stream.read_decode C st).result ≠ some read_result.fault ∧
    buffered (stream.read_decode C st).state (some (p, k + 1)) ∧
    ∀ rest, sequenced (some (p, k + 1)) rest →
      sequenced (some (p, k)) ((stream.read_decode C st).events ++ rest) := by
  obtain ⟨w, -, hd⟩ := read_decode_packet C st p hp
  obtain ⟨-, -, -, hpk, -, -, -, hcl, -⟩ := refresh_timestamp_frame C st
  rw [hd]
  refine ⟨?_, ?_, ?_⟩
  · simp only
    split <;> simp
  · exact ⟨hcl.trans hc, hpk.trans hp, by simp only [hi, index_after_succ], by omega⟩
  · intro rest hrest
    simp only [List.singleton_append, sequenced]
    exact ⟨k, hk, rfl, by rw [hi]; rfl, hrest⟩

theorem read_body_sequenced {S K R : Type} (C : Collab S K R) (st : stream S K R)
    (cur : Option (packet × Nat)) (hb : buffered st cur) :
    ((stream.read_body C st).result = some read_result.fault ∧
      (stream.read_body C st).events = [Event.null_deref]) ∨
    ((stream.read_body C st).result ≠ some read_result.fault ∧
      ∃ cur2, buffered (stream.read_body C st).state cur2 ∧
        ∀ rest, sequenced cur2 rest →
          sequenced cur ((stream.read_body C st).events ++ rest)) := by
  have hcl : st.m_closed = false := by
    cases cur with
    | none => exact hb.1
    | some pk => exact hb.1
  by_cases hx : st.m_index.idx < m_size
  · rw [read_body_within C st hx]
    cases cur with
    | none =>
      left
      rw [read_decode_null C st hb.2]
      exact ⟨rfl, rfl⟩
    | some pk =>
      obtain ⟨p, k⟩ := pk
      obtain ⟨-, hp, hi, hk⟩ := hb
      have hk2 : k < m_size := by
        rw [hi, index_after_idx k hk] at hx
        exact hx
      obtain ⟨h1, h2, h3⟩ := read_decode_sequenced C st p k hcl hp hi hk2
      exact Or.inr ⟨h1, some (p, k + 1), h2, h3⟩
  · have hx2 : st.m_index.idx ≥ m_size := by omega
    have hfull : ∀ q k, cur = some (q, k) → k = m_size := by
      intro q k hq
      subst hq
      obtain ⟨-, -, hi, hk⟩ := hb
      rw [hi, index_after_idx k hk] at hx2
      omega
    right
    cases hg : (stream.fetch C st).m_packet with
    | none =>
      rw [read_body_no_packet C st hx2 hg]
      refine ⟨by simp, none, ⟨hcl, hg⟩, ?_⟩
      intro rest hrest
      simp only [List.singleton_append, sequenced]
      exact ⟨hx2, hfull, hrest⟩
    | some p2 =>
      rw [read_body_packet C st p2 hx2 hg]
      obtain ⟨h1, h2, h3⟩ := read_decode_sequenced C
        (stream.count_scan C (stream.fetch C st) p2) p2 0 hcl hg rfl (by decide)
      refine ⟨h1, some (p2, 0 + 1), h2, ?_⟩
      intro rest hrest
      simp only [List.cons_append, sequenced]
      exact ⟨hx2, hfull, h3 rest hrest⟩

theorem read_sequenced {S K R : Type} (C : Collab S K R) (fuel : Nat) (st : stream S K R)
    (cur : Option (packet × Nat)) (hb : buffered st cur) :
    ((stream.read C fuel st).result = some read_result.fault ∧
      sequenced cur (stream.read C fuel st).events) ∨
    ((stream.read C fuel st).result ≠ some read_result.fault ∧
      ∃ cur2, buffered (stream.read C fuel st).state cur2 ∧
        ∀ rest, sequenced cur2 rest →
          sequenced cur ((stream.read C fuel st).events ++ rest)) := by
  have hcl : st.m_closed = false := by
    cases cur with
    | none => exact hb.1
    | some pk => exact hb.1
  induction fuel generalizing st cur with
  | zero =>
    rw [read_zero_open C st hcl]
    exact Or.inr ⟨by simp, cur, hb, fun rest hrest => hrest⟩
  | succ n ih =>
    cases hr : (stream.read_body C st).result with
    | some o =>
      rw [read_succ_return C n st o hcl hr]
      rcases read_body_sequenced C st cur hb with ⟨hf, he⟩ | ⟨hf, cur2, hb2, hs⟩
      · left
        refine ⟨by rw [← hr, hf], ?_⟩
        simp only [he, sequenced]
      · right
        exact ⟨by rw [← hr]; exact hf, cur2, hb2, hs⟩
    | none =>
      rw [read_succ_continue C n st hcl hr]
      rcases read_body_sequenced C st cur hb with ⟨hf, -⟩ | ⟨-, cur2, hb2, hs⟩
      · rw [hr] at hf
        exact absurd hf (by simp)
      · have hcl2 : (stream.read_body C st).state.m_closed = false := by
          cases cur2 with
          | none => exact hb2.1
          | some pk => exact hb2.1
        rcases ih (stream.read_body C st).state cur2 hb2 hcl2 with ⟨hf, hq⟩ | ⟨hf, cur3, hb3, hs3⟩
        · exact Or.inl ⟨hf, hs _ hq⟩
        · refine Or.inr ⟨hf, cur3, hb3, ?_⟩
          intro rest hrest
          simp only [List.append_assoc]
          exact hs _ (hs3 rest hrest)

theorem run_reads_sequenced {S K R : Type} (C : Collab S K R) (fuels : List Nat)
    (st : stream S K R) (cur : Option (packet × Nat)) (hb : buffered st cur) :
    sequenced cur (stream.run C (fuels.map Call.read) st).events := by
  induction fuels generalizing st cur with
  | nil => simp [stream.run, sequenced]
  | cons f fs ih =>
    rcases read_sequenced C f st cur hb with ⟨hf, hq⟩ | ⟨hf, cur2, hb2, hs⟩
    · simp only [List.map_cons, stream.run, stream.call, hf, Option.map_some']
      exact hq
    · cases hr : (stream.read C f st).result with
      | none =>
        simp only [List.map_cons, stream.run, stream.call, hr, Option.map_none']
        simpa using hs [] (by simp [sequenced])
      | some o =>
        cases o with
        | fault => rw [hr] at hf; exact absurd rfl hf
        | point r =>
          simp only [List.map_cons, stream.run, stream.call, hr, Option.map_some']
          exact hs _ (ih _ cur2 hb2)
        | end_of_stream =>
          simp only [List.map_cons, stream.run, stream.call, hr, Option.map_some']
          exact hs _ (ih _ cur2 hb2)

theorem sequenced_fetch_exhausted (tr : List Event) (cur : Option (packet × Nat))
    (h : sequenced cur tr) (i : Nat) (g : Option packet) (hm : Event.fetch i g ∈ tr) :
    i ≥ m_size := by
  induction tr generalizing cur with
  | nil => simp at hm
  | cons e rest ih =>
    cases e with
    | fetch i2 g2 =>
      simp only [sequenced] at h
      rcases List.mem_cons.mp hm with heq | hin
      · injection heq with h1 h2
        rw [h1]; exact h.1
      · exact ih _ h.2.2 hin
    | decode p b l t w lg =>
      simp only [sequenced] at h
      obtain ⟨k, -, -, -, hrest⟩ := h
      rcases List.mem_cons.mp hm with heq | hin
      · cases heq
      · exact ih _ hrest hin
    | null_deref =>
      simp only [sequenced] at h
      rcases List.mem_cons.mp hm with heq | hin
      · cases heq
      · rw [h] at hin; simp at hin
    | close_source => simp only [sequenced] at h

theorem sequenced_suffix (pre tr : List Event) (cur : Option (packet × Nat))
    (h : sequenced cur (pre ++ tr)) : ∃ cur2, sequenced cur2 tr := by
  induction pre generalizing cur with
  | nil => exact ⟨cur, h⟩
  | cons e rest ih =>
    cases e with
    | fetch i g =>
      simp only [List.cons_append, sequenced] at h
      exact ih _ h.2.2
    | decode p b l t w lg =>
      simp only [List.cons_append, sequenced] at h
      obtain ⟨k, -, -, -, hrest⟩ := h
      exact ih _ hrest
    | null_deref =>
      simp only [List.cons_append, sequenced] at h
      have hnil : tr = [] := (List.append_eq_nil.mp h).2
      exact ⟨none, by rw [hnil]; simp [sequenced]⟩
    | close_source => simp only [List.cons_append, sequenced] at h

theorem sequenced_between_fetches (mid post : List Event) (p : packet) (k j : Nat)
    (g : Option packet)
    (h : sequenced (some (p, k)) (mid ++ Event.fetch j g :: post))
    (hmid : ∀ e ∈ mid, e.is_fetch = false) :
    k ≤ m_size ∧
    mid.map Event.slot = (List.range' k (m_size - k)).map (fun n => some (p, slotAt n)) := by
  induction mid generalizing k with
  | nil =>
    simp only [List.nil_append, sequenced] at h
    have hk := h.2.1 p k rfl
    subst hk
    simp
  | cons e rest ih =>
    cases e with
    | fetch i2 g2 =>
      have := hmid (Event.fetch i2 g2) (List.mem_cons_self _ _)
      simp [Event.is_fetch] at this
    | decode q b l t w lg =>
      simp only [List.cons_append, sequenced] at h
      obtain ⟨k2, hk2, hcur, hslot, hrest⟩ := h
      injection hcur with hcur
      injection hcur with hq hk
      subst hq
      subst hk
      obtain ⟨hle, hmap⟩ := ih (k + 1) hrest (fun e he => hmid e (List.mem_cons_of_mem _ he))
      refine ⟨by omega, ?_⟩
      have hsplit : m_size - k = (m_size - (k + 1)) + 1 := by omega
      rw [hsplit, List.range'_succ, List.map_cons, List.map_cons, hmap]
      simp only [Event.slot, hslot]
    | null_deref =>
      simp only [List.cons_append, sequenced] at h
      exact absurd h (by simp)
    | close_source => simp only [List.cons_append, sequenced] at h

theorem slots_nodup (p : packet) :
    ((List.range m_size).map (fun n => some (p, slotAt n))).Nodup := by
  apply List.Nodup.map_on _ (List.nodup_range m_size)
  intro m hm n hn hmn
  rw [List.mem_range] at hm hn
  have hslot : slotAt m = slotAt n := by
    injection hmn with h1
    exact (Prod.mk.inj h1).2
  unfold m_size at hm hn
  rw [slotAt_closed_form m (by omega), slotAt_closed_form n (by omega)] at hslot
  simp only [Prod.mk.injEq] at hslot
  omega

theorem construct_buffered {S K R : Type} (C : Collab S K R) (src : S) (mode : Option Nat)
    (outputInvalid legacy : Bool) :
    buffered (stream.construct C src mode outputInvalid legacy) none := by
  cases mode <;> exact ⟨rfl, rfl⟩

theorem sequenced_prefix_slots (mid post : List Event) (cur : Option (packet × Nat))
    (h : sequenced cur (mid ++ post)) (hmid : ∀ e ∈ mid, e.is_fetch = false) :
    (cur = none → mid.filterMap Event.slot = []) ∧
    (∀ p k, cur = some (p, k) → ∃ n, (n = 0 ∨ k + n ≤ m_size) ∧
      mid.filterMap Event.slot = (List.range' k n).map (fun j => (p, slotAt j))) := by
  induction mid generalizing cur with
  | nil =>
    refine ⟨fun _ => rfl, fun p k _ => ⟨0, Or.inl rfl, rfl⟩⟩
  | cons e rest ih =>
    cases e with
    | fetch i g =>
      have := hmid (Event.fetch i g) (List.mem_cons_self _ _)
      simp [Event.is_fetch] at this
    | decode q b l t w lg =>
      simp only [List.cons_append, sequenced] at h
      obtain ⟨k2, hk2, hcur, hslot, hrest⟩ := h
      obtain ⟨-, ih2⟩ := ih (some (q, k2 + 1)) hrest
        (fun e he => hmid e (List.mem_cons_of_mem _ he))
      obtain ⟨n, hn, hmap⟩ := ih2 q (k2 + 1) rfl
      refine ⟨fun hnone => (by rw [hnone] at hcur; cases hcur), ?_⟩
      intro p k hpk
      rw [hpk] at hcur
      injection hcur with hcur
      injection hcur with hp hk
      subst hp
      subst hk
      refine ⟨n + 1, Or.inr (by omega), ?_⟩
      rw [List.filterMap_cons]
      simp only [Event.slot]
      rw [hmap, List.range'_succ, List.map_cons, hslot]
    | null_deref =>
      simp only [List.cons_append, sequenced] at h
      have hnil : rest = [] := (List.append_eq_nil.mp h).1
      subst hnil
      refine ⟨fun _ => rfl, fun p k _ => ⟨0, Or.inl rfl, rfl⟩⟩
    | close_source => simp only [List.cons_append, sequenced] at h

theorem slots_prefix_nodup (p : packet) (n : Nat) (hn : n ≤ m_size) :
    ((List.range n).map (fun j => (p, slotAt j))).Nodup := by
  apply List.Nodup.map_on _ (List.nodup_range n)
  intro a ha b hb hab
  rw [List.mem_range] at ha hb
  have hslot : slotAt a = slotAt b := (Prod.mk.inj hab).2
  unfold m_size at hn
  rw [slotAt_closed_form a (by omega), slotAt_closed_form b (by omega)] at hslot
  simp only [Prod.mk.injEq] at hslot
  omega

/-- C3: in a run of read calls on a freshly constructed stream, every fetch
happens with idx >= 384; between a fetch that delivered a packet and the next
fetch exactly the 384 slots of that packet are decoded, in sequencer order and
each once; the slots decoded after any fetch, also after the last one of the
run, are the first n <= 384 slots of the fetched packet in sequencer order,
none twice; nothing is decoded before the first fetch or after a fetch that
found the source at its end. -/
theorem read_fetches_only_when_exhausted {S K R : Type} (C : Collab S K R) (src : S)
    (mode : Option Nat) (outputInvalid legacy : Bool) (fuels : List Nat) :
    (∀ i g, Event.fetch i g ∈ (stream.run C (fuels.map Call.read)
        (stream.construct C src mode outputInvalid legacy)).events → i ≥ m_size) ∧
    (∀ pre mid post i j p g,
      (stream.run C (fuels.map Call.read)
        (stream.construct C src mode outputInvalid legacy)).events =
          pre ++ Event.fetch i (some p) :: (mid ++ Event.fetch j g :: post) →
      (∀ e ∈ mid, e.is_fetch = false) →
      mid.map Event.slot = (List.range m_size).map (fun n => some (p, slotAt n)) ∧
      (mid.map Event.slot).Nodup ∧ mid.length = m_size) ∧
    (∀ pre mid post i g,
      (stream.run C (fuels.map Call.read)
        (stream.construct C src mode outputInvalid legacy)).events =
          pre ++ Event.fetch i g :: (mid ++ post) →
      (∀ e ∈ mid, e.is_fetch = false) →
      (g = none → mid.filterMap Event.slot = []) ∧
      (∀ p, g = some p → ∃ n, n ≤ m_size ∧
        mid.filterMap Event.slot = (List.range n).map (fun j => (p, slotAt j)) ∧
        (mid.filterMap Event.slot).Nodup)) ∧
    (∀ mid post,
      (stream.run C (fuels.map Call.read)
        (stream.construct C src mode outputInvalid legacy)).events = mid ++ post →
      (∀ e ∈ mid, e.is_fetch = false) → mid.filterMap Event.slot = []) := by
  have hseq := run_reads_sequenced C fuels _ none
    (construct_buffered C src mode outputInvalid legacy)
  refine ⟨fun i g hm => sequenced_fetch_exhausted _ none hseq i g hm, ?_, ?_, ?_⟩
  · intro pre mid post i j p g htr hmid
    rw [htr] at hseq
    obtain ⟨cur2, hcur2⟩ := sequenced_suffix pre _ none hseq
    simp only [sequenced] at hcur2
    obtain ⟨-, hmap⟩ := sequenced_between_fetches mid post p 0 j g hcur2.2.2 hmid
    rw [Nat.sub_zero, ← List.range_eq_range'] at hmap
    refine ⟨hmap, ?_, ?_⟩
    · rw [hmap]; exact slots_nodup p
    · have hlen := congrArg List.length hmap
      simpa using hlen
  · intro pre mid post i g htr hmid
    rw [htr] at hseq
    obtain ⟨cur2, hcur2⟩ := sequenced_suffix pre _ none hseq
    simp only [sequenced] at hcur2
    obtain ⟨h1, h2⟩ := sequenced_prefix_slots mid post _ hcur2.2.2 hmid
    refine ⟨fun hg => h1 (by rw [hg]; rfl), ?_⟩
    intro p hg
    obtain ⟨n, hn, hmap⟩ := h2 p 0 (by rw [hg]; rfl)
    rw [← List.range_eq_range'] at hmap
    have hle : n ≤ m_size := by
      rcases hn with hn | hn
      · rw [hn]; exact Nat.zero_le _
      · omega
    exact ⟨n, hle, hmap, by rw [hmap]; exact slots_prefix_nodup p n hle⟩
  · intro mid post htr hmid
    rw [htr] at hseq
    exact (sequenced_prefix_slots mid post none hseq hmid).1 rfl

set_option maxRecDepth 100000 in
theorem read_fetches_only_when_exhausted_witness :
    ((replay_decodes (flat_packet 100 100 1) 10).map Event.slot =
        (List.range m_size).map (fun n => some (flat_packet 100 100 1, slotAt n)) ∧
      ((replay_decodes (flat_packet 100 100 1) 10).map Event.slot).Nodup ∧
      (replay_decodes (flat_packet 100 100 1) 10).length = m_size) ∧
    (∃ n, n ≤ m_size ∧
      [Event.decode (flat_packet 200 200 1) 0 0 (some 20)
          (DoubleVal.ofInt (((360 / 60) * 600 % UINT_MOD : Nat) : Int)) false].filterMap
          Event.slot =
        (List.range n).map (fun j => (flat_packet 200 200 1, slotAt j)) ∧
      ([Event.decode (flat_packet 200 200 1) 0 0 (some 20)
          (DoubleVal.ofInt (((360 / 60) * 600 % UINT_MOD : Nat) : Int)) false].filterMap
          Event.slot).Nodup) :=
  ⟨(read_fetches_only_when_exhausted replay_C
      (replay.of [(flat_packet 100 100 1, 10, false), (flat_packet 200 200 1, 20, true)])
      (some 600) true false (List.replicate 385 1)).2.1
      [] (replay_decodes (flat_packet 100 100 1) 10)
      [Event.decode (flat_packet 200 200 1) 0 0 (some 20)
        (DoubleVal.ofInt (((360 / 60) * 600 % UINT_MOD : Nat) : Int)) false]
      384 384 (flat_packet 100 100 1) (some (flat_packet 200 200 1)) rfl
      (by
        intro e he
        unfold replay_decodes at he
        rw [List.mem_map] at he
        obtain ⟨n, -, hn⟩ := he
        rw [← hn]
        rfl),
    ((read_fetches_only_when_exhausted replay_C
      (replay.of [(flat_packet 100 100 1, 10, false), (flat_packet 200 200 1, 20, true)])
      (some 600) true false (List.replicate 385 1)).2.2.1
      (Event.fetch 384 (some (flat_packet 100 100 1)) ::
        replay_decodes (flat_packet 100 100 1) 10)
      [Event.decode (flat_packet 200 200 1) 0 0 (some 20)
        (DoubleVal.ofInt (((360 / 60) * 600 % UINT_MOD : Nat) : Int)) false]
      [] 384 (some (flat_packet 200 200 1)) rfl
      (by
        intro e he
        rcases List.mem_singleton.1 he with rfl
        rfl)).2 (flat_packet 200 200 1) rfl⟩

/-! ## End of stream and timestamps -/

/-- C4 (evaluated): a fresh stream over a source without packets returns
end-of-stream from its first read, after one fetch that leaves m_packet NULL
and the index reset to 0; the next read does not fetch and dereferences the
NULL packet instead of returning end-of-stream. -/
theorem read_after_end_of_stream_dereferences_null (n m : Nat) :
    (stream.read replay_C (n + 1) (replay_stream [])).result =
      some read_result.end_of_stream ∧
    (stream.read replay_C (n + 1) (replay_stream [])).events = [Event.fetch 384 none] ∧
    (stream.read replay_C (n + 1) (replay_stream [])).state.m_packet = none ∧
    (stream.read replay_C (n + 1) (replay_stream [])).state.m_index.idx = 0 ∧
    (stream.read replay_C (m + 1)
      (stream.read replay_C (n + 1) (replay_stream [])).state).result =
      some read_result.fault ∧
    (stream.read replay_C (m + 1)
      (stream.read replay_C (n + 1) (replay_stream [])).state).events =
      [Event.null_deref] := by
  have h1 : stream.read replay_C (n + 1) (replay_stream []) =
      { state := (stream.read_body replay_C (replay_stream [])).state
        events := (stream.read_body replay_C (replay_stream [])).events
        result := some read_result.end_of_stream } :=
    read_succ_return replay_C n (replay_stream []) read_result.end_of_stream rfl rfl
  have h2 : stream.read replay_C (m + 1) (stream.read_body replay_C (replay_stream [])).state =
      { state := (stream.read_body replay_C
          (stream.read_body replay_C (replay_stream [])).state).state
        events := (stream.read_body replay_C
          (stream.read_body replay_C (replay_stream [])).state).events
        result := some read_result.fault } :=
    read_succ_return replay_C m _ read_result.fault rfl rfl
  have hst : (stream.read replay_C (n + 1) (replay_stream [])).state =
      (stream.read_body replay_C (replay_stream [])).state := by rw [h1]
  refine ⟨by rw [h1], by rw [h1]; rfl, by rw [h1]; rfl, by rw [h1]; rfl, ?_, ?_⟩
  · rw [hst, h2]
  · rw [hst, h2]; rfl

/-- C5 (evaluated): over a source with timestamps 10 and 20, read then
skip_scan then read makes four collaborator calls, fetch, decode, fetch,
decode; the second decode is of the packet with timestamp 20 (rotation 200),
fetched by skip_scan, and is handed the timestamp 10 of the packet before it. -/
theorem skip_scan_leaves_stale_timestamp :
    (stream.run replay_C [Call.read 1, Call.skip_scan 1, Call.read 1]
      (replay_stream [(flat_packet 100 100 1, 10, false),
        (flat_packet 200 200 1, 20, true)])).events.map Event.is_fetch =
      [true, false, true, false] ∧
    (stream.run replay_C [Call.read 1, Call.skip_scan 1, Call.read 1]
      (replay_stream [(flat_packet 100 100 1, 10, false),
        (flat_packet 200 200 1, 20, true)])).events.filterMap Event.stamp =
      [(100, some 10), (200, some 10)] ∧
    replay_C.traits_timestamp
      (stream.run replay_C [Call.read 1, Call.skip_scan 1, Call.read 1]
        (replay_stream [(flat_packet 100 100 1, 10, false),
          (flat_packet 200 200 1, 20, true)])).state.m_stream = some 20 := by
  refine ⟨?_, ?_, ?_⟩ <;> rfl

/-! ## Fixed mode -/

theorem read_body_angularSpeed {S K R : Type} (C : Collab S K R) (st : stream S K R) :
    (stream.read_body C st).state.m_angularSpeed = st.m_angularSpeed := by
  by_cases h : st.m_index.idx < m_size
  · rw [read_body_within C st h]
    exact (read_decode_frame C st).2.2.1
  · have h2 : st.m_index.idx ≥ m_size := by omega
    cases hg : (stream.fetch C st).m_packet with
    | none => rw [read_body_no_packet C st h2 hg]; rfl
    | some p =>
      rw [read_body_packet C st p h2 hg]
      exact (read_decode_frame C (stream.count_scan C (stream.fetch C st) p)).2.2.1

theorem read_angularSpeed {S K R : Type} (C : Collab S K R) (fuel : Nat) (st : stream S K R) :
    (stream.read C fuel st).state.m_angularSpeed = st.m_angularSpeed := by
  induction fuel generalizing st with
  | zero =>
    cases hc : st.m_closed with
    | true => rw [read_closed C 0 st hc]
    | false => rw [read_zero_open C st hc]
  | succ n ih =>
    cases hc : st.m_closed with
    | true => rw [read_closed C (n + 1) st hc]
    | false =>
      cases hr : (stream.read_body C st).result with
      | some o =>
        rw [read_succ_return C n st o hc hr]
        exact read_body_angularSpeed C st
      | none =>
        rw [read_succ_continue C n st hc hr]
        exact (ih _).trans (read_body_angularSpeed C st)

theorem skip_scan_body_angularSpeed {S K R : Type} (C : Collab S K R) (st : stream S K R) :
    (stream.skip_scan_body C st).state.m_angularSpeed = st.m_angularSpeed := by
  unfold stream.skip_scan_body
  cases hg : (stream.fetch C st).m_packet with
  | none => simp only [hg]; rfl
  | some p =>
    simp only [hg]
    by_cases h1 : (C.tick_is_new_scan (stream.fetch C st).m_tick p).1 = true
    · simp only [h1, if_true]; rfl
    · simp only [h1]
      by_cases h2 : (C.traits_is_new_scan (C.tick_is_new_scan (stream.fetch C st).m_tick p).2
          (stream.fetch C st).m_stream p).1 = true
      · simp only [h2, if_true]; rfl
      · simp only [h2]; rfl

theorem skip_scan_angularSpeed {S K R : Type} (C : Collab S K R) (fuel : Nat)
    (st : stream S K R) :
    (stream.skip_scan C fuel st).state.m_angularSpeed = st.m_angularSpeed := by
  induction fuel generalizing st with
  | zero =>
    cases hc : st.m_closed with
    | true => rw [skip_scan_closed C 0 st hc]
    | false => rw [skip_scan_zero_open C st hc]
  | succ n ih =>
    cases hc : st.m_closed with
    | true => rw [skip_scan_closed C (n + 1) st hc]
    | false =>
      cases hr : (stream.skip_scan_body C st).result with
      | some o =>
        rw [skip_scan_succ_return C n st hc hr]
        exact skip_scan_body_angularSpeed C st
      | none =>
        rw [skip_scan_succ_continue C n st hc hr]
        exact (ih _).trans (skip_scan_body_angularSpeed C st)

theorem call_angularSpeed {S K R : Type} (C : Collab S K R) (c : Call) (st : stream S K R) :
    (stream.call C c st).state.m_angularSpeed = st.m_angularSpeed := by
  cases c with
  | read fuel => exact read_angularSpeed C fuel st
  | skip_scan fuel => exact skip_scan_angularSpeed C fuel st
  | close => rfl

/-- C8 (evaluated): the fixed-mode velocity is (6 * rpm) mod 2^32, because the
product is formed in unsigned int before the conversion to double; no read,
skip_scan or close changes it, whatever packet is buffered; for
rpm = 715827883 it is 2, not 4294967298. -/
theorem fixed_mode_velocity_wraps {S K R : Type} (C : Collab S K R) (src : S)
    (outputInvalid legacy : Bool) :
    (∀ (rpm : Nat) (calls : List Call),
      stream.angularSpeed C (stream.run C calls
          (stream.with_rpm C src rpm outputInvalid legacy)).state =
        some (DoubleVal.fin (((6 * rpm % 4294967296 : ℕ) : ℚ)))) ∧
    stream.angularSpeed C (stream.with_rpm C src 715827883 outputInvalid legacy) =
      some (DoubleVal.fin 2) ∧
    stream.angularSpeed C (stream.with_rpm C src 715827883 outputInvalid legacy) ≠
      some (DoubleVal.fin (6 * 715827883)) := by
  have hrun : ∀ (calls : List Call) (st : stream S K R),
      (stream.run C calls st).state.m_angularSpeed = st.m_angularSpeed := by
    intro calls
    induction calls with
    | nil => intro st; rfl
    | cons c cs ih =>
      intro st
      have hc := call_angularSpeed C c st
      unfold stream.run
      simp only
      split
      · exact hc
      · exact hc
      · exact (ih _).trans hc
  have hval : ∀ (rpm : Nat) (st : stream S K R),
      st.m_angularSpeed = (stream.with_rpm C src rpm outputInvalid legacy).m_angularSpeed →
      stream.angularSpeed C st = some (DoubleVal.fin (((6 * rpm % 4294967296 : ℕ) : ℚ))) := by
    intro rpm st hst
    have h := with_rpm_angularSpeed C src rpm outputInvalid legacy
    unfold stream.angularSpeed at h ⊢
    rw [hst]
    exact h
  refine ⟨fun rpm calls => hval rpm _ (hrun calls _), ?_, ?_⟩
  · rw [hval 715827883 _ rfl]; norm_num
  · rw [hval 715827883 _ rfl]; norm_num

/-! ## Self-estimating mode, slot by slot -/

theorem refresh_timestamp_value {S K R : Type} (C : Collab S K R) (st : stream S K R)
    (t : ptime) (h1 : st.m_timestamp = t) (h2 : C.traits_timestamp st.m_stream = t) :
    (stream.refresh_timestamp C st).m_timestamp = t := by
  unfold stream.refresh_timestamp
  split
  · exact h2
  · exact h1

theorem angularSpeed_speed_for {S K R : Type} (C : Collab S K R) (st : stream S K R)
    (p : packet) (hp : st.m_packet = some p) :
    stream.angularSpeed C st = some (speed_for C st.m_angularSpeed p) := by
  unfold stream.angularSpeed speed_for
  cases st.m_angularSpeed with
  | some w => rfl
  | none => simp [hp]

theorem packet_returns_cons {S K R : Type} (C : Collab S K R) (mode : Option DoubleVal)
    (legacy : Bool) (p : packet) (t : ptime) (k : Nat) (hk : k < m_size) :
    packet_returns C mode legacy p t k =
      slot_return C mode legacy p t k :: packet_returns C mode legacy p t (k + 1) := by
  unfold packet_returns
  have hsplit : m_size - k = (m_size - (k + 1)) + 1 := by omega
  rw [hsplit, List.range'_succ, List.map_cons]

theorem packet_returns_done {S K R : Type} (C : Collab S K R) (mode : Option DoubleVal)
    (legacy : Bool) (p : packet) (t : ptime) :
    packet_returns C mode legacy p t m_size = [] := by
  unfold packet_returns
  simp

theorem packet_returns_length {S K R : Type} (C : Collab S K R) (mode : Option DoubleVal)
    (legacy : Bool) (p : packet) (t : ptime) (k : Nat) :
    (packet_returns C mode legacy p t k).length = m_size - k := by
  unfold packet_returns
  simp

theorem read_decode_reading {S K R : Type} (C : Collab S K R) (st : stream S K R)
    (p : packet) (t : ptime) (k : Nat) (rest : List (packet × ptime × Bool))
    (hr : reading C st (some (p, t)) k rest) (hk : k < m_size) :
    (stream.read_decode C st).result =
      (if emitted C st.m_outputInvalid
          (slot_return C st.m_angularSpeed st.m_legacy p t k) = true
        then some (read_result.point (slot_return C st.m_angularSpeed st.m_legacy p t k))
        else none) ∧
    (stream.read_decode C st).events =
      [Event.decode p (slotAt k).1 (slotAt k).2 t (speed_for C st.m_angularSpeed p)
        st.m_legacy] ∧
    reading C (stream.read_decode C st).state (some (p, t)) (k + 1) rest ∧
    (stream.read_decode C st).state.m_scan = st.m_scan ∧
    (stream.read_decode C st).state.m_angularSpeed = st.m_angularSpeed ∧
    (stream.read_decode C st).state.m_legacy = st.m_legacy ∧
    (stream.read_decode C st).state.m_outputInvalid = st.m_outputInvalid := by
  obtain ⟨hc, hd, hp, hi, -, ht1, ht2⟩ := hr
  obtain ⟨w, hw, hdec⟩ := read_decode_packet C st p hp
  obtain ⟨ha, ho, hs, hpk, hix, hsc, htk, hcl, hl⟩ := refresh_timestamp_frame C st
  have htv := refresh_timestamp_value C st t ht1 ht2
  rw [angularSpeed_speed_for C st p hp] at hw
  injection hw with hw
  have hb : st.m_index.block = (slotAt k).1 := by rw [hi]; rfl
  have hlz : st.m_index.laser = (slotAt k).2 := by rw [hi]; rfl
  rw [hdec, htv, ← hw, hb, hlz]
  refine ⟨?_, rfl, ?_, hsc, ha, hl, ho⟩
  · unfold emitted slot_return
    simp only
  · refine ⟨hcl.trans hc, ?_, hpk.trans hp, ?_, by omega, htv, ?_⟩
    · simp only [htk, hs]; exact hd
    · simp only [hi, index_after_succ]
    · simp only [hs]; exact ht2


theorem fetch_reading {S K R : Type} (C : Collab S K R) (st : stream S K R)
    (p : packet) (t : ptime) (f : Bool) (rest : List (packet × ptime × Bool))
    (hc : st.m_closed = false) (hd : delivers C st.m_tick st.m_stream ((p, t, f) :: rest)) :
    (stream.fetch C st).m_packet = some p ∧
    reading C (stream.count_scan C (stream.fetch C st) p) (some (p, t)) 0 rest ∧
    uinc^[boundaries rest] (stream.count_scan C (stream.fetch C st) p).m_scan =
      uinc^[boundaries ((p, t, f) :: rest)] st.m_scan ∧
    (stream.count_scan C (stream.fetch C st) p).m_angularSpeed = st.m_angularSpeed ∧
    (stream.count_scan C (stream.fetch C st) p).m_legacy = st.m_legacy ∧
    (stream.count_scan C (stream.fetch C st) p).m_outputInvalid = st.m_outputInvalid := by
  obtain ⟨h1, h2, h3, h4⟩ := hd
  refine ⟨h1, ⟨hc, h4, h1, rfl, Nat.zero_le _, h3, h3⟩, ?_, rfl, rfl, rfl⟩
  rw [count_scan_scan, fetch_scan]
  have h2' : (C.traits_is_new_scan (stream.fetch C st).m_tick (stream.fetch C st).m_stream p).1
      = f := h2
  rw [h2']
  cases f with
  | false => simp [boundaries]
  | true =>
    simp only [boundaries, if_true]
    rw [Nat.add_comm, Function.iterate_succ_apply]

theorem read_body_pending {S K R : Type} (C : Collab S K R) (st : stream S K R)
    (pending : List R) (target : Nat) (h : at_pending C st pending target) :
    (pending = [] →
      (stream.read_body C st).result = some read_result.end_of_stream ∧
      ended (stream.read_body C st).state target ∧
      (stream.read_body C st).events = [Event.fetch st.m_index.idx none]) ∧
    (∀ x tail, pending = x :: tail →
      (stream.read_body C st).result =
        (if emitted C st.m_outputInvalid x = true then some (read_result.point x) else none) ∧
      at_pending C (stream.read_body C st).state tail target ∧
      (stream.read_body C st).state.m_outputInvalid = st.m_outputInvalid ∧
      ∃ p b l t w lg,
        (stream.read_body C st).events = [Event.decode p b l t w lg] ∨
        (stream.read_body C st).events =
          [Event.fetch st.m_index.idx (some p), Event.decode p b l t w lg]) := by
  obtain ⟨cur, k, rest, hr, hL, ht⟩ := h
  have hexh : (cur = none ∨ k = m_size) →
      st.m_index.idx ≥ m_size ∧
      pending = recording_returns C st.m_angularSpeed st.m_legacy rest := by
    intro hcase
    cases cur with
    | none =>
      obtain ⟨-, -, hi, -⟩ := hr
      exact ⟨hi, by rw [← hL]; simp [pending_returns]⟩
    | some pt =>
      obtain ⟨p, t⟩ := pt
      rcases hcase with hcase | hcase
      · cases hcase
      · obtain ⟨-, -, -, hi, hk, -, -⟩ := hr
        subst hcase
        refine ⟨by rw [hi, index_after_idx m_size (le_refl _)], ?_⟩
        rw [← hL]
        simp [pending_returns, packet_returns_done]
  have hclosed : st.m_closed = false := hr.1
  have hdel : delivers C st.m_tick st.m_stream rest := hr.2.1
  by_cases hcase : cur = none ∨ k = m_size
  · obtain ⟨hidx, hpend⟩ := hexh hcase
    cases rest with
    | nil =>
      have hg : (stream.fetch C st).m_packet = none := hdel
      rw [read_body_no_packet C st hidx hg]
      constructor
      · intro _
        have hzero : (0 : Nat) < m_size := by decide
        refine ⟨rfl, ⟨hclosed, hg, hzero, ?_⟩, rfl⟩
        rw [← ht]; rfl
      · intro x tail hx
        rw [hpend] at hx
        simp [recording_returns] at hx
    | cons e rest2 =>
      obtain ⟨p, t, f⟩ := e
      obtain ⟨hg, hrd, hsc, ha, hl, ho⟩ := fetch_reading C st p t f rest2 hclosed hdel
      obtain ⟨d1, d2, d3, d4, d5, d6, d7⟩ :=
        read_decode_reading C (stream.count_scan C (stream.fetch C st) p) p t 0 rest2 hrd
          (by decide)
      rw [read_body_packet C st p hidx hg]
      have hcons : pending =
          slot_return C st.m_angularSpeed st.m_legacy p t 0 ::
            pending_returns C st.m_angularSpeed st.m_legacy (some (p, t)) (0 + 1) rest2 := by
        rw [hpend]
        simp only [recording_returns, pending_returns]
        rw [packet_returns_cons C _ _ p t 0 (by decide)]
        rfl
      constructor
      · intro hnil
        rw [hnil] at hcons
        cases hcons
      · intro x tail hx
        rw [hx] at hcons
        injection hcons with hx1 hx2
        subst hx1
        subst hx2
        simp only
        rw [ha, hl, ho] at d1
        refine ⟨d1, ⟨some (p, t), 0 + 1, rest2, d3, ?_, ?_⟩, d7.trans ho, ?_⟩
        · rw [d5, d6, ha, hl]
        · rw [d4, hsc, ht]
        · exact ⟨p, _, _, _, _, _, Or.inr (by rw [d2])⟩
  · cases cur with
    | none => exact absurd (Or.inl rfl) hcase
    | some pt =>
      obtain ⟨p, t⟩ := pt
      have hk : k < m_size := by
        have hk2 : k ≤ m_size := hr.2.2.2.2.1
        have hne : k ≠ m_size := fun hh => hcase (Or.inr hh)
        omega
      have hidx : st.m_index.idx < m_size := by
        rw [hr.2.2.2.1, index_after_idx k (by omega)]
        exact hk
      obtain ⟨d1, d2, d3, d4, d5, d6, d7⟩ := read_decode_reading C st p t k rest hr hk
      rw [read_body_within C st hidx]
      have hcons : pending =
          slot_return C st.m_angularSpeed st.m_legacy p t k ::
            pending_returns C st.m_angularSpeed st.m_legacy (some (p, t)) (k + 1) rest := by
        rw [← hL]
        simp only [pending_returns]
        rw [packet_returns_cons C _ _ p t k hk]
        rfl
      constructor
      · intro hnil
        rw [hnil] at hcons
        cases hcons
      · intro x tail hx
        rw [hx] at hcons
        injection hcons with hx1 hx2
        subst hx1
        subst hx2
        refine ⟨d1, ⟨some (p, t), k + 1, rest, d3, ?_, ?_⟩, d7, ?_⟩
        · rw [d5, d6]
        · rw [d4, ht]
        · exact ⟨p, _, _, _, _, _, Or.inl d2⟩


theorem read_decode_flags {S K R : Type} (C : Collab S K R) (st : stream S K R) :
    (stream.read_decode C st).state.m_outputInvalid = st.m_outputInvalid ∧
    (stream.read_decode C st).state.m_legacy = st.m_legacy := by
  obtain ⟨-, ho, -, -, -, -, -, -, hl⟩ := refresh_timestamp_frame C st
  cases hp : st.m_packet with
  | none =>
    rw [read_decode_null C st hp]
    exact ⟨ho, hl⟩
  | some p =>
    obtain ⟨w, -, hd⟩ := read_decode_packet C st p hp
    rw [hd]
    exact ⟨ho, hl⟩

theorem read_body_flags {S K R : Type} (C : Collab S K R) (st : stream S K R) :
    (stream.read_body C st).state.m_outputInvalid = st.m_outputInvalid ∧
    (stream.read_body C st).state.m_legacy = st.m_legacy := by
  by_cases h : st.m_index.idx < m_size
  · rw [read_body_within C st h]
    exact read_decode_flags C st
  · have h2 : st.m_index.idx ≥ m_size := by omega
    cases hg : (stream.fetch C st).m_packet with
    | none => rw [read_body_no_packet C st h2 hg]; exact ⟨rfl, rfl⟩
    | some p =>
      rw [read_body_packet C st p h2 hg]
      exact read_decode_flags C (stream.count_scan C (stream.fetch C st) p)

theorem read_pending {S K R : Type} (C : Collab S K R) (fuel : Nat) (st : stream S K R)
    (pending : List R) (target : Nat) (h : at_pending C st pending target) :
    (∀ x, (stream.read C fuel st).result = some (read_result.point x) →
      ∃ skipped tail, pending = skipped ++ x :: tail ∧
        (∀ y ∈ skipped, emitted C st.m_outputInvalid y = false) ∧
        emitted C st.m_outputInvalid x = true ∧
        at_pending C (stream.read C fuel st).state tail target) ∧
    ((stream.read C fuel st).result = some read_result.end_of_stream →
      (∀ y ∈ pending, emitted C st.m_outputInvalid y = false) ∧
      ended (stream.read C fuel st).state target) ∧
    ((stream.read C fuel st).result = none →
      ∃ skipped tail, pending = skipped ++ tail ∧
        (∀ y ∈ skipped, emitted C st.m_outputInvalid y = false) ∧
        at_pending C (stream.read C fuel st).state tail target) ∧
    (stream.read C fuel st).result ≠ some read_result.fault ∧
    (pending.length < fuel → (stream.read C fuel st).result ≠ none) ∧
    (stream.read C fuel st).state.m_outputInvalid = st.m_outputInvalid := by
  induction fuel generalizing st pending with
  | zero =>
    have hc : st.m_closed = false := by
      obtain ⟨cur, k, rest, hr, -, -⟩ := h
      exact hr.1
    rw [read_zero_open C st hc]
    refine ⟨fun x hx => (by cases hx), fun hx => (by cases hx), ?_, by simp, by intro hl; omega, rfl⟩
    intro _
    exact ⟨[], pending, rfl, by simp, h⟩
  | succ n ih =>
    have hc : st.m_closed = false := by
      obtain ⟨cur, k, rest, hr, -, -⟩ := h
      exact hr.1
    obtain ⟨hnil, hcons⟩ := read_body_pending C st pending target h
    cases pending with
    | nil =>
      obtain ⟨hres, hend, -⟩ := hnil rfl
      rw [read_succ_return C n st _ hc hres]
      refine ⟨fun x hx => (by cases hx), ?_, fun hx => (by cases hx), by simp, by simp,
        (read_body_flags C st).1⟩
      intro _
      exact ⟨by simp, hend⟩
    | cons x tail =>
      obtain ⟨hres, hat, ho, -⟩ := hcons x tail rfl
      by_cases hem : emitted C st.m_outputInvalid x = true
      · rw [if_pos hem] at hres
        rw [read_succ_return C n st _ hc hres]
        refine ⟨?_, fun hx => (by cases hx), fun hx => (by cases hx), by simp, by simp, ho⟩
        intro y hy
        injection hy with hy
        injection hy with hy
        subst hy
        exact ⟨[], tail, rfl, by simp, hem, hat⟩
      · rw [if_neg hem] at hres
        rw [read_succ_continue C n st hc hres]
        obtain ⟨i1, i2, i3, i4, i5, i6⟩ := ih (stream.read_body C st).state tail hat
        rw [ho] at i1 i2 i3
        have hem2 : emitted C st.m_outputInvalid x = false := by
          cases hh : emitted C st.m_outputInvalid x with
          | true => exact absurd hh hem
          | false => rfl
        refine ⟨?_, ?_, ?_, i4, ?_, i6.trans ho⟩
        · intro y hy
          obtain ⟨skipped, tl, e1, e2, e3, e4⟩ := i1 y hy
          refine ⟨x :: skipped, tl, by rw [e1]; rfl, ?_, e3, e4⟩
          intro z hz
          rcases List.mem_cons.mp hz with hz | hz
          · rw [hz]; exact hem2
          · exact e2 z hz
        · intro hy
          obtain ⟨e1, e2⟩ := i2 hy
          refine ⟨?_, e2⟩
          intro z hz
          rcases List.mem_cons.mp hz with hz | hz
          · rw [hz]; exact hem2
          · exact e1 z hz
        · intro hy
          obtain ⟨skipped, tl, e1, e2, e3⟩ := i3 hy
          refine ⟨x :: skipped, tl, by rw [e1]; rfl, ?_, e3⟩
          intro z hz
          rcases List.mem_cons.mp hz with hz | hz
          · rw [hz]; exact hem2
          · exact e2 z hz
        · intro hl
          exact i5 (by simp only [List.length_cons] at hl; omega)


theorem run_read_hangs {S K R : Type} (C : Collab S K R) (f : Nat) (cs : List Call)
    (st : stream S K R) (h : (stream.read C f st).result = none) :
    (stream.run C (Call.read f :: cs) st).result = none := by
  simp only [stream.run, stream.call, h, Option.map_none']

theorem run_read_faults {S K R : Type} (C : Collab S K R) (f : Nat) (cs : List Call)
    (st : stream S K R) (h : (stream.read C f st).result = some read_result.fault) :
    (stream.run C (Call.read f :: cs) st).result = none := by
  simp only [stream.run, stream.call, h, Option.map_some']

theorem run_read_point {S K R : Type} (C : Collab S K R) (f : Nat) (cs : List Call)
    (st : stream S K R) (x : R)
    (h : (stream.read C f st).result = some (read_result.point x)) :
    stream.run C (Call.read f :: cs) st =
      { state := (stream.run C cs (stream.read C f st).state).state
        events := (stream.read C f st).events ++
          (stream.run C cs (stream.read C f st).state).events
        result := (stream.run C cs (stream.read C f st).state).result.map
          (fun reps => reply.read (read_result.point x) :: reps) } := by
  simp only [stream.run, stream.call, h, Option.map_some']

theorem run_read_end {S K R : Type} (C : Collab S K R) (f : Nat) (cs : List Call)
    (st : stream S K R)
    (h : (stream.read C f st).result = some read_result.end_of_stream) :
    stream.run C (Call.read f :: cs) st =
      { state := (stream.run C cs (stream.read C f st).state).state
        events := (stream.read C f st).events ++
          (stream.run C cs (stream.read C f st).state).events
        result := (stream.run C cs (stream.read C f st).state).result.map
          (fun reps => reply.read read_result.end_of_stream :: reps) } := by
  simp only [stream.run, stream.call, h, Option.map_some']

theorem read_ended {S K R : Type} (C : Collab S K R) (fuel : Nat) (st : stream S K R)
    (target : Nat) (h : ended st target) :
    (fuel = 0 → (stream.read C fuel st).result = none) ∧
    (0 < fuel → (stream.read C fuel st).result = some read_result.fault ∧
      (stream.read C fuel st).events = [Event.null_deref]) := by
  obtain ⟨hc, hp, hi, -⟩ := h
  constructor
  · intro h0
    subst h0
    rw [read_zero_open C st hc]
  · intro hpos
    obtain ⟨n, rfl⟩ : ∃ n, fuel = n + 1 := ⟨fuel - 1, by omega⟩
    have hb : stream.read_body C st =
        { state := stream.refresh_timestamp C st, events := [Event.null_deref],
          result := some read_result.fault } := by
      rw [read_body_within C st hi, read_decode_null C st hp]
    rw [read_succ_return C n st read_result.fault hc (by rw [hb]), hb]
    exact ⟨rfl, rfl⟩

theorem run_reads_ended {S K R : Type} (C : Collab S K R) (fuels : List Nat)
    (st : stream S K R) (target : Nat) (h : ended st target) (replies : List (reply R))
    (hres : (stream.run C (fuels.map Call.read) st).result = some replies) :
    fuels = [] ∧ replies = [] ∧ (stream.run C (fuels.map Call.read) st).state = st := by
  cases fuels with
  | nil =>
    simp only [List.map_nil, stream.run] at hres
    injection hres with hres
    exact ⟨rfl, hres.symm, rfl⟩
  | cons f fs =>
    obtain ⟨h0, h1⟩ := read_ended C f st target h
    rw [List.map_cons] at hres
    by_cases hf : f = 0
    · rw [run_read_hangs C f _ st (h0 hf)] at hres
      cases hres
    · rw [run_read_faults C f _ st (h1 (by omega)).1] at hres
      cases hres

theorem filter_skipped {R : Type} (keep : R → Bool) (skipped rest : List R)
    (h : ∀ y ∈ skipped, keep y = false) :
    (skipped ++ rest).filter keep = rest.filter keep := by
  rw [List.filter_append]
  have hnil : skipped.filter keep = [] := by
    rw [List.filter_eq_nil_iff]
    intro y hy
    rw [h y hy]
    simp
  rw [hnil, List.nil_append]

theorem run_reads_pending {S K R : Type} (C : Collab S K R) (fuels : List Nat)
    (st : stream S K R) (pending : List R) (target : Nat)
    (h : at_pending C st pending target) (replies : List (reply R))
    (hres : (stream.run C (fuels.map Call.read) st).result = some replies) :
    (replies.any reply.is_end = false →
      ∃ tail, pending.filter (emitted C st.m_outputInvalid) =
          points replies ++ tail.filter (emitted C st.m_outputInvalid) ∧
        tail.length ≤ pending.length ∧
        at_pending C (stream.run C (fuels.map Call.read) st).state tail target) ∧
    (replies.any reply.is_end = true →
      pending.filter (emitted C st.m_outputInvalid) = points replies ∧
      ended (stream.run C (fuels.map Call.read) st).state target) := by
  induction fuels generalizing st pending replies with
  | nil =>
    simp only [List.map_nil, stream.run] at hres
    injection hres with hres
    subst hres
    simp only [List.map_nil, stream.run]
    exact ⟨fun _ => ⟨pending, by simp [points], le_refl _, h⟩, fun hx => by simp at hx⟩
  | cons f fs ih =>
    obtain ⟨r1, r2, r3, r4, -, r6⟩ := read_pending C f st pending target h
    rw [List.map_cons] at hres ⊢
    cases hr : (stream.read C f st).result with
    | none =>
      rw [run_read_hangs C f _ st hr] at hres
      cases hres
    | some o =>
      cases o with
      | fault => exact absurd hr r4
      | point x =>
        obtain ⟨skipped, tail, e1, e2, e3, e4⟩ := r1 x hr
        rw [run_read_point C f _ st x hr] at hres ⊢
        simp only at hres ⊢
        cases hrest : (stream.run C (fs.map Call.read) (stream.read C f st).state).result with
        | none => rw [hrest] at hres; cases hres
        | some reps =>
          rw [hrest, Option.map_some'] at hres
          injection hres with hres
          subst hres
          obtain ⟨i1, i2⟩ := ih (stream.read C f st).state tail e4 reps hrest
          rw [r6] at i1 i2
          have hfil : pending.filter (emitted C st.m_outputInvalid) =
              x :: tail.filter (emitted C st.m_outputInvalid) := by
            rw [e1, filter_skipped _ skipped _ e2, List.filter_cons_of_pos e3]
          have hlen : tail.length ≤ pending.length := by
            rw [e1]; simp; omega
          constructor
          · intro hany
            have hany2 : reps.any reply.is_end = false := by
              simpa [reply.is_end] using hany
            obtain ⟨tl, j1, j2, j3⟩ := i1 hany2
            exact ⟨tl, by rw [hfil, j1]; rfl, by omega, j3⟩
          · intro hany
            have hany2 : reps.any reply.is_end = true := by
              simpa [reply.is_end] using hany
            obtain ⟨j1, j2⟩ := i2 hany2
            exact ⟨by rw [hfil, j1]; rfl, j2⟩
      | end_of_stream =>
        obtain ⟨e1, e2⟩ := r2 hr
        rw [run_read_end C f _ st hr] at hres ⊢
        simp only at hres ⊢
        cases hrest : (stream.run C (fs.map Call.read) (stream.read C f st).state).result with
        | none => rw [hrest] at hres; cases hres
        | some reps =>
          rw [hrest, Option.map_some'] at hres
          injection hres with hres
          subst hres
          obtain ⟨-, k2, k3⟩ := run_reads_ended C fs _ target e2 reps hrest
          subst k2
          rw [k3]
          constructor
          · intro hany
            simp [reply.is_end] at hany
          · intro _
            refine ⟨?_, e2⟩
            rw [List.filter_eq_nil_iff.mpr (fun y hy => by rw [e1 y hy]; simp)]
            rfl

/-! ## Fresh streams and replay sources -/

theorem construct_at_pending {S K R : Type} (C : Collab S K R) (src : S) (mode : Option Nat)
    (outputInvalid legacy : Bool) (recording : List (packet × ptime × Bool))
    (hd : delivers C C.tick_default src recording) :
    at_pending C (stream.construct C src mode outputInvalid legacy)
      (recording_returns C (stream.construct C src mode outputInvalid legacy).m_angularSpeed
        legacy recording)
      (uinc^[boundaries recording] 0) := by
  have hidx : (m_size : Nat) ≥ m_size := le_refl _
  cases mode with
  | none =>
    exact ⟨none, m_size, recording, ⟨rfl, hd, hidx, rfl⟩, by simp [pending_returns]; rfl, rfl⟩
  | some rpm =>
    exact ⟨none, m_size, recording, ⟨rfl, hd, hidx, rfl⟩, by simp [pending_returns]; rfl, rfl⟩

theorem construct_outputInvalid {S K R : Type} (C : Collab S K R) (src : S)
    (mode : Option Nat) (outputInvalid legacy : Bool) :
    (stream.construct C src mode outputInvalid legacy).m_outputInvalid = outputInvalid := by
  cases mode <;> rfl

theorem replay_delivers (toff : Nat → Nat → Int) (recording : List (packet × Int × Bool))
    (s : replay) (hs : s.pending = recording) :
    delivers (replay_collab toff) () s (replay_script recording) := by
  induction recording generalizing s with
  | nil =>
    simp only [replay_script, List.map_nil, delivers, replay_collab, hs]
  | cons e rest ih =>
    obtain ⟨p, t, b⟩ := e
    simp only [replay_script, List.map_cons, delivers, replay_collab, hs]
    refine ⟨trivial, trivial, trivial, ?_⟩
    exact ih _ rfl

theorem uinc_iterate_mod (k x : Nat) (hx : x < UINT_MOD) : uinc^[k] x = (x + k) % UINT_MOD := by
  induction k with
  | zero => simp only [Function.iterate_zero, id_eq, Nat.add_zero]; rw [Nat.mod_eq_of_lt hx]
  | succ n ih =>
    rw [Function.iterate_succ_apply', ih]
    unfold uinc UINT_MOD
    omega

theorem recording_returns_length {S K R : Type} (C : Collab S K R) (mode : Option DoubleVal)
    (legacy : Bool) (recording : List (packet × ptime × Bool)) :
    (recording_returns C mode legacy recording).length = m_size * recording.length := by
  induction recording with
  | nil => rfl
  | cons e rest ih =>
    obtain ⟨p, t, b⟩ := e
    simp only [recording_returns, List.length_append, packet_returns_length, ih,
      List.length_cons]
    rw [Nat.mul_succ]
    omega

theorem mem_recording_returns {S K R : Type} (C : Collab S K R) (mode : Option DoubleVal)
    (legacy : Bool) (recording : List (packet × ptime × Bool)) (y : R)
    (hy : y ∈ recording_returns C mode legacy recording) :
    ∃ p t b n, (p, t, b) ∈ recording ∧ y = slot_return C mode legacy p t n := by
  induction recording with
  | nil => simp [recording_returns] at hy
  | cons e rest ih =>
    obtain ⟨p, t, b⟩ := e
    simp only [recording_returns, List.mem_append] at hy
    rcases hy with hy | hy
    · unfold packet_returns at hy
      rw [List.mem_map] at hy
      obtain ⟨n, -, hn⟩ := hy
      exact ⟨p, t, b, n, List.mem_cons_self _ _, hn.symm⟩
    · obtain ⟨p2, t2, b2, n, hm, hn⟩ := ih hy
      exact ⟨p2, t2, b2, n, List.mem_cons_of_mem _ hm, hn⟩

theorem boundaries_all_boundaries (n : Nat) :
    boundaries (replay_script (all_boundaries n)) = n := by
  induction n with
  | zero => rfl
  | succ k ih =>
    have hstep : replay_script (all_boundaries (k + 1)) =
        (flat_packet 0 0 0, some 10, true) :: replay_script (all_boundaries k) := by
      simp [replay_script, all_boundaries, List.replicate_succ]
    rw [hstep]
    simp only [boundaries, if_true, ih]
    omega

theorem all_boundaries_read (n : Nat) :
    boundaries (replay_script (all_boundaries n)) = n ∧
    (stream.read replay_C (384 * n + 1)
      (stream.construct replay_C (replay.of (all_boundaries n)) (some 600) false false)).result =
      some read_result.end_of_stream ∧
    stream.scan (stream.read replay_C (384 * n + 1)
      (stream.construct replay_C (replay.of (all_boundaries n)) (some 600)
        false false)).state = n % 4294967296 := by
  have hd := replay_delivers (offsets_with_delta 250) (all_boundaries n)
    (replay.of (all_boundaries n)) rfl
  have hat := construct_at_pending replay_C (replay.of (all_boundaries n)) (some 600)
    false false _ hd
  obtain ⟨r1, r2, -, r4, r5, -⟩ := read_pending replay_C (384 * n + 1) _ _ _ hat
  have hlen : (recording_returns replay_C
      (stream.construct replay_C (replay.of (all_boundaries n)) (some 600)
        false false).m_angularSpeed false (replay_script (all_boundaries n))).length
      < 384 * n + 1 := by
    rw [recording_returns_length]
    simp [replay_script, all_boundaries, m_size]
  have hzero : ∀ y ∈ recording_returns replay_C
      (stream.construct replay_C (replay.of (all_boundaries n)) (some 600)
        false false).m_angularSpeed false (replay_script (all_boundaries n)),
      emitted replay_C false y = false := by
    intro y hy
    obtain ⟨p, t, b, k, hm, hk⟩ := mem_recording_returns _ _ _ _ y hy
    have hp : p = flat_packet 0 0 0 := by
      simp only [replay_script, all_boundaries, List.map_replicate] at hm
      have := List.eq_of_mem_replicate hm
      injection this
    rw [hk, hp]
    have hr : ∀ b l : Nat, (flat_packet 0 0 0).range_at b l = 0 := by
      intro b l
      unfold packet.range_at
      split
      · split <;> rfl
      · rfl
    simp [emitted, slot_return, replay_C, replay_collab, hr]
  have hend : (stream.read replay_C (384 * n + 1)
      (stream.construct replay_C (replay.of (all_boundaries n)) (some 600)
        false false)).result = some read_result.end_of_stream := by
    cases hres : (stream.read replay_C (384 * n + 1)
      (stream.construct replay_C (replay.of (all_boundaries n)) (some 600)
        false false)).result with
    | none => exact absurd hres (r5 hlen)
    | some o =>
      cases o with
      | fault => exact absurd hres r4
      | end_of_stream => rfl
      | point x =>
        obtain ⟨skipped, tail, e1, -, e3, -⟩ := r1 x hres
        have hx := hzero x (by rw [e1]; simp)
        have e3' : emitted replay_C false x = true := e3
        rw [hx] at e3'
        cases e3'
  refine ⟨boundaries_all_boundaries n, hend, ?_⟩
  obtain ⟨-, -, -, hsc⟩ := (r2 hend).2
  unfold stream.scan
  rw [hsc, boundaries_all_boundaries, uinc_iterate_mod n 0 (by decide), Nat.zero_add]
  rfl

/-! ## Reading until end-of-stream -/

theorem points_map_point {R : Type} (ps : List R) :
    points (ps.map (fun r => reply.read (read_result.point r)) ++
      [reply.read read_result.end_of_stream]) = ps := by
  induction ps with
  | nil => rfl
  | cons x rest ih =>
    simp only [List.map_cons, List.cons_append, points]
    exact congrArg (List.cons x) ih

theorem any_end_map_point {R : Type} (ps : List R) :
    (ps.map (fun r => reply.read (read_result.point r)) ++
      [reply.read read_result.end_of_stream]).any reply.is_end = true := by
  simp [reply.is_end]

theorem reads_reach_end {S K R : Type} (C : Collab S K R) (f m : Nat) :
    ∀ (pending : List R) (st : stream S K R) (target : Nat),
      pending.length ≤ m → at_pending C st pending target → pending.length < f →
      ∃ (n : Nat) (ps : List R), n = ps.length + 1 ∧ ps.length ≤ pending.length ∧
        (stream.run C ((List.replicate n f).map Call.read) st).result =
          some (ps.map (fun r => reply.read (read_result.point r)) ++
            [reply.read read_result.end_of_stream]) := by
  induction m with
  | zero =>
    intro pending st target hm h hf
    obtain ⟨r1, -, -, r4, r5, -⟩ := read_pending C f st pending target h
    cases hr : (stream.read C f st).result with
    | none => exact absurd hr (r5 hf)
    | some o =>
      cases o with
      | fault => exact absurd hr r4
      | point x =>
        obtain ⟨skipped, tail, e1, -⟩ := r1 x hr
        rw [e1] at hm
        simp at hm
      | end_of_stream =>
        refine ⟨1, [], rfl, Nat.zero_le _, ?_⟩
        show (stream.run C [Call.read f] st).result = _
        rw [run_read_end C f [] st hr]
        rfl
  | succ k ih =>
    intro pending st target hm h hf
    obtain ⟨r1, -, -, r4, r5, -⟩ := read_pending C f st pending target h
    cases hr : (stream.read C f st).result with
    | none => exact absurd hr (r5 hf)
    | some o =>
      cases o with
      | fault => exact absurd hr r4
      | point x =>
        obtain ⟨skipped, tail, e1, -, -, e4⟩ := r1 x hr
        have hlen : pending.length = skipped.length + (tail.length + 1) := by
          rw [e1]; simp
        obtain ⟨n, ps, hn, hps, hrun⟩ := ih tail (stream.read C f st).state target
          (by omega) e4 (by omega)
        refine ⟨n + 1, x :: ps, by rw [hn]; rfl, by simp only [List.length_cons]; omega, ?_⟩
        show (stream.run C (Call.read f :: (List.replicate n f).map Call.read) st).result = _
        rw [run_read_point C f _ st x hr]
        show Option.map _ (stream.run C ((List.replicate n f).map Call.read)
          (stream.read C f st).state).result = _
        rw [hrun]
        rfl
      | end_of_stream =>
        refine ⟨1, [], rfl, Nat.zero_le _, ?_⟩
        show (stream.run C [Call.read f] st).result = _
        rw [run_read_end C f [] st hr]
        rfl

theorem fresh_reads_reach_end {S K R : Type} (C : Collab S K R) (src : S) (mode : Option Nat)
    (outputInvalid legacy : Bool) (recording : List (packet × ptime × Bool)) (f : Nat)
    (hd : delivers C C.tick_default src recording) (hf : 384 * recording.length < f) :
    ∃ (n : Nat) (ps : List R), n = ps.length + 1 ∧ ps.length ≤ 384 * recording.length ∧
      (stream.run C ((List.replicate n f).map Call.read)
        (stream.construct C src mode outputInvalid legacy)).result =
        some (ps.map (fun r => reply.read (read_result.point r)) ++
          [reply.read read_result.end_of_stream]) := by
  have hat := construct_at_pending C src mode outputInvalid legacy recording hd
  have hl := recording_returns_length C
    (stream.construct C src mode outputInvalid legacy).m_angularSpeed legacy recording
  have h384 : m_size = 384 := rfl
  rw [h384] at hl
  obtain ⟨n, ps, hn, hps, hrun⟩ := reads_reach_end C f _ _ _ _ (le_refl _) hat (by rw [hl]; exact hf)
  exact ⟨n, ps, hn, by rw [hl] at hps; exact hps, hrun⟩

/-! ## The scan counter over a whole recording -/

/-- C11 (as stated, refuted): a source delivers 4294967296 packets, each
reported as a new scan (and with no valid return, so that one read call with
outputInvalid = false consumes them all); read returns end-of-stream and
scan() is 0, not 4294967296. -/
theorem scan_counts_boundaries_counterexample :
    boundaries (replay_script (all_boundaries 4294967296)) = 4294967296 ∧
    (stream.read replay_C (384 * 4294967296 + 1)
      (stream.construct replay_C (replay.of (all_boundaries 4294967296)) (some 600)
        false false)).result = some read_result.end_of_stream ∧
    stream.scan (stream.read replay_C (384 * 4294967296 + 1)
      (stream.construct replay_C (replay.of (all_boundaries 4294967296)) (some 600)
        false false)).state = 0 :=
  ⟨(all_boundaries_read 4294967296).1, (all_boundaries_read 4294967296).2.1,
    Eq.trans (all_boundaries_read 4294967296).2.2 (Nat.mod_self 4294967296)⟩

/-- C11 (amended): over a source that delivers N packets and then
end-of-stream, K of them reported as new scans, reading a fresh stream until
end-of-stream is returned (each read allowed more than 384 * N passes) takes
finitely many reads, every one returning a laser return but the last, and
leaves scan() equal to K modulo 2^32, hence equal to K when K < 2^32; the same
holds for every run of read calls that ends with end-of-stream. -/
theorem scan_counts_boundaries {S K R : Type} (C : Collab S K R) (src : S)
    (mode : Option Nat) (outputInvalid legacy : Bool)
    (recording : List (packet × ptime × Bool))
    (hd : delivers C C.tick_default src recording) :
    (∀ f, 384 * recording.length < f →
      ∃ (n : Nat) (ps : List R),
        (stream.run C ((List.replicate n f).map Call.read)
          (stream.construct C src mode outputInvalid legacy)).result =
          some (ps.map (fun r => reply.read (read_result.point r)) ++
            [reply.read read_result.end_of_stream]) ∧
        stream.scan (stream.run C ((List.replicate n f).map Call.read)
            (stream.construct C src mode outputInvalid legacy)).state =
          boundaries recording % 4294967296 ∧
        (boundaries recording < 4294967296 →
          stream.scan (stream.run C ((List.replicate n f).map Call.read)
            (stream.construct C src mode outputInvalid legacy)).state =
          boundaries recording)) ∧
    (∀ (fuels : List Nat) (replies : List (reply R)),
      (stream.run C (fuels.map Call.read)
        (stream.construct C src mode outputInvalid legacy)).result = some replies →
      replies.any reply.is_end = true →
      stream.scan (stream.run C (fuels.map Call.read)
          (stream.construct C src mode outputInvalid legacy)).state =
        boundaries recording % 4294967296 ∧
      (boundaries recording < 4294967296 →
        stream.scan (stream.run C (fuels.map Call.read)
          (stream.construct C src mode outputInvalid legacy)).state = boundaries recording)) := by
  have hat := construct_at_pending C src mode outputInvalid legacy recording hd
  have hmod : uinc^[boundaries recording] 0 = boundaries recording % 4294967296 := by
    rw [uinc_iterate_mod _ 0 (by decide), Nat.zero_add]; rfl
  have hany : ∀ (fuels : List Nat) (replies : List (reply R)),
      (stream.run C (fuels.map Call.read)
        (stream.construct C src mode outputInvalid legacy)).result = some replies →
      replies.any reply.is_end = true →
      stream.scan (stream.run C (fuels.map Call.read)
          (stream.construct C src mode outputInvalid legacy)).state =
        boundaries recording % 4294967296 ∧
      (boundaries recording < 4294967296 →
        stream.scan (stream.run C (fuels.map Call.read)
          (stream.construct C src mode outputInvalid legacy)).state = boundaries recording) := by
    intro fuels replies hres hend
    obtain ⟨-, h2⟩ := run_reads_pending C fuels _ _ _ hat replies hres
    obtain ⟨-, -, -, -, hsc⟩ := h2 hend
    unfold stream.scan
    rw [hsc, hmod]
    exact ⟨rfl, fun hlt => Nat.mod_eq_of_lt hlt⟩
  refine ⟨?_, hany⟩
  intro f hf
  obtain ⟨n, ps, -, -, hrun⟩ :=
    fresh_reads_reach_end C src mode outputInvalid legacy recording f hd hf
  obtain ⟨h1, h2⟩ := hany (List.replicate n f) _ hrun (any_end_map_point ps)
  exact ⟨n, ps, hrun, h1, h2⟩

set_option maxRecDepth 100000 in
theorem scan_counts_boundaries_witness :
    (∃ (n : Nat) (ps : List built),
      (stream.run replay_C ((List.replicate n 385).map Call.read)
        (stream.construct replay_C (replay.of [(flat_packet 0 0 0, 10, true)]) (some 600)
          false false)).result =
        some (ps.map (fun r => reply.read (read_result.point r)) ++
          [reply.read read_result.end_of_stream]) ∧
      stream.scan (stream.run replay_C ((List.replicate n 385).map Call.read)
          (stream.construct replay_C (replay.of [(flat_packet 0 0 0, 10, true)]) (some 600)
            false false)).state =
        boundaries (replay_script [(flat_packet 0 0 0, 10, true)]) % 4294967296 ∧
      (boundaries (replay_script [(flat_packet 0 0 0, 10, true)]) < 4294967296 →
        stream.scan (stream.run replay_C ((List.replicate n 385).map Call.read)
          (stream.construct replay_C (replay.of [(flat_packet 0 0 0, 10, true)]) (some 600)
            false false)).state =
        boundaries (replay_script [(flat_packet 0 0 0, 10, true)]))) ∧
    stream.scan (stream.run replay_C ([385].map Call.read)
        (stream.construct replay_C (replay.of [(flat_packet 0 0 0, 10, true)]) (some 600)
          false false)).state =
      boundaries (replay_script [(flat_packet 0 0 0, 10, true)]) % 4294967296 :=
  ⟨(scan_counts_boundaries replay_C (replay.of [(flat_packet 0 0 0, 10, true)]) (some 600)
      false false (replay_script [(flat_packet 0 0 0, 10, true)])
      (replay_delivers _ _ _ rfl)).1 385 (by decide),
    ((scan_counts_boundaries replay_C (replay.of [(flat_packet 0 0 0, 10, true)]) (some 600)
      false false (replay_script [(flat_packet 0 0 0, 10, true)])
      (replay_delivers _ _ _ rfl)).2 [385] [reply.read read_result.end_of_stream] rfl rfl).1⟩

/-! ## Validity filter -/

theorem read_decode_built {S K R : Type} (C : Collab S K R) (st : stream S K R) :
    (∀ x, (stream.read_decode C st).result = some (read_result.point x) →
      (stream.read_decode C st).events.filterMap (Event.built C) = [x] ∧
      emitted C st.m_outputInvalid x = true) ∧
    ((stream.read_decode C st).result = none →
      ∃ y, (stream.read_decode C st).events.filterMap (Event.built C) = [y] ∧
        emitted C st.m_outputInvalid y = false) := by
  cases hp : st.m_packet with
  | none =>
    rw [read_decode_null C st hp]
    exact ⟨fun x hx => (by cases hx), fun hx => (by cases hx)⟩
  | some p =>
    obtain ⟨w, -, hd⟩ := read_decode_packet C st p hp
    rw [hd]
    simp only [List.filterMap_cons, Event.built, List.filterMap_nil]
    by_cases hem : ((!C.range_equal_zero (C.get_laser_return p st.m_index.block
        st.m_index.laser (stream.refresh_timestamp C st).m_timestamp w st.m_legacy)) ||
        st.m_outputInvalid) = true
    · rw [if_pos hem]
      refine ⟨?_, fun hx => (by cases hx)⟩
      intro x hx
      injection hx with hx
      injection hx with hx
      subst hx
      exact ⟨rfl, hem⟩
    · rw [if_neg hem]
      refine ⟨fun x hx => (by cases hx), fun _ => ⟨_, rfl, ?_⟩⟩
      unfold emitted
      simpa using hem

theorem read_body_built {S K R : Type} (C : Collab S K R) (st : stream S K R) :
    (∀ x, (stream.read_body C st).result = some (read_result.point x) →
      (stream.read_body C st).events.filterMap (Event.built C) = [x] ∧
      emitted C st.m_outputInvalid x = true) ∧
    ((stream.read_body C st).result = none →
      ∃ y, (stream.read_body C st).events.filterMap (Event.built C) = [y] ∧
        emitted C st.m_outputInvalid y = false) := by
  by_cases h : st.m_index.idx < m_size
  · rw [read_body_within C st h]
    exact read_decode_built C st
  · have h2 : st.m_index.idx ≥ m_size := by omega
    cases hg : (stream.fetch C st).m_packet with
    | none =>
      rw [read_body_no_packet C st h2 hg]
      exact ⟨fun x hx => (by cases hx), fun hx => (by cases hx)⟩
    | some p =>
      rw [read_body_packet C st p h2 hg]
      have hb := read_decode_built C (stream.count_scan C (stream.fetch C st) p)
      simpa [Event.built] using hb

theorem read_built {S K R : Type} (C : Collab S K R) (fuel : Nat) (st : stream S K R)
    (x : R) (hx : (stream.read C fuel st).result = some (read_result.point x)) :
    emitted C st.m_outputInvalid x = true ∧
    ∃ skipped, (stream.read C fuel st).events.filterMap (Event.built C) = skipped ++ [x] ∧
      ∀ y ∈ skipped, emitted C st.m_outputInvalid y = false := by
  induction fuel generalizing st with
  | zero =>
    cases hc : st.m_closed with
    | true => rw [read_closed C 0 st hc] at hx; cases hx
    | false => rw [read_zero_open C st hc] at hx; cases hx
  | succ n ih =>
    cases hc : st.m_closed with
    | true => rw [read_closed C (n + 1) st hc] at hx; cases hx
    | false =>
      obtain ⟨b1, b2⟩ := read_body_built C st
      cases hr : (stream.read_body C st).result with
      | some o =>
        rw [read_succ_return C n st o hc hr] at hx ⊢
        injection hx with hx
        subst hx
        obtain ⟨e1, e2⟩ := b1 x hr
        exact ⟨e2, [], by simpa using e1, by simp⟩
      | none =>
        rw [read_succ_continue C n st hc hr] at hx ⊢
        obtain ⟨y, e1, e2⟩ := b2 hr
        obtain ⟨i1, skipped, i2, i3⟩ := ih (stream.read_body C st).state hx
        rw [(read_body_flags C st).1] at i1 i3
        refine ⟨i1, y :: skipped, ?_, ?_⟩
        · simp only [List.filterMap_append, e1, i2]
          rfl
        · intro z hz
          rcases List.mem_cons.mp hz with hz | hz
          · rw [hz]; exact e2
          · exact i3 z hz

/-- C12: with outputInvalid = false, a laser return that read hands to the
caller has a range not equal to 0; it is the return built last in that call,
and every return built before it in the call has range 0 and is not handed
out. -/
theorem read_emits_only_valid {S K R : Type} (C : Collab S K R) (fuel : Nat)
    (st : stream S K R) (x : R) (ho : st.m_outputInvalid = false)
    (hx : (stream.read C fuel st).result = some (read_result.point x)) :
    C.range_equal_zero x = false ∧
    ∃ skipped, (stream.read C fuel st).events.filterMap (Event.built C) = skipped ++ [x] ∧
      ∀ y ∈ skipped, C.range_equal_zero y = true := by
  obtain ⟨h1, skipped, h2, h3⟩ := read_built C fuel st x hx
  rw [ho] at h1 h3
  refine ⟨by simpa [emitted] using h1, skipped, h2, ?_⟩
  intro y hy
  simpa [emitted] using h3 y hy

set_option maxRecDepth 100000 in
theorem read_emits_only_valid_witness :
    replay_C.range_equal_zero
        { rot0 := 2, block := 0, laser := 0, timestamp := some 20,
          speed := DoubleVal.ofInt (((360 / 60) * 600 % UINT_MOD : Nat) : Int), range := 5 } =
      false ∧
    ∃ skipped,
      (stream.read replay_C 400
        (stream.construct replay_C
          (replay.of [(flat_packet 1 1 0, 10, false), (flat_packet 2 2 5, 20, true)])
          (some 600) false false)).events.filterMap (Event.built replay_C) =
        skipped ++
          [{ rot0 := 2, block := 0, laser := 0, timestamp := some 20,
             speed := DoubleVal.ofInt (((360 / 60) * 600 % UINT_MOD : Nat) : Int),
             range := 5 }] ∧
      ∀ y ∈ skipped, replay_C.range_equal_zero y = true :=
  read_emits_only_valid replay_C 400
    (stream.construct replay_C
      (replay.of [(flat_packet 1 1 0, 10, false), (flat_packet 2 2 5, 20, true)])
      (some 600) false false)
    { rot0 := 2, block := 0, laser := 0, timestamp := some 20,
      speed := DoubleVal.ofInt (((360 / 60) * 600 % UINT_MOD : Nat) : Int), range := 5 }
    rfl rfl

/-! ## Emitting every slot -/

theorem run_reads_all_emitted {S K R : Type} (C : Collab S K R) (pending : List R)
    (st : stream S K R) (target : Nat) (fuels : List Nat)
    (h : at_pending C st pending target) (ho : st.m_outputInvalid = true)
    (hlen : fuels.length = pending.length + 1) :
    (stream.run C (fuels.map (fun f => Call.read (f + 1))) st).result =
      some (pending.map (fun r => reply.read (read_result.point r)) ++
        [reply.read read_result.end_of_stream]) := by
  have hc : st.m_closed = false := by
    obtain ⟨cur, k, rest, hr, -, -⟩ := h
    exact hr.1
  induction pending generalizing st fuels with
  | nil =>
    obtain ⟨hnil, -⟩ := read_body_pending C st [] target h
    obtain ⟨hres, -, -⟩ := hnil rfl
    cases fuels with
    | nil => simp at hlen
    | cons f fs =>
      have hfs : fs = [] := by
        cases fs with
        | nil => rfl
        | cons a b => simp at hlen
      subst hfs
      have hread := read_succ_return C f st _ hc hres
      rw [List.map_cons, List.map_nil,
        run_read_end C (f + 1) [] st (by rw [hread])]
      rfl
  | cons x tail ih =>
    obtain ⟨-, hcons⟩ := read_body_pending C st (x :: tail) target h
    obtain ⟨hres, hat, hoo, -⟩ := hcons x tail rfl
    have hem : emitted C st.m_outputInvalid x = true := by
      simp [emitted, ho]
    rw [if_pos hem] at hres
    cases fuels with
    | nil => simp at hlen
    | cons f fs =>
      have hread := read_succ_return C f st _ hc hres
      have hst : (stream.read C (f + 1) st).state = (stream.read_body C st).state := by
        rw [hread]
      have hc2 : (stream.read_body C st).state.m_closed = false := by
        obtain ⟨cur, k, rest, hr, -, -⟩ := hat
        exact hr.1
      rw [List.map_cons, run_read_point C (f + 1) _ st x (by rw [hread])]
      simp only
      rw [hst, ih (stream.read_body C st).state fs hat (hoo.trans ho)
        (by simp at hlen; omega) hc2]
      rfl

theorem recording_returns_getElem {S K R : Type} (C : Collab S K R)
    (mode : Option DoubleVal) (legacy : Bool) (recording : List (packet × ptime × Bool))
    (k : Nat) (p : packet) (t : ptime) (b : Bool)
    (h : recording[k / m_size]? = some (p, t, b)) :
    (recording_returns C mode legacy recording)[k]? =
      some (slot_return C mode legacy p t (k % m_size)) := by
  induction recording generalizing k with
  | nil => simp at h
  | cons e rest ih =>
    obtain ⟨p0, t0, b0⟩ := e
    have hlen : (packet_returns C mode legacy p0 t0 0).length = m_size := by
      rw [packet_returns_length]; rfl
    simp only [recording_returns]
    by_cases hk : k < m_size
    · have hdiv : k / m_size = 0 := Nat.div_eq_of_lt hk
      rw [hdiv] at h
      simp only [List.getElem?_cons_zero, Option.some.injEq, Prod.mk.injEq] at h
      obtain ⟨h1, h2, -⟩ := h
      subst h1
      subst h2
      rw [List.getElem?_append_left (by rw [hlen]; exact hk), Nat.mod_eq_of_lt hk]
      unfold packet_returns
      rw [List.getElem?_map, List.getElem?_range' 0 1 (by simpa using hk)]
      simp
    · have hge : m_size ≤ k := by omega
      have hdiv : k / m_size = (k - m_size) / m_size + 1 := by
        unfold m_size at hge ⊢
        omega
      have hmod : (k - m_size) % m_size = k % m_size := by
        unfold m_size at hge ⊢
        omega
      rw [hdiv, List.getElem?_cons_succ] at h
      rw [List.getElem?_append_right (by rw [hlen]; exact hge), hlen, ih (k - m_size) h, hmod]

/-- C13: with outputInvalid = true, over a source that delivers N packets and
then end-of-stream, the first 384*N read calls on a fresh stream each return a
laser return, the k-th being the return of packet k div 384 at the sequencer's
slot number k mod 384, and read call number 384*N + 1 returns end-of-stream. -/
theorem reads_return_every_slot {S K R : Type} (C : Collab S K R) (src : S)
    (mode : Option Nat) (legacy : Bool) (recording : List (packet × ptime × Bool))
    (fuels : List Nat) (hd : delivers C C.tick_default src recording)
    (hlen : fuels.length = 384 * recording.length + 1) :
    (stream.run C (fuels.map (fun f => Call.read (f + 1)))
        (stream.construct C src mode true legacy)).result =
      some ((recording_returns C (stream.construct C src mode true legacy).m_angularSpeed
          legacy recording).map (fun r => reply.read (read_result.point r)) ++
        [reply.read read_result.end_of_stream]) ∧
    (recording_returns C (stream.construct C src mode true legacy).m_angularSpeed
      legacy recording).length = 384 * recording.length ∧
    ∀ k p t b, recording[k / 384]? = some (p, t, b) →
      (recording_returns C (stream.construct C src mode true legacy).m_angularSpeed
          legacy recording)[k]? =
        some (C.get_laser_return p (slotAt (k % 384)).1 (slotAt (k % 384)).2 t
          (speed_for C (stream.construct C src mode true legacy).m_angularSpeed p) legacy) := by
  have hat := construct_at_pending C src mode true legacy recording hd
  have hl := recording_returns_length C
    (stream.construct C src mode true legacy).m_angularSpeed legacy recording
  refine ⟨?_, hl, ?_⟩
  · exact run_reads_all_emitted C _ _ _ fuels hat (construct_outputInvalid C src mode true legacy)
      (by rw [hl, hlen]; rfl)
  · intro k p t b hk
    exact recording_returns_getElem C _ legacy recording k p t b hk

set_option maxRecDepth 100000 in
theorem reads_return_every_slot_witness :
    (recording_returns replay_C
        (stream.construct replay_C (replay.of [(flat_packet 7 7 0, 10, true)]) (some 600)
          true false).m_angularSpeed
        false (replay_script [(flat_packet 7 7 0, 10, true)]))[65]? =
      some (replay_C.get_laser_return (flat_packet 7 7 0) (slotAt (65 % 384)).1
        (slotAt (65 % 384)).2 (some 10)
        (speed_for replay_C
          (stream.construct replay_C (replay.of [(flat_packet 7 7 0, 10, true)]) (some 600)
            true false).m_angularSpeed (flat_packet 7 7 0)) false) :=
  (reads_return_every_slot replay_C (replay.of [(flat_packet 7 7 0, 10, true)]) (some 600)
    false (replay_script [(flat_packet 7 7 0, 10, true)]) (List.replicate 385 0)
    (replay_delivers _ _ _ rfl) rfl).2.2 65 (flat_packet 7 7 0) (some 10) true rfl

/-! ## Closing and end of stream -/

theorem run_reads_closed {S K R : Type} (C : Collab S K R) (fuels : List Nat)
    (st : stream S K R) (hc : st.m_closed = true) :
    stream.run C (fuels.map Call.read) st =
      { state := st, events := [],
        result := some (fuels.map (fun _ => reply.read read_result.end_of_stream)) } := by
  induction fuels with
  | nil => rfl
  | cons f fs ih =>
    have hread := read_closed C f st hc
    rw [List.map_cons, run_read_end C f _ st (by rw [hread]), hread]
    simp only
    rw [ih]
    rfl

/-- C14: after close, from every stream state, every subsequent read returns
end-of-stream without any call to the source and leaves the whole stream
state, in particular the scan counter and the sequencer position, unchanged. -/
theorem read_after_close_returns_end_of_stream {S K R : Type} (C : Collab S K R)
    (st : stream S K R) (fuels : List Nat) (fuel : Nat) :
    stream.read C fuel (stream.close C st).state =
      { state := (stream.close C st).state, events := [],
        result := some read_result.end_of_stream } ∧
    stream.run C (fuels.map Call.read) (stream.close C st).state =
      { state := (stream.close C st).state, events := [],
        result := some (fuels.map (fun _ => reply.read read_result.end_of_stream)) } ∧
    (stream.run C (Call.close :: fuels.map Call.read) st).events = [Event.close_source] ∧
    (stream.run C (Call.close :: fuels.map Call.read) st).result =
      some (reply.close :: fuels.map (fun _ => reply.read read_result.end_of_stream)) ∧
    stream.scan (stream.run C (Call.close :: fuels.map Call.read) st).state = stream.scan st ∧
    (stream.run C (Call.close :: fuels.map Call.read) st).state.m_index = st.m_index := by
  have hrun := run_reads_closed C fuels (stream.close C st).state rfl
  have hfull : stream.run C (Call.close :: fuels.map Call.read) st =
      { state := (stream.close C st).state, events := [Event.close_source],
        result := some (reply.close ::
          fuels.map (fun _ => reply.read read_result.end_of_stream)) } := by
    simp only [stream.run, stream.call]
    rw [show (stream.close C st).result = some () from rfl]
    simp only [Option.map_some']
    rw [hrun]
    rfl
  refine ⟨read_closed C fuel _ rfl, hrun, ?_, ?_, ?_, ?_⟩ <;> rw [hfull] <;> rfl

/-- C15: each close sets the closed flag and forwards one close to the
source; a second close changes nothing in the stream but forwards close to
the source once more, and where the source's close is idempotent the two
states are equal. -/
theorem close_is_idempotent {S K R : Type} (C : Collab S K R) (st : stream S K R) :
    (stream.close C st).state.m_closed = true ∧
    (stream.close C st).events = [Event.close_source] ∧
    (stream.close C st).state.m_stream = C.traits_close st.m_stream ∧
    ((stream.close C st).state.m_scan = st.m_scan ∧
      (stream.close C st).state.m_index = st.m_index ∧
      (stream.close C st).state.m_packet = st.m_packet) ∧
    (stream.run C [Call.close, Call.close] st).events =
      [Event.close_source, Event.close_source] ∧
    (stream.close C (stream.close C st).state).state =
      { (stream.close C st).state with
        m_stream := C.traits_close (C.traits_close st.m_stream) } ∧
    (C.traits_close (C.traits_close st.m_stream) = C.traits_close st.m_stream →
      (stream.close C (stream.close C st).state).state = (stream.close C st).state) := by
  refine ⟨rfl, rfl, rfl, ⟨rfl, rfl, rfl⟩, rfl, rfl, ?_⟩
  intro h
  simp only [stream.close, h]

theorem close_is_idempotent_witness :
    (stream.close replay_C
        (stream.close replay_C (replay_stream [(flat_packet 1 1 1, 10, true)])).state).state =
      (stream.close replay_C (replay_stream [(flat_packet 1 1 1, 10, true)])).state :=
  (close_is_idempotent replay_C (replay_stream [(flat_packet 1 1 1, 10, true)])).2.2.2.2.2.2 rfl

/-- C16: when the sequencer is exhausted and the source delivers no packet,
read returns end-of-stream in that call after one fetch, the only call it
makes, and leaves the scan counter unchanged. -/
theorem read_end_of_stream_after_one_fetch {S K R : Type} (C : Collab S K R)
    (st : stream S K R) (fuel : Nat) (hc : st.m_closed = false)
    (hi : st.m_index.idx ≥ m_size) (hn : (C.traits_read st.m_stream).1 = none) :
    (stream.read C (fuel + 1) st).result = some read_result.end_of_stream ∧
    (stream.read C (fuel + 1) st).events = [Event.fetch st.m_index.idx none] ∧
    stream.scan (stream.read C (fuel + 1) st).state = stream.scan st ∧
    (stream.read C (fuel + 1) st).state.m_packet = none := by
  have hb := read_body_no_packet C st hi hn
  have hr := read_succ_return C fuel st read_result.end_of_stream hc (by rw [hb])
  rw [hr, hb]
  exact ⟨rfl, rfl, rfl, hn⟩

theorem read_end_of_stream_after_one_fetch_witness :
    (stream.read replay_C (4 + 1) (replay_stream [])).result =
        some read_result.end_of_stream ∧
      (stream.read replay_C (4 + 1) (replay_stream [])).events =
        [Event.fetch (replay_stream []).m_index.idx none] ∧
      stream.scan (stream.read replay_C (4 + 1) (replay_stream [])).state =
        stream.scan (replay_stream []) ∧
      (stream.read replay_C (4 + 1) (replay_stream [])).state.m_packet = none :=
  read_end_of_stream_after_one_fetch replay_C (replay_stream []) 4 rfl (by decide) rfl

/-! ## Datagrams of the wrong size -/

/-- C18 (as stated, refuted): a source holds a datagram of the wrong size
followed by a packet; read on a fresh stream gets NULL for the datagram and
returns end-of-stream after that one fetch; it does not go on to the packet,
which stays with the source. -/
theorem malformed_packet_ends_stream_counterexample :
    (stream.read socket_C 1000
      (stream.construct socket_C (socket.of [none, some (flat_packet 1 1 1, 10, true)])
        (some 600) true false)).result = some read_result.end_of_stream ∧
    (stream.read socket_C 1000
      (stream.construct socket_C (socket.of [none, some (flat_packet 1 1 1, 10, true)])
        (some 600) true false)).events = [Event.fetch 384 none] ∧
    (stream.read socket_C 1000
      (stream.construct socket_C (socket.of [none, some (flat_packet 1 1 1, 10, true)])
        (some 600) true false)).state.m_stream.pending =
      [some (flat_packet 1 1 1, 10, true)] := by
  refine ⟨?_, ?_, ?_⟩ <;> rfl

/-- C18 (amended): read has no handling of malformed packets. Whatever the
source hands over as a packet is decoded from slot (0, 0) on and counted as
a new scan if the detector says so; when the source answers NULL to the
fetch, also when it would deliver a packet to a further fetch, read returns
end-of-stream in that call after the one fetch, with the scan counter
unchanged, no packet buffered and the further packet not requested. -/
theorem null_from_source_ends_stream {S K R : Type} (C : Collab S K R)
    (st : stream S K R) (fuel : Nat) (hc : st.m_closed = false)
    (hi : st.m_index.idx ≥ m_size) :
    ((C.traits_read st.m_stream).1 = none →
      (stream.read C (fuel + 1) st).result = some read_result.end_of_stream ∧
      fetched (stream.read C (fuel + 1) st).events = 0 ∧
      (stream.read C (fuel + 1) st).events.length = 1 ∧
      (stream.read C (fuel + 1) st).state.m_stream = (C.traits_read st.m_stream).2 ∧
      (stream.read C (fuel + 1) st).state.m_packet = none ∧
      stream.scan (stream.read C (fuel + 1) st).state = stream.scan st) ∧
    (∀ q, (C.traits_read st.m_stream).1 = some q →
      (∃ t w, (stream.read_body C st).events =
        [Event.fetch st.m_index.idx (some q), Event.decode q 0 0 t w st.m_legacy]) ∧
      (stream.read_body C st).state.m_scan =
        (if (C.traits_is_new_scan st.m_tick (C.traits_read st.m_stream).2 q).1 = true
          then uinc st.m_scan else st.m_scan)) := by
  constructor
  · intro hn
    have hb := read_body_no_packet C st hi hn
    have hr := read_succ_return C fuel st read_result.end_of_stream hc (by rw [hb])
    rw [hr, hb]
    exact ⟨rfl, rfl, rfl, rfl, hn, rfl⟩
  · intro q hq
    have hg : (stream.fetch C st).m_packet = some q := hq
    rw [read_body_packet C st q hi hg]
    obtain ⟨w, -, hd⟩ := read_decode_packet C (stream.count_scan C (stream.fetch C st) q) q hg
    obtain ⟨hsc, -⟩ := read_decode_frame C (stream.count_scan C (stream.fetch C st) q)
    refine ⟨⟨(stream.refresh_timestamp C
      (stream.count_scan C (stream.fetch C st) q)).m_timestamp, w, ?_⟩, ?_⟩
    · simp only
      rw [hd]
      rfl
    · simp only
      rw [hsc, count_scan_scan, fetch_scan]
      rfl

theorem null_from_source_ends_stream_witness :
    (stream.read socket_C (0 + 1)
      (stream.construct socket_C (socket.of [none, some (flat_packet 1 1 1, 10, true)])
        (some 600) true false)).result = some read_result.end_of_stream ∧
    (stream.read_body socket_C
      (stream.construct socket_C (socket.of [some (flat_packet 1 1 1, 10, true)])
        (some 600) true false)).state.m_scan =
      (if (socket_C.traits_is_new_scan
            (stream.construct socket_C (socket.of [some (flat_packet 1 1 1, 10, true)])
              (some 600) true false).m_tick
            (socket_C.traits_read
              (stream.construct socket_C (socket.of [some (flat_packet 1 1 1, 10, true)])
                (some 600) true false).m_stream).2 (flat_packet 1 1 1)).1 = true
        then uinc (stream.construct socket_C (socket.of [some (flat_packet 1 1 1, 10, true)])
          (some 600) true false).m_scan
        else (stream.construct socket_C (socket.of [some (flat_packet 1 1 1, 10, true)])
          (some 600) true false).m_scan) :=
  ⟨((null_from_source_ends_stream socket_C
      (stream.construct socket_C (socket.of [none, some (flat_packet 1 1 1, 10, true)])
        (some 600) true false) 0 rfl (by decide)).1 rfl).1,
    ((null_from_source_ends_stream socket_C
      (stream.construct socket_C (socket.of [some (flat_packet 1 1 1, 10, true)])
        (some 600) true false) 0 rfl (by decide)).2 (flat_packet 1 1 1) rfl).2⟩

/-! ## Skipping to the next scan -/

theorem skip_scan_body_end {S K R : Type} (C : Collab S K R) (st : stream S K R)
    (hg : (stream.fetch C st).m_packet = none) :
    stream.skip_scan_body C st =
      { state := stream.fetch C st, events := [Event.fetch st.m_index.idx none],
        result := some () } := by
  unfold stream.skip_scan_body
  simp only [hg]

theorem skip_scan_only_fetches {S K R : Type} (C : Collab S K R) (fuel : Nat)
    (st : stream S K R) :
    ∀ e ∈ (stream.skip_scan C fuel st).events, e.is_fetch = true := by
  induction fuel generalizing st with
  | zero =>
    cases hc : st.m_closed with
    | true => rw [skip_scan_closed C 0 st hc]; simp
    | false => rw [skip_scan_zero_open C st hc]; simp
  | succ n ih =>
    cases hc : st.m_closed with
    | true => rw [skip_scan_closed C (n + 1) st hc]; simp
    | false =>
      obtain ⟨⟨g, hg⟩, -⟩ := skip_scan_body_cases C st
      cases hr : (stream.skip_scan_body C st).result with
      | some o =>
        rw [skip_scan_succ_return C n st hc hr, hg]
        intro e he
        rw [List.mem_singleton.mp he]
        rfl
      | none =>
        rw [skip_scan_succ_continue C n st hc hr, hg]
        intro e he
        rcases List.mem_append.mp he with he | he
        · rw [List.mem_singleton.mp he]; rfl
        · exact ih _ e he

theorem run_read_stops {S K R : Type} (C : Collab S K R) (f : Nat) (cs : List Call)
    (st : stream S K R)
    (h : (stream.read C f st).result = none ∨
      (stream.read C f st).result = some read_result.fault) :
    (stream.run C (Call.read f :: cs) st).state = (stream.read C f st).state := by
  rcases h with h | h <;> simp only [stream.run, stream.call, h, Option.map_none',
    Option.map_some']

theorem ended_refresh {S K R : Type} (C : Collab S K R) (st : stream S K R) (target : Nat)
    (h : ended st target) : ended (stream.refresh_timestamp C st) target := by
  obtain ⟨-, -, -, hpk, hix, hsc, -, hcl, -⟩ := refresh_timestamp_frame C st
  obtain ⟨h1, h2, h3, h4⟩ := h
  exact ⟨hcl.trans h1, hpk.trans h2, by rw [hix]; exact h3, hsc.trans h4⟩

theorem read_keeps_ended {S K R : Type} (C : Collab S K R) (fuel : Nat) (st : stream S K R)
    (target : Nat) (h : ended st target) :
    ended (stream.read C fuel st).state target := by
  cases fuel with
  | zero => rw [read_zero_open C st h.1]; exact h
  | succ n =>
    have hb : stream.read_body C st =
        { state := stream.refresh_timestamp C st, events := [Event.null_deref],
          result := some read_result.fault } := by
      rw [read_body_within C st h.2.2.1, read_decode_null C st h.2.1]
    rw [read_succ_return C n st read_result.fault h.1 (by rw [hb]), hb]
    exact ended_refresh C st target h

theorem run_reads_keeps_ended {S K R : Type} (C : Collab S K R) (fuels : List Nat)
    (st : stream S K R) (target : Nat) (h : ended st target) :
    ended (stream.run C (fuels.map Call.read) st).state target := by
  cases fuels with
  | nil => exact h
  | cons f fs =>
    obtain ⟨h0, h1⟩ := read_ended C f st target h
    rw [List.map_cons, run_read_stops C f _ st (by
      by_cases hf : f = 0
      · exact Or.inl (h0 hf)
      · exact Or.inr (h1 (by omega)).1)]
    exact read_keeps_ended C f st target h

theorem run_reads_state {S K R : Type} (C : Collab S K R) (fuels : List Nat)
    (st : stream S K R) (pending : List R) (target : Nat)
    (h : at_pending C st pending target) :
    (∃ tail, tail.length ≤ pending.length ∧
      at_pending C (stream.run C (fuels.map Call.read) st).state tail target) ∨
    ended (stream.run C (fuels.map Call.read) st).state target := by
  induction fuels generalizing st pending with
  | nil => exact Or.inl ⟨pending, le_refl _, h⟩
  | cons f fs ih =>
    obtain ⟨r1, r2, r3, r4, -, -⟩ := read_pending C f st pending target h
    rw [List.map_cons]
    cases hr : (stream.read C f st).result with
    | none =>
      rw [run_read_stops C f _ st (Or.inl hr)]
      obtain ⟨skipped, tail, e1, -, e3⟩ := r3 hr
      exact Or.inl ⟨tail, by rw [e1]; simp, e3⟩
    | some o =>
      cases o with
      | fault => exact absurd hr r4
      | point x =>
        obtain ⟨skipped, tail, e1, -, -, e4⟩ := r1 x hr
        rw [run_read_point C f _ st x hr]
        simp only
        rcases ih (stream.read C f st).state tail e4 with ⟨tl, j1, j2⟩ | j
        · exact Or.inl ⟨tl, by rw [e1]; simp; omega, j2⟩
        · exact Or.inr j
      | end_of_stream =>
        rw [run_read_end C f _ st hr]
        simp only
        exact Or.inr (run_reads_keeps_ended C fs _ target (r2 hr).2)

theorem at_pending_decodable {S K R : Type} (C : Collab S K R) (st : stream S K R)
    (pending : List R) (target : Nat) (h : at_pending C st pending target) :
    st.m_packet ≠ none ∨ st.m_index.idx ≥ m_size := by
  obtain ⟨cur, k, rest, hr, -, -⟩ := h
  cases cur with
  | none => exact Or.inr hr.2.2.1
  | some pt =>
    obtain ⟨p, t⟩ := pt
    left
    rw [hr.2.2.1]
    simp

/-- C19 (code_bug): over a source that delivers N packets and then
end-of-stream, reading a fresh stream with more than 384 * N passes allowed
per call, every read up to and including the one that returns end-of-stream
terminates with a laser return or end-of-stream, also with
outputInvalid = false when all remaining slots are invalid, each pass
decoding one slot (after fetching one packet where the buffered one is
exhausted) or finding the source at its end. The read after the one that
returned end-of-stream returns neither: it dereferences the NULL packet. -/
theorem read_terminates_until_end_of_stream {S K R : Type} (C : Collab S K R) (src : S)
    (mode : Option Nat) (outputInvalid legacy : Bool)
    (recording : List (packet × ptime × Bool)) (fuel : Nat)
    (hd : delivers C C.tick_default src recording)
    (hfuel : 384 * recording.length < fuel) :
    (∃ (n : Nat) (ps : List R),
      (stream.run C ((List.replicate n fuel).map Call.read)
        (stream.construct C src mode outputInvalid legacy)).result =
        some (ps.map (fun r => reply.read (read_result.point r)) ++
          [reply.read read_result.end_of_stream]) ∧
      ∀ m, (stream.read C (m + 1) (stream.run C ((List.replicate n fuel).map Call.read)
          (stream.construct C src mode outputInvalid legacy)).state).result =
          some read_result.fault ∧
        (stream.read C (m + 1) (stream.run C ((List.replicate n fuel).map Call.read)
          (stream.construct C src mode outputInvalid legacy)).state).events =
          [Event.null_deref]) ∧
    (∀ fuels : List Nat,
      (stream.read C fuel (stream.run C (fuels.map Call.read)
        (stream.construct C src mode outputInvalid legacy)).state).result ≠ none ∧
      (((stream.run C (fuels.map Call.read)
            (stream.construct C src mode outputInvalid legacy)).state.m_packet ≠ none ∨
          (stream.run C (fuels.map Call.read)
            (stream.construct C src mode outputInvalid legacy)).state.m_index.idx ≥ m_size) →
        ((stream.read C fuel (stream.run C (fuels.map Call.read)
            (stream.construct C src mode outputInvalid legacy)).state).result =
            some read_result.end_of_stream ∨
          ∃ r, (stream.read C fuel (stream.run C (fuels.map Call.read)
            (stream.construct C src mode outputInvalid legacy)).state).result =
            some (read_result.point r)) ∧
        ((∃ p b l t w lg,
            (stream.read_body C (stream.run C (fuels.map Call.read)
              (stream.construct C src mode outputInvalid legacy)).state).events =
              [Event.decode p b l t w lg] ∨
            ∃ i, (stream.read_body C (stream.run C (fuels.map Call.read)
              (stream.construct C src mode outputInvalid legacy)).state).events =
              [Event.fetch i (some p), Event.decode p b l t w lg]) ∨
          ∃ i, (stream.read_body C (stream.run C (fuels.map Call.read)
            (stream.construct C src mode outputInvalid legacy)).state).events =
            [Event.fetch i none])) ∧
      (((stream.run C (fuels.map Call.read)
            (stream.construct C src mode outputInvalid legacy)).state.m_packet = none ∧
          (stream.run C (fuels.map Call.read)
            (stream.construct C src mode outputInvalid legacy)).state.m_index.idx < m_size) →
        (stream.read C fuel (stream.run C (fuels.map Call.read)
          (stream.construct C src mode outputInvalid legacy)).state).result =
          some read_result.fault)) := by
  have hat := construct_at_pending C src mode outputInvalid legacy recording hd
  have hl := recording_returns_length C
    (stream.construct C src mode outputInvalid legacy).m_angularSpeed legacy recording
  have hpos : 0 < fuel := by omega
  refine ⟨?_, ?_⟩
  · obtain ⟨n, ps, -, -, hrun⟩ :=
      fresh_reads_reach_end C src mode outputInvalid legacy recording fuel hd hfuel
    refine ⟨n, ps, hrun, ?_⟩
    intro m
    obtain ⟨-, hended⟩ := (run_reads_pending C (List.replicate n fuel) _ _ _ hat _ hrun).2
      (any_end_map_point ps)
    exact (read_ended C (m + 1) _ _ hended).2 (Nat.succ_pos m)
  · intro fuels
    rcases run_reads_state C fuels _ _ _ hat with ⟨tail, ht1, ht2⟩ | hend
    · obtain ⟨r1, r2, r3, r4, r5, -⟩ := read_pending C fuel _ tail _ ht2
      have hlt : tail.length < fuel := by
        rw [hl] at ht1
        unfold m_size at ht1
        omega
      refine ⟨r5 hlt, fun _ => ⟨?_, ?_⟩, ?_⟩
      · cases hr : (stream.read C fuel (stream.run C (fuels.map Call.read)
            (stream.construct C src mode outputInvalid legacy)).state).result with
        | none => exact absurd hr (r5 hlt)
        | some o =>
          cases o with
          | fault => exact absurd hr r4
          | end_of_stream => exact Or.inl rfl
          | point x => exact Or.inr ⟨x, rfl⟩
      · obtain ⟨hnil, hcons⟩ := read_body_pending C _ tail _ ht2
        cases tail with
        | nil => exact Or.inr ⟨_, (hnil rfl).2.2⟩
        | cons x tl =>
          obtain ⟨-, -, -, p, b, l, t, w, lg, hev⟩ := hcons x tl rfl
          rcases hev with hev | hev
          · exact Or.inl ⟨p, b, l, t, w, lg, Or.inl hev⟩
          · exact Or.inl ⟨p, b, l, t, w, lg, Or.inr ⟨_, hev⟩⟩
      · intro hcond
        rcases at_pending_decodable C _ tail _ ht2 with h | h
        · exact absurd hcond.1 h
        · omega
    · obtain ⟨-, h1⟩ := read_ended C fuel _ _ hend
      refine ⟨by rw [(h1 hpos).1]; simp, ?_, fun _ => (h1 hpos).1⟩
      intro hcond
      obtain ⟨-, e2, e3, -⟩ := hend
      rcases hcond with hcond | hcond
      · exact absurd e2 hcond
      · omega

theorem read_terminates_until_end_of_stream_witness :
    ∃ (n : Nat) (ps : List built),
      (stream.run replay_C ((List.replicate n 769).map Call.read)
        (stream.construct replay_C
          (replay.of [(flat_packet 1 1 0, 10, false), (flat_packet 2 2 0, 20, true)])
          (some 600) false false)).result =
        some (ps.map (fun r => reply.read (read_result.point r)) ++
          [reply.read read_result.end_of_stream]) ∧
      ∀ m, (stream.read replay_C (m + 1)
          (stream.run replay_C ((List.replicate n 769).map Call.read)
            (stream.construct replay_C
              (replay.of [(flat_packet 1 1 0, 10, false), (flat_packet 2 2 0, 20, true)])
              (some 600) false false)).state).result =
          some read_result.fault ∧
        (stream.read replay_C (m + 1)
          (stream.run replay_C ((List.replicate n 769).map Call.read)
            (stream.construct replay_C
              (replay.of [(flat_packet 1 1 0, 10, false), (flat_packet 2 2 0, 20, true)])
              (some 600) false false)).state).events =
          [Event.null_deref] :=
  (read_terminates_until_end_of_stream replay_C
    (replay.of [(flat_packet 1 1 0, 10, false), (flat_packet 2 2 0, 20, true)])
    (some 600) false false
    (replay_script [(flat_packet 1 1 0, 10, false), (flat_packet 2 2 0, 20, true)])
    769 (replay_delivers _ _ _ rfl) (by decide)).1

/-! ## Determinism -/

theorem refresh_alike {S1 K1 S2 K2 R : Type} (C1 : Collab S1 K1 R) (C2 : Collab S2 K2 R)
    (rel : S1 → K1 → S2 → K2 → Prop) (hal : alike C1 C2 rel)
    (a : stream S1 K1 R) (b : stream S2 K2 R) (h : same_streams rel a b) :
    same_streams rel (stream.refresh_timestamp C1 a) (stream.refresh_timestamp C2 b) := by
  obtain ⟨a1, a2, a3, a4, a5, a6, a7, a8, a9⟩ := refresh_timestamp_frame C1 a
  obtain ⟨b1, b2, b3, b4, b5, b6, b7, b8, b9⟩ := refresh_timestamp_frame C2 b
  refine ⟨by rw [a1, b1, h.speed], by rw [a2, b2, h.outputInvalid],
    by rw [a3, b3, a7, b7]; exact h.source, ?_, by rw [a4, b4, h.buffer],
    by rw [a5, b5, h.position], by rw [a6, b6, h.scan], by rw [a8, b8, h.closed],
    by rw [a9, b9, h.legacy]⟩
  have hts := hal.timestamp _ _ _ _ h.source
  unfold stream.refresh_timestamp
  rw [← h.timestamp]
  split
  · exact hts
  · exact h.timestamp

theorem angularSpeed_alike {S1 K1 S2 K2 R : Type} (C1 : Collab S1 K1 R) (C2 : Collab S2 K2 R)
    (rel : S1 → K1 → S2 → K2 → Prop) (hal : alike C1 C2 rel)
    (a : stream S1 K1 R) (b : stream S2 K2 R) (h : same_streams rel a b) :
    stream.angularSpeed C1 a = stream.angularSpeed C2 b := by
  have hself : ∀ p, self_estimate C1 p = self_estimate C2 p := by
    intro p
    unfold self_estimate time_delta
    rw [hal.offsets]
  unfold stream.angularSpeed
  rw [h.speed, h.buffer]
  cases b.m_angularSpeed with
  | some w => rfl
  | none =>
    cases b.m_packet with
    | none => rfl
    | some p => simp only [hself]

theorem read_decode_alike {S1 K1 S2 K2 R : Type} (C1 : Collab S1 K1 R) (C2 : Collab S2 K2 R)
    (rel : S1 → K1 → S2 → K2 → Prop) (hal : alike C1 C2 rel)
    (a : stream S1 K1 R) (b : stream S2 K2 R) (h : same_streams rel a b) :
    (stream.read_decode C1 a).result = (stream.read_decode C2 b).result ∧
    (stream.read_decode C1 a).events = (stream.read_decode C2 b).events ∧
    same_streams rel (stream.read_decode C1 a).state (stream.read_decode C2 b).state := by
  have hr := refresh_alike C1 C2 rel hal a b h
  cases hp : a.m_packet with
  | none =>
    have hp2 : b.m_packet = none := by rw [← h.buffer, hp]
    rw [read_decode_null C1 a hp, read_decode_null C2 b hp2]
    exact ⟨rfl, rfl, hr⟩
  | some p =>
    have hp2 : b.m_packet = some p := by rw [← h.buffer, hp]
    obtain ⟨w1, hw1, hd1⟩ := read_decode_packet C1 a p hp
    obtain ⟨w2, hw2, hd2⟩ := read_decode_packet C2 b p hp2
    have hw : w1 = w2 := by
      have := angularSpeed_alike C1 C2 rel hal a b h
      rw [hw1, hw2] at this
      injection this
    subst hw
    rw [hd1, hd2, hal.builder, hal.validity, h.position, h.legacy, h.outputInvalid,
      hr.timestamp]
    refine ⟨rfl, rfl, ?_⟩
    exact ⟨hr.speed, hr.outputInvalid, hr.source, hr.timestamp, hr.buffer, rfl, hr.scan,
      hr.closed, hr.legacy⟩

theorem fetch_alike {S1 K1 S2 K2 R : Type} (C1 : Collab S1 K1 R) (C2 : Collab S2 K2 R)
    (rel : S1 → K1 → S2 → K2 → Prop) (hal : alike C1 C2 rel)
    (a : stream S1 K1 R) (b : stream S2 K2 R) (h : same_streams rel a b) :
    same_streams rel (stream.fetch C1 a) (stream.fetch C2 b) := by
  obtain ⟨h1, h2⟩ := hal.read _ _ _ _ h.source
  exact ⟨h.speed, h.outputInvalid, h2, h.timestamp, h1, rfl, h.scan, h.closed, h.legacy⟩

theorem count_scan_alike {S1 K1 S2 K2 R : Type} (C1 : Collab S1 K1 R) (C2 : Collab S2 K2 R)
    (rel : S1 → K1 → S2 → K2 → Prop) (hal : alike C1 C2 rel)
    (a : stream S1 K1 R) (b : stream S2 K2 R) (p : packet) (h : same_streams rel a b) :
    same_streams rel (stream.count_scan C1 a p) (stream.count_scan C2 b p) := by
  obtain ⟨h1, h2⟩ := hal.new_scan _ _ _ _ p h.source
  have hts := hal.timestamp _ _ _ _ h2
  refine ⟨h.speed, h.outputInvalid, h2, hts, h.buffer, h.position, ?_, h.closed, h.legacy⟩
  rw [count_scan_scan, count_scan_scan, h1, h.scan]

theorem read_body_alike {S1 K1 S2 K2 R : Type} (C1 : Collab S1 K1 R) (C2 : Collab S2 K2 R)
    (rel : S1 → K1 → S2 → K2 → Prop) (hal : alike C1 C2 rel)
    (a : stream S1 K1 R) (b : stream S2 K2 R) (h : same_streams rel a b) :
    (stream.read_body C1 a).result = (stream.read_body C2 b).result ∧
    (stream.read_body C1 a).events = (stream.read_body C2 b).events ∧
    same_streams rel (stream.read_body C1 a).state (stream.read_body C2 b).state := by
  have hidx : a.m_index.idx = b.m_index.idx := by rw [h.position]
  by_cases hx : a.m_index.idx < m_size
  · rw [read_body_within C1 a hx, read_body_within C2 b (by rw [← hidx]; exact hx)]
    exact read_decode_alike C1 C2 rel hal a b h
  · have hx1 : a.m_index.idx ≥ m_size := by omega
    have hx2 : b.m_index.idx ≥ m_size := by rw [← hidx]; exact hx1
    have hf := fetch_alike C1 C2 rel hal a b h
    cases hg : (stream.fetch C1 a).m_packet with
    | none =>
      have hg2 : (stream.fetch C2 b).m_packet = none := by rw [← hf.buffer, hg]
      rw [read_body_no_packet C1 a hx1 hg, read_body_no_packet C2 b hx2 hg2, hidx]
      exact ⟨rfl, rfl, hf⟩
    | some p =>
      have hg2 : (stream.fetch C2 b).m_packet = some p := by rw [← hf.buffer, hg]
      rw [read_body_packet C1 a p hx1 hg, read_body_packet C2 b p hx2 hg2, hidx]
      obtain ⟨d1, d2, d3⟩ := read_decode_alike C1 C2 rel hal _ _
        (count_scan_alike C1 C2 rel hal _ _ p hf)
      exact ⟨d1, by rw [d2], d3⟩

theorem read_alike {S1 K1 S2 K2 R : Type} (C1 : Collab S1 K1 R) (C2 : Collab S2 K2 R)
    (rel : S1 → K1 → S2 → K2 → Prop) (hal : alike C1 C2 rel) (fuel : Nat)
    (a : stream S1 K1 R) (b : stream S2 K2 R) (h : same_streams rel a b) :
    (stream.read C1 fuel a).result = (stream.read C2 fuel b).result ∧
    (stream.read C1 fuel a).events = (stream.read C2 fuel b).events ∧
    same_streams rel (stream.read C1 fuel a).state (stream.read C2 fuel b).state := by
  induction fuel generalizing a b with
  | zero =>
    cases hc : a.m_closed with
    | true =>
      rw [read_closed C1 0 a hc, read_closed C2 0 b (by rw [← h.closed, hc])]
      exact ⟨rfl, rfl, h⟩
    | false =>
      rw [read_zero_open C1 a hc, read_zero_open C2 b (by rw [← h.closed, hc])]
      exact ⟨rfl, rfl, h⟩
  | succ n ih =>
    cases hc : a.m_closed with
    | true =>
      rw [read_closed C1 (n + 1) a hc, read_closed C2 (n + 1) b (by rw [← h.closed, hc])]
      exact ⟨rfl, rfl, h⟩
    | false =>
      have hc2 : b.m_closed = false := by rw [← h.closed, hc]
      obtain ⟨b1, b2, b3⟩ := read_body_alike C1 C2 rel hal a b h
      cases hr : (stream.read_body C1 a).result with
      | some o =>
        rw [read_succ_return C1 n a o hc hr,
          read_succ_return C2 n b o hc2 (by rw [← b1, hr])]
        exact ⟨rfl, b2, b3⟩
      | none =>
        rw [read_succ_continue C1 n a hc hr,
          read_succ_continue C2 n b hc2 (by rw [← b1, hr])]
        obtain ⟨i1, i2, i3⟩ := ih _ _ b3
        exact ⟨i1, by rw [b2, i2], i3⟩

theorem skip_scan_body_alike {S1 K1 S2 K2 R : Type} (C1 : Collab S1 K1 R)
    (C2 : Collab S2 K2 R) (rel : S1 → K1 → S2 → K2 → Prop) (hal : alike C1 C2 rel)
    (a : stream S1 K1 R) (b : stream S2 K2 R) (h : same_streams rel a b) :
    (stream.skip_scan_body C1 a).result = (stream.skip_scan_body C2 b).result ∧
    (stream.skip_scan_body C1 a).events = (stream.skip_scan_body C2 b).events ∧
    same_streams rel (stream.skip_scan_body C1 a).state (stream.skip_scan_body C2 b).state := by
  have hidx : a.m_index.idx = b.m_index.idx := by rw [h.position]
  have hf := fetch_alike C1 C2 rel hal a b h
  cases hg : (stream.fetch C1 a).m_packet with
  | none =>
    have hg2 : (stream.fetch C2 b).m_packet = none := by rw [← hf.buffer, hg]
    rw [skip_scan_body_end C1 a hg, skip_scan_body_end C2 b hg2, hidx]
    exact ⟨rfl, rfl, hf⟩
  | some p =>
    have hg2 : (stream.fetch C2 b).m_packet = some p := by rw [← hf.buffer, hg]
    obtain ⟨t1, t2⟩ := hal.tick _ _ _ _ p hf.source
    obtain ⟨n1, n2⟩ := hal.new_scan _ _ _ _ p t2
    unfold stream.skip_scan_body
    simp only [hg, hg2, hidx]
    rw [t1, n1]
    by_cases h1 : (C2.tick_is_new_scan (stream.fetch C2 b).m_tick p).1 = true
    · rw [if_pos h1, if_pos h1]
      exact ⟨rfl, rfl, hf.speed, hf.outputInvalid, t2, hf.timestamp, rfl, hf.position,
        by simp only [hf.scan], hf.closed, hf.legacy⟩
    · rw [if_neg h1, if_neg h1]
      by_cases h2 : (C2.traits_is_new_scan (C2.tick_is_new_scan (stream.fetch C2 b).m_tick p).2
          (stream.fetch C2 b).m_stream p).1 = true
      · rw [if_pos h2, if_pos h2]
        exact ⟨rfl, rfl, hf.speed, hf.outputInvalid, n2, hf.timestamp, rfl, hf.position,
          by simp only [hf.scan], hf.closed, hf.legacy⟩
      · rw [if_neg h2, if_neg h2]
        exact ⟨rfl, rfl, hf.speed, hf.outputInvalid, n2, hf.timestamp, rfl, hf.position,
          hf.scan, hf.closed, hf.legacy⟩

theorem skip_scan_alike {S1 K1 S2 K2 R : Type} (C1 : Collab S1 K1 R) (C2 : Collab S2 K2 R)
    (rel : S1 → K1 → S2 → K2 → Prop) (hal : alike C1 C2 rel) (fuel : Nat)
    (a : stream S1 K1 R) (b : stream S2 K2 R) (h : same_streams rel a b) :
    (stream.skip_scan C1 fuel a).result = (stream.skip_scan C2 fuel b).result ∧
    (stream.skip_scan C1 fuel a).events = (stream.skip_scan C2 fuel b).events ∧
    same_streams rel (stream.skip_scan C1 fuel a).state (stream.skip_scan C2 fuel b).state := by
  induction fuel generalizing a b with
  | zero =>
    cases hc : a.m_closed with
    | true =>
      rw [skip_scan_closed C1 0 a hc, skip_scan_closed C2 0 b (by rw [← h.closed, hc])]
      exact ⟨rfl, rfl, h⟩
    | false =>
      rw [skip_scan_zero_open C1 a hc, skip_scan_zero_open C2 b (by rw [← h.closed, hc])]
      exact ⟨rfl, rfl, h⟩
  | succ n ih =>
    cases hc : a.m_closed with
    | true =>
      rw [skip_scan_closed C1 (n + 1) a hc,
        skip_scan_closed C2 (n + 1) b (by rw [← h.closed, hc])]
      exact ⟨rfl, rfl, h⟩
    | false =>
      have hc2 : b.m_closed = false := by rw [← h.closed, hc]
      obtain ⟨b1, b2, b3⟩ := skip_scan_body_alike C1 C2 rel hal a b h
      cases hr : (stream.skip_scan_body C1 a).result with
      | some o =>
        rw [skip_scan_succ_return C1 n a hc hr,
          skip_scan_succ_return C2 n b hc2 (by rw [← b1, hr])]
        exact ⟨rfl, b2, b3⟩
      | none =>
        rw [skip_scan_succ_continue C1 n a hc hr,
          skip_scan_succ_continue C2 n b hc2 (by rw [← b1, hr])]
        obtain ⟨i1, i2, i3⟩ := ih _ _ b3
        exact ⟨i1, by rw [b2, i2], i3⟩

theorem call_alike {S1 K1 S2 K2 R : Type} (C1 : Collab S1 K1 R) (C2 : Collab S2 K2 R)
    (rel : S1 → K1 → S2 → K2 → Prop) (hal : alike C1 C2 rel) (c : Call)
    (a : stream S1 K1 R) (b : stream S2 K2 R) (h : same_streams rel a b) :
    (stream.call C1 c a).result = (stream.call C2 c b).result ∧
    (stream.call C1 c a).events = (stream.call C2 c b).events ∧
    same_streams rel (stream.call C1 c a).state (stream.call C2 c b).state := by
  cases c with
  | read fuel =>
    obtain ⟨r1, r2, r3⟩ := read_alike C1 C2 rel hal fuel a b h
    exact ⟨by simp only [stream.call, r1], r2, r3⟩
  | skip_scan fuel =>
    obtain ⟨r1, r2, r3⟩ := skip_scan_alike C1 C2 rel hal fuel a b h
    exact ⟨by simp only [stream.call, r1], r2, r3⟩
  | close =>
    refine ⟨rfl, rfl, h.speed, h.outputInvalid, hal.close _ _ _ _ h.source, h.timestamp,
      h.buffer, h.position, h.scan, rfl, h.legacy⟩

theorem run_alike {S1 K1 S2 K2 R : Type} (C1 : Collab S1 K1 R) (C2 : Collab S2 K2 R)
    (rel : S1 → K1 → S2 → K2 → Prop) (hal : alike C1 C2 rel) (calls : List Call)
    (a : stream S1 K1 R) (b : stream S2 K2 R) (h : same_streams rel a b) :
    (stream.run C1 calls a).result = (stream.run C2 calls b).result ∧
    (stream.run C1 calls a).events = (stream.run C2 calls b).events ∧
    same_streams rel (stream.run C1 calls a).state (stream.run C2 calls b).state := by
  induction calls generalizing a b with
  | nil => exact ⟨rfl, rfl, h⟩
  | cons c cs ih =>
    obtain ⟨c1, c2, c3⟩ := call_alike C1 C2 rel hal c a b h
    obtain ⟨i1, i2, i3⟩ := ih _ _ c3
    unfold stream.run
    simp only
    rw [← c1]
    split
    · exact ⟨rfl, c2, c3⟩
    · exact ⟨rfl, c2, c3⟩
    · exact ⟨by rw [i1], by rw [c2, i2], i3⟩

theorem construct_alike {S1 K1 S2 K2 R : Type} (C1 : Collab S1 K1 R) (C2 : Collab S2 K2 R)
    (rel : S1 → K1 → S2 → K2 → Prop) (src1 : S1) (src2 : S2)
    (hsrc : rel src1 C1.tick_default src2 C2.tick_default)
    (mode : Option Nat) (outputInvalid legacy : Bool) :
    same_streams rel (stream.construct C1 src1 mode outputInvalid legacy)
      (stream.construct C2 src2 mode outputInvalid legacy) := by
  cases mode with
  | none => exact ⟨rfl, rfl, hsrc, rfl, rfl, rfl, rfl, rfl, rfl⟩
  | some rpm => exact ⟨rfl, rfl, hsrc, rfl, rfl, rfl, rfl, rfl, rfl⟩

/-- C20: two fresh streams constructed with the same mode, outputInvalid and
legacy flags over sources that deliver the same packets, timestamps and
boundary signals, and driven by the same sequence of calls, hand back the same
replies (the same laser returns in the same order), make the same calls with
the same arguments, and end with the same scan(). -/
theorem decoding_is_deterministic {S1 K1 S2 K2 R : Type} (C1 : Collab S1 K1 R)
    (C2 : Collab S2 K2 R) (rel : S1 → K1 → S2 → K2 → Prop) (src1 : S1) (src2 : S2)
    (mode : Option Nat) (outputInvalid legacy : Bool) (calls : List Call)
    (hal : alike C1 C2 rel) (hsrc : rel src1 C1.tick_default src2 C2.tick_default) :
    (stream.run C1 calls (stream.construct C1 src1 mode outputInvalid legacy)).result =
      (stream.run C2 calls (stream.construct C2 src2 mode outputInvalid legacy)).result ∧
    (stream.run C1 calls (stream.construct C1 src1 mode outputInvalid legacy)).events =
      (stream.run C2 calls (stream.construct C2 src2 mode outputInvalid legacy)).events ∧
    stream.scan (stream.run C1 calls
        (stream.construct C1 src1 mode outputInvalid legacy)).state =
      stream.scan (stream.run C2 calls
        (stream.construct C2 src2 mode outputInvalid legacy)).state := by
  obtain ⟨h1, h2, h3⟩ := run_alike C1 C2 rel hal calls _ _
    (construct_alike C1 C2 rel src1 src2 hsrc mode outputInvalid legacy)
  exact ⟨h1, h2, h3.scan⟩

theorem replay_alike_socket : alike replay_C socket_C replay_like_socket := by
  refine ⟨?_, ?_, ?_, ?_, ?_, rfl, rfl, rfl⟩
  · intro s1 k1 s2 k2 h
    obtain ⟨h1, h2, h3⟩ := h
    cases hp : s1.pending with
    | nil =>
      rw [hp] at h1
      simp only [replay_C, replay_collab, socket_C, socket_collab, hp, h1, List.map_nil]
      exact ⟨trivial, by rw [hp]; exact h1, h2, h3⟩
    | cons e rest =>
      obtain ⟨p, t, b⟩ := e
      rw [hp] at h1
      simp only [replay_C, replay_collab, socket_C, socket_collab, hp, h1, List.map_cons]
      exact ⟨trivial, rfl, rfl, rfl⟩
  · intro s1 k1 s2 k2 p h
    exact ⟨h.2.2.symm, h⟩
  · intro s1 k1 s2 k2 p h
    exact ⟨rfl, h⟩
  · intro s1 k1 s2 k2 h
    exact h.2.1.symm
  · intro s1 k1 s2 k2 h
    exact ⟨rfl, h.2.1, h.2.2⟩

theorem decoding_is_deterministic_witness :
    (stream.run replay_C [Call.read 3, Call.skip_scan 2, Call.read 1, Call.close, Call.read 1]
        (stream.construct replay_C
          (replay.of [(flat_packet 1 1 1, 10, false), (flat_packet 2 2 0, 20, true)])
          none false true)).result =
      (stream.run socket_C
        [Call.read 3, Call.skip_scan 2, Call.read 1, Call.close, Call.read 1]
        (stream.construct socket_C
          (socket.of [some (flat_packet 1 1 1, 10, false), some (flat_packet 2 2 0, 20, true)])
          none false true)).result :=
  (decoding_is_deterministic replay_C socket_C replay_like_socket
    (replay.of [(flat_packet 1 1 1, 10, false), (flat_packet 2 2 0, 20, true)])
    (socket.of [some (flat_packet 1 1 1, 10, false), some (flat_packet 2 2 0, 20, true)])
    none false true [Call.read 3, Call.skip_scan 2, Call.read 1, Call.close, Call.read 1]
    replay_alike_socket ⟨rfl, rfl, rfl⟩).1

/-! ## Closed and fresh streams -/

/-- C26: skip_scan on a closed stream makes no call to the source and leaves
the whole stream state, in particular the scan counter, the sequencer position
and the buffered packet, unchanged. -/
theorem skip_scan_on_closed_stream {S K R : Type} (C : Collab S K R) (st : stream S K R)
    (fuel : Nat) (hc : st.m_closed = true) :
    (stream.skip_scan C fuel st).events = [] ∧
    fetched (stream.skip_scan C fuel st).events = 0 ∧
    (stream.skip_scan C fuel st).result = some () ∧
    (stream.skip_scan C fuel st).state = st ∧
    stream.scan (stream.skip_scan C fuel st).state = stream.scan st ∧
    (stream.skip_scan C fuel st).state.m_index = st.m_index ∧
    (stream.skip_scan C fuel st).state.m_packet = st.m_packet := by
  rw [skip_scan_closed C fuel st hc]
  exact ⟨rfl, rfl, rfl, rfl, rfl, rfl, rfl⟩

theorem skip_scan_on_closed_stream_witness :
    (stream.skip_scan replay_C 7
        (stream.close replay_C (replay_stream [(flat_packet 1 1 1, 10, true)])).state).events =
      [] ∧
    fetched (stream.skip_scan replay_C 7
        (stream.close replay_C
          (replay_stream [(flat_packet 1 1 1, 10, true)])).state).events = 0 ∧
    (stream.skip_scan replay_C 7
        (stream.close replay_C (replay_stream [(flat_packet 1 1 1, 10, true)])).state).result =
      some () ∧
    (stream.skip_scan replay_C 7
        (stream.close replay_C (replay_stream [(flat_packet 1 1 1, 10, true)])).state).state =
      (stream.close replay_C (replay_stream [(flat_packet 1 1 1, 10, true)])).state ∧
    stream.scan (stream.skip_scan replay_C 7
        (stream.close replay_C (replay_stream [(flat_packet 1 1 1, 10, true)])).state).state =
      stream.scan (stream.close replay_C
        (replay_stream [(flat_packet 1 1 1, 10, true)])).state ∧
    (stream.skip_scan replay_C 7
        (stream.close replay_C
          (replay_stream [(flat_packet 1 1 1, 10, true)])).state).state.m_index =
      (stream.close replay_C (replay_stream [(flat_packet 1 1 1, 10, true)])).state.m_index ∧
    (stream.skip_scan replay_C 7
        (stream.close replay_C
          (replay_stream [(flat_packet 1 1 1, 10, true)])).state).state.m_packet =
      (stream.close replay_C (replay_stream [(flat_packet 1 1 1, 10, true)])).state.m_packet :=
  skip_scan_on_closed_stream replay_C
    (stream.close replay_C (replay_stream [(flat_packet 1 1 1, 10, true)])).state 7 rfl

theorem read_first_events {S K R : Type} (C : Collab S K R) (fuel : Nat) (st : stream S K R)
    (hc : st.m_closed = false) :
    ∃ rest, (stream.read C (fuel + 1) st).events = (stream.read_body C st).events ++ rest := by
  cases hr : (stream.read_body C st).result with
  | some o =>
    rw [read_succ_return C fuel st o hc hr]
    exact ⟨[], by simp⟩
  | none =>
    rw [read_succ_continue C fuel st hc hr]
    exact ⟨_, rfl⟩

theorem read_body_fetch_decode {S K R : Type} (C : Collab S K R) (st : stream S K R)
    (p : packet) (hi : st.m_index.idx ≥ m_size) (hp : (C.traits_read st.m_stream).1 = some p) :
    (stream.read_body C st).events =
      [Event.fetch st.m_index.idx (some p),
        Event.decode p 0 0
          (C.traits_timestamp (C.traits_is_new_scan st.m_tick (C.traits_read st.m_stream).2 p).2.2)
          (speed_for C st.m_angularSpeed p) st.m_legacy] ∧
    (stream.read_body C st).result =
      (if emitted C st.m_outputInvalid
          (C.get_laser_return p 0 0
            (C.traits_timestamp
              (C.traits_is_new_scan st.m_tick (C.traits_read st.m_stream).2 p).2.2)
            (speed_for C st.m_angularSpeed p) st.m_legacy) = true
        then some (read_result.point
          (C.get_laser_return p 0 0
            (C.traits_timestamp
              (C.traits_is_new_scan st.m_tick (C.traits_read st.m_stream).2 p).2.2)
            (speed_for C st.m_angularSpeed p) st.m_legacy))
        else none) := by
  have hg : (stream.fetch C st).m_packet = some p := hp
  have hp3 : (stream.count_scan C (stream.fetch C st) p).m_packet = some p := hg
  obtain ⟨w, hw, hd⟩ := read_decode_packet C (stream.count_scan C (stream.fetch C st) p) p hp3
  rw [angularSpeed_speed_for C _ p hp3] at hw
  injection hw with hw
  have ht := refresh_timestamp_value C (stream.count_scan C (stream.fetch C st) p)
    (C.traits_timestamp (C.traits_is_new_scan st.m_tick (C.traits_read st.m_stream).2 p).2.2)
    rfl rfl
  rw [read_body_packet C st p hi hg, hd, ht, ← hw]
  exact ⟨rfl, rfl⟩

/-- C25: a freshly constructed stream (either constructor) is open with
idx = 384; if the source delivers a packet, the first pass of its first read
makes one fetch and then builds the return of that packet's slot (0, 0), with
the packet's timestamp and the stream's angular speed, and hands it out
unless it is invalid and invalid returns are not emitted; if the source
delivers nothing, the read returns end-of-stream after that one fetch. -/
theorem fresh_stream_first_read {S K R : Type} (C : Collab S K R) (src : S)
    (mode : Option Nat) (outputInvalid legacy : Bool) (fuel : Nat) :
    (stream.construct C src mode outputInvalid legacy).m_closed = false ∧
    (stream.construct C src mode outputInvalid legacy).m_index.idx = 384 ∧
    stream.scan (stream.construct C src mode outputInvalid legacy) = 0 ∧
    (∀ p, (C.traits_read src).1 = some p →
      (stream.read_body C (stream.construct C src mode outputInvalid legacy)).events =
        [Event.fetch 384 (some p),
          Event.decode p 0 0
            (C.traits_timestamp (C.traits_is_new_scan C.tick_default (C.traits_read src).2 p).2.2)
            (speed_for C (stream.construct C src mode outputInvalid legacy).m_angularSpeed p)
            legacy] ∧
      (stream.read_body C (stream.construct C src mode outputInvalid legacy)).result =
        (if emitted C outputInvalid
            (C.get_laser_return p 0 0
              (C.traits_timestamp
                (C.traits_is_new_scan C.tick_default (C.traits_read src).2 p).2.2)
              (speed_for C (stream.construct C src mode outputInvalid legacy).m_angularSpeed p)
              legacy) = true
          then some (read_result.point
            (C.get_laser_return p 0 0
              (C.traits_timestamp
                (C.traits_is_new_scan C.tick_default (C.traits_read src).2 p).2.2)
              (speed_for C (stream.construct C src mode outputInvalid legacy).m_angularSpeed p)
              legacy))
          else none) ∧
      ∃ rest, (stream.read C (fuel + 1)
          (stream.construct C src mode outputInvalid legacy)).events =
        Event.fetch 384 (some p) ::
          Event.decode p 0 0
            (C.traits_timestamp (C.traits_is_new_scan C.tick_default (C.traits_read src).2 p).2.2)
            (speed_for C (stream.construct C src mode outputInvalid legacy).m_angularSpeed p)
            legacy :: rest) ∧
    ((C.traits_read src).1 = none →
      (stream.read C (fuel + 1) (stream.construct C src mode outputInvalid legacy)).result =
        some read_result.end_of_stream ∧
      (stream.read C (fuel + 1) (stream.construct C src mode outputInvalid legacy)).events =
        [Event.fetch 384 none]) := by
  have hopen : (stream.construct C src mode outputInvalid legacy).m_closed = false := by
    cases mode <;> rfl
  have hidx : (stream.construct C src mode outputInvalid legacy).m_index.idx = 384 := by
    cases mode <;> rfl
  have hsrc : (stream.construct C src mode outputInvalid legacy).m_stream = src := by
    cases mode <;> rfl
  have htick : (stream.construct C src mode outputInvalid legacy).m_tick = C.tick_default := by
    cases mode <;> rfl
  have hleg : (stream.construct C src mode outputInvalid legacy).m_legacy = legacy := by
    cases mode <;> rfl
  have hoi := construct_outputInvalid C src mode outputInvalid legacy
  have hge : (stream.construct C src mode outputInvalid legacy).m_index.idx ≥ m_size := by
    rw [hidx]; decide
  refine ⟨hopen, hidx, by cases mode <;> rfl, ?_, ?_⟩
  · intro p hp
    obtain ⟨h1, h2⟩ := read_body_fetch_decode C
      (stream.construct C src mode outputInvalid legacy) p hge (by rw [hsrc]; exact hp)
    rw [hsrc, htick, hleg, hidx] at h1
    rw [hsrc, htick, hleg, hoi] at h2
    refine ⟨h1, h2, ?_⟩
    obtain ⟨rest, hrest⟩ := read_first_events C fuel
      (stream.construct C src mode outputInvalid legacy) hopen
    rw [h1] at hrest
    exact ⟨rest, hrest⟩
  · intro hn
    have hg : (stream.fetch C (stream.construct C src mode outputInvalid legacy)).m_packet =
        none := by
      show (C.traits_read (stream.construct C src mode outputInvalid legacy).m_stream).1 = none
      rw [hsrc]; exact hn
    have hb := read_body_no_packet C _ hge hg
    rw [read_succ_return C fuel _ read_result.end_of_stream hopen (by rw [hb]), hb, hidx]
    exact ⟨rfl, rfl⟩

theorem fresh_stream_first_read_witness :
    (∃ rest, (stream.read replay_C (2 + 1)
        (stream.construct replay_C (replay.of [(flat_packet 1 1 1, 10, true)]) none
          false false)).events =
      Event.fetch 384 (some (flat_packet 1 1 1)) ::
        Event.decode (flat_packet 1 1 1) 0 0
          (replay_C.traits_timestamp (replay_C.traits_is_new_scan replay_C.tick_default
            (replay_C.traits_read (replay.of [(flat_packet 1 1 1, 10, true)])).2
            (flat_packet 1 1 1)).2.2)
          (speed_for replay_C
            (stream.construct replay_C (replay.of [(flat_packet 1 1 1, 10, true)]) none
              false false).m_angularSpeed (flat_packet 1 1 1))
          false :: rest) ∧
    (stream.read replay_C (2 + 1)
      (stream.construct replay_C (replay.of []) (some 600) false false)).result =
      some read_result.end_of_stream :=
  ⟨((fresh_stream_first_read replay_C (replay.of [(flat_packet 1 1 1, 10, true)]) none
      false false 2).2.2.2.1 (flat_packet 1 1 1) rfl).2.2,
    ((fresh_stream_first_read replay_C (replay.of []) (some 600)
      false false 2).2.2.2.2 rfl).1⟩

/-! ## The two boundary detectors of `skip_scan` -/

set_option maxRecDepth 100000 in
/-- C21 (evaluated): over a recording of two packets with block-0 rotations
100 and 50, neither reported as a new scan by stream_traits::is_new_scan,
skip_scan stops at the second packet and raises scan() to 1, because the tick
watch reports it; read, consuming the same two packets (all returns invalid,
outputInvalid = false), ends with scan() = 0. -/
theorem skip_scan_combines_both_detectors :
    (stream.skip_scan watch_C 5
      (stream.construct watch_C
        (replay.of [(flat_packet 100 100 0, 10, false), (flat_packet 50 50 0, 20, false)])
        (some 600) false false)).result = some () ∧
    fetched (stream.skip_scan watch_C 5
      (stream.construct watch_C
        (replay.of [(flat_packet 100 100 0, 10, false), (flat_packet 50 50 0, 20, false)])
        (some 600) false false)).events = 2 ∧
    stream.scan (stream.skip_scan watch_C 5
      (stream.construct watch_C
        (replay.of [(flat_packet 100 100 0, 10, false), (flat_packet 50 50 0, 20, false)])
        (some 600) false false)).state = 1 ∧
    (watch_C.traits_is_new_scan 100
      (replay.mk [] (some 20) false) (flat_packet 50 50 0)).1 = false ∧
    (watch_C.tick_is_new_scan 100 (flat_packet 50 50 0)).1 = true ∧
    (stream.read watch_C 1000
      (stream.construct watch_C
        (replay.of [(flat_packet 100 100 0, 10, false), (flat_packet 50 50 0, 20, false)])
        (some 600) false false)).result = some read_result.end_of_stream ∧
    fetched (stream.read watch_C 1000
      (stream.construct watch_C
        (replay.of [(flat_packet 100 100 0, 10, false), (flat_packet 50 50 0, 20, false)])
        (some 600) false false)).events = 2 ∧
    stream.scan (stream.read watch_C 1000
      (stream.construct watch_C
        (replay.of [(flat_packet 100 100 0, 10, false), (flat_packet 50 50 0, 20, false)])
        (some 600) false false)).state = 0 := by
  refine ⟨?_, ?_, ?_, ?_, ?_, ?_, ?_, ?_⟩ <;> rfl

/-! ## Filtered and unfiltered output -/

theorem emitted_all {S K R : Type} (C : Collab S K R) (l : List R) :
    l.filter (emitted C true) = l := by
  rw [List.filter_eq_self]
  intro x _
  simp [emitted]

theorem emitted_valid {S K R : Type} (C : Collab S K R) :
    emitted C false = fun r => !C.range_equal_zero r := by
  funext r
  simp [emitted]

/-- C22: for the same source (a finite recording, then end-of-stream),
velocity mode and legacy flag, reading until end-of-stream (each read allowed
more than 384 * N passes) takes finitely many reads with outputInvalid = false
as with outputInvalid = true; the returns handed out with outputInvalid = false
are those handed out with outputInvalid = true (all returns of all packets)
with the returns of range 0 removed, and scan() at end-of-stream is the same
in both runs; the same holds for any two runs of reads that end with
end-of-stream. -/
theorem filtered_reads_refine_unfiltered {S K R : Type} (C : Collab S K R) (src : S)
    (mode : Option Nat) (legacy : Bool) (recording : List (packet × ptime × Bool))
    (hd : delivers C C.tick_default src recording) :
    (∀ f, 384 * recording.length < f →
      ∃ (nF : Nat) (psF : List R) (nT : Nat) (psT : List R),
        (stream.run C ((List.replicate nF f).map Call.read)
          (stream.construct C src mode false legacy)).result =
          some (psF.map (fun r => reply.read (read_result.point r)) ++
            [reply.read read_result.end_of_stream]) ∧
        (stream.run C ((List.replicate nT f).map Call.read)
          (stream.construct C src mode true legacy)).result =
          some (psT.map (fun r => reply.read (read_result.point r)) ++
            [reply.read read_result.end_of_stream]) ∧
        psF = psT.filter (fun r => !C.range_equal_zero r) ∧
        psT = recording_returns C (stream.construct C src mode true legacy).m_angularSpeed
          legacy recording ∧
        stream.scan (stream.run C ((List.replicate nF f).map Call.read)
            (stream.construct C src mode false legacy)).state =
          stream.scan (stream.run C ((List.replicate nT f).map Call.read)
            (stream.construct C src mode true legacy)).state) ∧
    (∀ (fuelsF fuelsT : List Nat) (repliesF repliesT : List (reply R)),
      (stream.run C (fuelsF.map Call.read)
        (stream.construct C src mode false legacy)).result = some repliesF →
      (stream.run C (fuelsT.map Call.read)
        (stream.construct C src mode true legacy)).result = some repliesT →
      repliesF.any reply.is_end = true → repliesT.any reply.is_end = true →
      points repliesF = (points repliesT).filter (fun r => !C.range_equal_zero r) ∧
      points repliesT =
        recording_returns C (stream.construct C src mode true legacy).m_angularSpeed legacy
          recording ∧
      stream.scan (stream.run C (fuelsF.map Call.read)
          (stream.construct C src mode false legacy)).state =
        stream.scan (stream.run C (fuelsT.map Call.read)
          (stream.construct C src mode true legacy)).state) := by
  have hany : ∀ (fuelsF fuelsT : List Nat) (repliesF repliesT : List (reply R)),
      (stream.run C (fuelsF.map Call.read)
        (stream.construct C src mode false legacy)).result = some repliesF →
      (stream.run C (fuelsT.map Call.read)
        (stream.construct C src mode true legacy)).result = some repliesT →
      repliesF.any reply.is_end = true → repliesT.any reply.is_end = true →
      points repliesF = (points repliesT).filter (fun r => !C.range_equal_zero r) ∧
      points repliesT =
        recording_returns C (stream.construct C src mode true legacy).m_angularSpeed legacy
          recording ∧
      stream.scan (stream.run C (fuelsF.map Call.read)
          (stream.construct C src mode false legacy)).state =
        stream.scan (stream.run C (fuelsT.map Call.read)
          (stream.construct C src mode true legacy)).state := by
    intro fuelsF fuelsT repliesF repliesT hF hT eF eT
    have hatF := construct_at_pending C src mode false legacy recording hd
    have hatT := construct_at_pending C src mode true legacy recording hd
    obtain ⟨f1, f2⟩ := (run_reads_pending C fuelsF _ _ _ hatF repliesF hF).2 eF
    obtain ⟨t1, t2⟩ := (run_reads_pending C fuelsT _ _ _ hatT repliesT hT).2 eT
    rw [construct_outputInvalid] at f1 t1
    have hmode : (stream.construct C src mode false legacy).m_angularSpeed =
        (stream.construct C src mode true legacy).m_angularSpeed := by
      cases mode <;> rfl
    rw [emitted_all] at t1
    rw [emitted_valid, hmode] at f1
    refine ⟨by rw [← f1, ← t1], t1.symm, ?_⟩
    unfold stream.scan
    rw [f2.2.2.2, t2.2.2.2]
  refine ⟨?_, hany⟩
  intro f hf
  obtain ⟨nF, psF, -, -, hF⟩ := fresh_reads_reach_end C src mode false legacy recording f hd hf
  obtain ⟨nT, psT, -, -, hT⟩ := fresh_reads_reach_end C src mode true legacy recording f hd hf
  obtain ⟨h1, h2, h3⟩ := hany (List.replicate nF f) (List.replicate nT f) _ _ hF hT
    (any_end_map_point psF) (any_end_map_point psT)
  rw [points_map_point, points_map_point] at h1
  rw [points_map_point] at h2
  exact ⟨nF, psF, nT, psT, hF, hT, h1, h2, h3⟩

theorem filtered_reads_refine_unfiltered_witness :
    ∃ (nF : Nat) (psF : List built) (nT : Nat) (psT : List built),
      (stream.run replay_C ((List.replicate nF 385).map Call.read)
        (stream.construct replay_C (replay.of [(flat_packet 1 1 0, 10, true)]) (some 600)
          false false)).result =
        some (psF.map (fun r => reply.read (read_result.point r)) ++
          [reply.read read_result.end_of_stream]) ∧
      (stream.run replay_C ((List.replicate nT 385).map Call.read)
        (stream.construct replay_C (replay.of [(flat_packet 1 1 0, 10, true)]) (some 600)
          true false)).result =
        some (psT.map (fun r => reply.read (read_result.point r)) ++
          [reply.read read_result.end_of_stream]) ∧
      psF = psT.filter (fun r => !replay_C.range_equal_zero r) ∧
      psT = recording_returns replay_C
        (stream.construct replay_C (replay.of [(flat_packet 1 1 0, 10, true)]) (some 600)
          true false).m_angularSpeed false (replay_script [(flat_packet 1 1 0, 10, true)]) ∧
      stream.scan (stream.run replay_C ((List.replicate nF 385).map Call.read)
          (stream.construct replay_C (replay.of [(flat_packet 1 1 0, 10, true)]) (some 600)
            false false)).state =
        stream.scan (stream.run replay_C ((List.replicate nT 385).map Call.read)
          (stream.construct replay_C (replay.of [(flat_packet 1 1 0, 10, true)]) (some 600)
            true false)).state :=
  (filtered_reads_refine_unfiltered replay_C (replay.of [(flat_packet 1 1 0, 10, true)])
    (some 600) false (replay_script [(flat_packet 1 1 0, 10, true)])
    (replay_delivers _ _ _ rfl)).1 385 (by decide)

/-! ## Reading after `skip_scan` -/

theorem skip_scan_body_frame {S K R : Type} (C : Collab S K R) (st : stream S K R) :
    (stream.skip_scan_body C st).state.m_index = index.fresh ∧
    (stream.skip_scan_body C st).state.m_closed = st.m_closed ∧
    (stream.skip_scan_body C st).state.m_legacy = st.m_legacy := by
  unfold stream.skip_scan_body
  cases hg : (stream.fetch C st).m_packet with
  | none => simp only [hg]; exact ⟨rfl, rfl, rfl⟩
  | some p =>
    simp only [hg]
    by_cases h1 : (C.tick_is_new_scan (stream.fetch C st).m_tick p).1 = true
    · rw [if_pos h1]; exact ⟨rfl, rfl, rfl⟩
    · rw [if_neg h1]
      by_cases h2 : (C.traits_is_new_scan (C.tick_is_new_scan (stream.fetch C st).m_tick p).2
          (stream.fetch C st).m_stream p).1 = true
      · rw [if_pos h2]; exact ⟨rfl, rfl, rfl⟩
      · rw [if_neg h2]; exact ⟨rfl, rfl, rfl⟩

theorem skip_scan_legacy {S K R : Type} (C : Collab S K R) (fuel : Nat) (st : stream S K R) :
    (stream.skip_scan C fuel st).state.m_legacy = st.m_legacy := by
  induction fuel generalizing st with
  | zero =>
    cases hc : st.m_closed with
    | true => rw [skip_scan_closed C 0 st hc]
    | false => rw [skip_scan_zero_open C st hc]
  | succ n ih =>
    cases hc : st.m_closed with
    | true => rw [skip_scan_closed C (n + 1) st hc]
    | false =>
      cases hr : (stream.skip_scan_body C st).result with
      | some o =>
        rw [skip_scan_succ_return C n st hc hr]
        exact (skip_scan_body_frame C st).2.2
      | none =>
        rw [skip_scan_succ_continue C n st hc hr]
        exact (ih _).trans (skip_scan_body_frame C st).2.2

theorem skip_scan_body_buffer {S K R : Type} (C : Collab S K R) (st : stream S K R) :
    (stream.skip_scan_body C st).events =
      [Event.fetch st.m_index.idx (stream.skip_scan_body C st).state.m_packet] := by
  unfold stream.skip_scan_body
  cases hg : (stream.fetch C st).m_packet with
  | none => simp only [hg]
  | some p =>
    simp only [hg]
    by_cases h1 : (C.tick_is_new_scan (stream.fetch C st).m_tick p).1 = true
    · rw [if_pos h1]
    · rw [if_neg h1]
      by_cases h2 : (C.traits_is_new_scan (C.tick_is_new_scan (stream.fetch C st).m_tick p).2
          (stream.fetch C st).m_stream p).1 = true
      · rw [if_pos h2]
      · rw [if_neg h2]

theorem skip_scan_last_fetch {S K R : Type} (C : Collab S K R) (fuel : Nat)
    (st : stream S K R) (hc : st.m_closed = false)
    (hret : (stream.skip_scan C fuel st).result = some ()) :
    ∃ pre i, (stream.skip_scan C fuel st).events =
        pre ++ [Event.fetch i (stream.skip_scan C fuel st).state.m_packet] ∧
      ∀ e ∈ pre, e.is_fetch = true := by
  induction fuel generalizing st with
  | zero =>
    rw [skip_scan_zero_open C st hc] at hret
    cases hret
  | succ n ih =>
    cases hr : (stream.skip_scan_body C st).result with
    | some o =>
      rw [skip_scan_succ_return C n st hc hr]
      exact ⟨[], st.m_index.idx, skip_scan_body_buffer C st, fun e he => (by cases he)⟩
    | none =>
      rw [skip_scan_succ_continue C n st hc hr] at hret ⊢
      have hc2 : (stream.skip_scan_body C st).state.m_closed = false :=
        (skip_scan_body_frame C st).2.1.trans hc
      obtain ⟨pre, i, hev, hpre⟩ := ih _ hc2 hret
      refine ⟨(stream.skip_scan_body C st).events ++ pre, i, ?_, ?_⟩
      · show (stream.skip_scan_body C st).events ++ _ = _
        rw [hev, List.append_assoc]
      · intro e he
        rcases List.mem_append.1 he with h | h
        · rw [skip_scan_body_buffer C st] at h
          rcases List.mem_singleton.1 h with rfl
          rfl
        · exact hpre e h

theorem skip_scan_returned_frame {S K R : Type} (C : Collab S K R) (fuel : Nat)
    (st : stream S K R) (hc : st.m_closed = false)
    (hret : (stream.skip_scan C fuel st).result = some ()) :
    (stream.skip_scan C fuel st).state.m_index = index.fresh ∧
    (stream.skip_scan C fuel st).state.m_closed = false := by
  induction fuel generalizing st with
  | zero =>
    rw [skip_scan_zero_open C st hc] at hret
    cases hret
  | succ n ih =>
    obtain ⟨b1, b2, -⟩ := skip_scan_body_frame C st
    cases hr : (stream.skip_scan_body C st).result with
    | some o =>
      rw [skip_scan_succ_return C n st hc hr]
      exact ⟨b1, b2.trans hc⟩
    | none =>
      rw [skip_scan_succ_continue C n st hc hr] at hret ⊢
      exact ih _ (b2.trans hc) hret

theorem sequenced_same_packet (pre post : List Event) (p q : packet) (k b l : Nat)
    (t : ptime) (w : DoubleVal) (lg : Bool)
    (h : sequenced (some (p, k)) (pre ++ Event.decode q b l t w lg :: post))
    (hpre : ∀ e ∈ pre, e.is_fetch = false) : q = p := by
  induction pre generalizing k with
  | nil =>
    simp only [List.nil_append, sequenced] at h
    obtain ⟨k2, -, hcur, -, -⟩ := h
    injection hcur with hcur
    injection hcur with hq _
    exact hq.symm
  | cons e rest ih =>
    cases e with
    | fetch i g =>
      have := hpre (Event.fetch i g) (List.mem_cons_self _ _)
      simp [Event.is_fetch] at this
    | decode q2 b2 l2 t2 w2 lg2 =>
      simp only [List.cons_append, sequenced] at h
      obtain ⟨k2, -, hcur, -, hrest⟩ := h
      injection hcur with hcur
      injection hcur with hq hk
      subst hq
      exact ih (k2 + 1) hrest (fun e he => hpre e (List.mem_cons_of_mem _ he))
    | null_deref =>
      simp only [List.cons_append, sequenced] at h
      exact absurd h (by simp)
    | close_source => simp only [List.cons_append, sequenced] at h

/-- C24: when skip_scan on an open stream returns with a packet buffered,
that is, because a boundary was observed, that packet is the one skip_scan
fetched last, skip_scan built no return, and the index is reset to slot (0, 0);
the next read starts, without a fetch, by building the return of slot (0, 0)
of that packet, and every return built by the following reads before their
next fetch is of that packet, none of the packet buffered before skip_scan. -/
theorem read_after_skip_scan {S K R : Type} (C : Collab S K R) (st : stream S K R)
    (fuel : Nat) (p : packet) (hc : st.m_closed = false)
    (hret : (stream.skip_scan C fuel st).result = some ())
    (hp : (stream.skip_scan C fuel st).state.m_packet = some p) :
    (∃ pre i, (stream.skip_scan C fuel st).events = pre ++ [Event.fetch i (some p)] ∧
      ∀ e ∈ pre, e.is_fetch = true) ∧
    (stream.skip_scan C fuel st).state.m_index = { idx := 0, block := 0, laser := 0 } ∧
    (∃ t w, (stream.read_body C (stream.skip_scan C fuel st).state).events =
      [Event.decode p 0 0 t w st.m_legacy]) ∧
    (∀ f, ∃ t w rest, (stream.read C (f + 1) (stream.skip_scan C fuel st).state).events =
      Event.decode p 0 0 t w st.m_legacy :: rest) ∧
    (∀ (fuels : List Nat) pre post q b l t w lg,
      (stream.run C (fuels.map Call.read) (stream.skip_scan C fuel st).state).events =
        pre ++ Event.decode q b l t w lg :: post →
      (∀ e ∈ pre, e.is_fetch = false) → q = p) := by
  obtain ⟨hidx, hopen⟩ := skip_scan_returned_frame C fuel st hc hret
  have hlt : (stream.skip_scan C fuel st).state.m_index.idx < m_size := by
    rw [hidx]; decide
  obtain ⟨w, -, hd⟩ := read_decode_packet C _ p hp
  have hbody : (stream.read_body C (stream.skip_scan C fuel st).state).events =
      [Event.decode p 0 0
        (stream.refresh_timestamp C (stream.skip_scan C fuel st).state).m_timestamp w
        (stream.skip_scan C fuel st).state.m_legacy] := by
    rw [read_body_within C _ hlt, hd, hidx]
    rfl
  have hleg := skip_scan_legacy C fuel st
  rw [hleg] at hbody
  have hlast := skip_scan_last_fetch C fuel st hc hret
  rw [hp] at hlast
  refine ⟨hlast, hidx, ⟨_, w, hbody⟩, ?_, ?_⟩
  · intro f
    obtain ⟨rest, hrest⟩ := read_first_events C f _ hopen
    rw [hbody] at hrest
    exact ⟨_, w, rest, hrest⟩
  · intro fuels pre post q b l t w2 lg hev hpre
    have hb : buffered (stream.skip_scan C fuel st).state (some (p, 0)) :=
      ⟨hopen, hp, hidx, Nat.zero_le _⟩
    have hseq := run_reads_sequenced C fuels _ _ hb
    rw [hev] at hseq
    exact sequenced_same_packet pre post p q 0 b l t w2 lg hseq hpre

theorem read_after_skip_scan_witness :
    (stream.skip_scan replay_C 3
        (stream.read replay_C 1
          (replay_stream [(flat_packet 1 1 1, 10, false), (flat_packet 2 2 1, 20, true)])).state
        ).state.m_index = { idx := 0, block := 0, laser := 0 } ∧
    ∃ t w, (stream.read_body replay_C
        (stream.skip_scan replay_C 3
          (stream.read replay_C 1
            (replay_stream [(flat_packet 1 1 1, 10, false),
              (flat_packet 2 2 1, 20, true)])).state).state).events =
      [Event.decode (flat_packet 2 2 1) 0 0 t w
        (stream.read replay_C 1
          (replay_stream [(flat_packet 1 1 1, 10, false),
            (flat_packet 2 2 1, 20, true)])).state.m_legacy] :=
  ⟨(read_after_skip_scan replay_C
      (stream.read replay_C 1
        (replay_stream [(flat_packet 1 1 1, 10, false), (flat_packet 2 2 1, 20, true)])).state
      3 (flat_packet 2 2 1) rfl rfl rfl).2.1,
    (read_after_skip_scan replay_C
      (stream.read replay_C 1
        (replay_stream [(flat_packet 1 1 1, 10, false), (flat_packet 2 2 1, 20, true)])).state
      3 (flat_packet 2 2 1) rfl rfl rfl).2.2.1⟩

/-! ## The index stays inside the packet -/

theorem index_after_in_packet (k : Nat) (h : k < m_size) :
    (index.after k).idx = k ∧ (index.after k).block < 12 ∧ (index.after k).laser < 32 ∧
      (index.after k).idx =
        64 * ((index.after k).block / 2) + 2 * (index.after k).laser +
          (index.after k).block % 2 := by
  have hk : k < 384 := h
  rw [index_after_closed_form k (by omega)]
  refine ⟨rfl, ?_, ?_, ?_⟩ <;> simp only <;> omega

theorem in_packet_fresh : index.in_packet index.fresh :=
  fun _ => ⟨0, by decide, rfl⟩

theorem in_packet_inc (i : index) (hin : index.in_packet i) (hl : i.idx < m_size) :
    index.in_packet i.inc := by
  obtain ⟨k, hk, rfl⟩ := hin hl
  have hk2 : k < 384 := hk
  have hs : index.inc (index.after k) = index.after (k + 1) := by
    unfold index.after
    exact (Function.iterate_succ_apply' index.inc k index.fresh).symm
  rw [hs]
  intro h
  rw [index_after_closed_form (k + 1) (by omega)] at h
  exact ⟨k + 1, h, rfl⟩

theorem read_decode_in_packet {S K R : Type} (C : Collab S K R) (st : stream S K R)
    (hin : index.in_packet st.m_index) (hl : st.m_index.idx < m_size) :
    index.in_packet (stream.read_decode C st).state.m_index ∧
    ∀ p b l t w lg, Event.decode p b l t w lg ∈ (stream.read_decode C st).events →
      b < 12 ∧ l < 32 := by
  have hi := (refresh_timestamp_frame C st).2.2.2.2.1
  cases hp : st.m_packet with
  | none =>
    rw [read_decode_null C st hp]
    refine ⟨?_, ?_⟩
    · show index.in_packet (stream.refresh_timestamp C st).m_index
      rw [hi]; exact hin
    · intro p b l t w lg he
      rcases List.mem_singleton.1 he with h
      cases h
  | some q =>
    obtain ⟨w, -, hd⟩ := read_decode_packet C st q hp
    rw [hd]
    refine ⟨in_packet_inc _ hin hl, ?_⟩
    intro p b l t w2 lg he
    rcases List.mem_singleton.1 he with h
    injection h with _ hb hlas
    obtain ⟨k, hk, hik⟩ := hin hl
    obtain ⟨-, h1, h2, -⟩ := index_after_in_packet k hk
    rw [hb, hlas, hik]
    exact ⟨h1, h2⟩

theorem read_body_in_packet {S K R : Type} (C : Collab S K R) (st : stream S K R)
    (hin : index.in_packet st.m_index) :
    index.in_packet (stream.read_body C st).state.m_index ∧
    ∀ p b l t w lg, Event.decode p b l t w lg ∈ (stream.read_body C st).events →
      b < 12 ∧ l < 32 := by
  by_cases hl : st.m_index.idx < m_size
  · rw [read_body_within C st hl]
    exact read_decode_in_packet C st hin hl
  · have hge : st.m_index.idx ≥ m_size := by omega
    cases hg : (stream.fetch C st).m_packet with
    | none =>
      rw [read_body_no_packet C st hge hg]
      refine ⟨in_packet_fresh, ?_⟩
      intro p b l t w lg he
      rcases List.mem_singleton.1 he with h
      cases h
    | some q =>
      rw [read_body_packet C st q hge hg]
      have hzero : (0 : Nat) < m_size := by decide
      obtain ⟨h1, h2⟩ := read_decode_in_packet C (stream.count_scan C (stream.fetch C st) q)
        in_packet_fresh hzero
      refine ⟨h1, ?_⟩
      intro p b l t w lg he
      rcases List.mem_cons.1 he with h | h
      · cases h
      · exact h2 p b l t w lg h

theorem read_in_packet {S K R : Type} (C : Collab S K R) (fuel : Nat) (st : stream S K R)
    (hin : index.in_packet st.m_index) :
    index.in_packet (stream.read C fuel st).state.m_index ∧
    ∀ p b l t w lg, Event.decode p b l t w lg ∈ (stream.read C fuel st).events →
      b < 12 ∧ l < 32 := by
  induction fuel generalizing st with
  | zero =>
    cases hc : st.m_closed with
    | true =>
      rw [read_closed C 0 st hc]
      exact ⟨hin, fun p b l t w lg he => (by cases he)⟩
    | false =>
      rw [read_zero_open C st hc]
      exact ⟨hin, fun p b l t w lg he => (by cases he)⟩
  | succ n ih =>
    cases hc : st.m_closed with
    | true =>
      rw [read_closed C (n + 1) st hc]
      exact ⟨hin, fun p b l t w lg he => (by cases he)⟩
    | false =>
      obtain ⟨b1, b2⟩ := read_body_in_packet C st hin
      cases hr : (stream.read_body C st).result with
      | some o =>
        rw [read_succ_return C n st o hc hr]
        exact ⟨b1, b2⟩
      | none =>
        rw [read_succ_continue C n st hc hr]
        obtain ⟨r1, r2⟩ := ih _ b1
        refine ⟨r1, ?_⟩
        intro p b l t w lg he
        rcases List.mem_append.1 he with h | h
        · exact b2 p b l t w lg h
        · exact r2 p b l t w lg h

theorem skip_scan_in_packet {S K R : Type} (C : Collab S K R) (fuel : Nat)
    (st : stream S K R) (hin : index.in_packet st.m_index) :
    index.in_packet (stream.skip_scan C fuel st).state.m_index ∧
    ∀ p b l t w lg, Event.decode p b l t w lg ∈ (stream.skip_scan C fuel st).events →
      b < 12 ∧ l < 32 := by
  refine ⟨?_, ?_⟩
  · induction fuel generalizing st with
    | zero =>
      cases hc : st.m_closed with
      | true => rw [skip_scan_closed C 0 st hc]; exact hin
      | false => rw [skip_scan_zero_open C st hc]; exact hin
    | succ n ih =>
      cases hc : st.m_closed with
      | true => rw [skip_scan_closed C (n + 1) st hc]; exact hin
      | false =>
        have hb : index.in_packet (stream.skip_scan_body C st).state.m_index := by
          rw [(skip_scan_body_frame C st).1]; exact in_packet_fresh
        cases hr : (stream.skip_scan_body C st).result with
        | some o =>
          rw [skip_scan_succ_return C n st hc hr]
          exact hb
        | none =>
          rw [skip_scan_succ_continue C n st hc hr]
          exact ih _ hb
  · intro p b l t w lg he
    have := skip_scan_only_fetches C fuel st _ he
    cases this

theorem call_in_packet {S K R : Type} (C : Collab S K R) (c : Call) (st : stream S K R)
    (hin : index.in_packet st.m_index) :
    index.in_packet (stream.call C c st).state.m_index ∧
    ∀ p b l t w lg, Event.decode p b l t w lg ∈ (stream.call C c st).events →
      b < 12 ∧ l < 32 := by
  cases c with
  | read fuel => exact read_in_packet C fuel st hin
  | skip_scan fuel => exact skip_scan_in_packet C fuel st hin
  | close =>
    refine ⟨hin, ?_⟩
    intro p b l t w lg he
    rcases List.mem_singleton.1 he with h
    cases h

theorem run_in_packet {S K R : Type} (C : Collab S K R) (calls : List Call)
    (st : stream S K R) (hin : index.in_packet st.m_index) :
    ∀ p b l t w lg, Event.decode p b l t w lg ∈ (stream.run C calls st).events →
      b < 12 ∧ l < 32 := by
  induction calls generalizing st with
  | nil => intro p b l t w lg he; cases he
  | cons c cs ih =>
    obtain ⟨c1, c2⟩ := call_in_packet C c st hin
    intro p b l t w lg he
    unfold stream.run at he
    cases hr : (stream.call C c st).result with
    | none =>
      simp only [hr] at he
      exact c2 p b l t w lg he
    | some rep =>
      cases rep with
      | read r =>
        cases r with
        | fault =>
          simp only [hr] at he
          exact c2 p b l t w lg he
        | end_of_stream =>
          simp only [hr] at he
          rcases List.mem_append.1 he with h | h
          · exact c2 p b l t w lg h
          · exact ih _ c1 p b l t w lg h
        | point x =>
          simp only [hr] at he
          rcases List.mem_append.1 he with h | h
          · exact c2 p b l t w lg h
          · exact ih _ c1 p b l t w lg h
      | skip_scan =>
        simp only [hr] at he
        rcases List.mem_append.1 he with h | h
        · exact c2 p b l t w lg h
        · exact ih _ c1 p b l t w lg h
      | close =>
        simp only [hr] at he
        rcases List.mem_append.1 he with h | h
        · exact c2 p b l t w lg h
        · exact ih _ c1 p b l t w lg h

theorem construct_in_packet {S K R : Type} (C : Collab S K R) (src : S) (mode : Option Nat)
    (outputInvalid legacy : Bool) :
    index.in_packet (stream.construct C src mode outputInvalid legacy).m_index := by
  intro h
  have h384 : (stream.construct C src mode outputInvalid legacy).m_index.idx = m_size := by
    cases mode <;> rfl
  omega

/-- C23: every index reached from a fresh index by n < 384 applications of
operator++ has idx = n, block < 12, laser < 32 and
idx = 64 * (block div 2) + 2 * laser + (block mod 2); after exactly 384
applications it is idx = 384, block = 12, laser = 0; and in every sequence of
calls of read, skip_scan and close on a constructed stream, each block and
laser handed to the return builder is within the 12 x 32 bounds of a packet. -/
theorem index_stays_in_packet {S K R : Type} (C : Collab S K R) (src : S)
    (mode : Option Nat) (outputInvalid legacy : Bool) (calls : List Call) :
    (∀ n, n < 384 →
      (index.inc^[n] index.fresh).idx = n ∧
      (index.inc^[n] index.fresh).block < 12 ∧ (index.inc^[n] index.fresh).laser < 32 ∧
      (index.inc^[n] index.fresh).idx =
        64 * ((index.inc^[n] index.fresh).block / 2) + 2 * (index.inc^[n] index.fresh).laser +
          (index.inc^[n] index.fresh).block % 2) ∧
    index.inc^[384] index.fresh = { idx := 384, block := 12, laser := 0 } ∧
    (∀ p b l t w lg,
      Event.decode p b l t w lg ∈
        (stream.run C calls (stream.construct C src mode outputInvalid legacy)).events →
      b < 12 ∧ l < 32) := by
  refine ⟨fun n hn => index_after_in_packet n hn, ?_, ?_⟩
  · exact index_after_closed_form 384 (by omega)
  · exact run_in_packet C calls _ (construct_in_packet C src mode outputInvalid legacy)

theorem index_stays_in_packet_witness :
    ((index.inc^[383] index.fresh).idx = 383 ∧
      (index.inc^[383] index.fresh).block < 12 ∧ (index.inc^[383] index.fresh).laser < 32 ∧
      (index.inc^[383] index.fresh).idx =
        64 * ((index.inc^[383] index.fresh).block / 2) +
          2 * (index.inc^[383] index.fresh).laser + (index.inc^[383] index.fresh).block % 2) ∧
    index.inc^[384] index.fresh = { idx := 384, block := 12, laser := 0 } ∧
    (Event.decode (flat_packet 1 1 1) 1 0 (some 10) (DoubleVal.ofInt 3600) false ∈
        (stream.run replay_C [Call.read 1, Call.read 1]
          (stream.construct replay_C (replay.of [(flat_packet 1 1 1, 10, true)]) (some 600)
            true false)).events ∧
      (1 : Nat) < 12 ∧ (0 : Nat) < 32) :=
  ⟨(index_stays_in_packet replay_C (replay.of [(flat_packet 1 1 1, 10, true)]) (some 600)
      true false [Call.read 1, Call.skip_scan 1, Call.read 1, Call.read 1]).1 383 (by decide),
    (index_stays_in_packet replay_C (replay.of [(flat_packet 1 1 1, 10, true)]) (some 600)
      true false [Call.read 1, Call.skip_scan 1, Call.read 1, Call.read 1]).2.1,
    List.mem_cons_of_mem _ (List.mem_cons_of_mem _ (List.mem_cons_self _ _)),
    (index_stays_in_packet replay_C (replay.of [(flat_packet 1 1 1, 10, true)]) (some 600)
      true false [Call.read 1, Call.read 1]).2.2
      (flat_packet 1 1 1) 1 0 (some 10) (DoubleVal.ofInt 3600) false
      (List.mem_cons_of_mem _ (List.mem_cons_of_mem _ (List.mem_cons_self _ _)))⟩

end snark.velodyne
